import Mathlib

/-!
# Natron keyframe-curve kernel (Engine/Interpolation.cpp)

Shallow embedding of the polynomial solvers, the Hermite segment evaluation, the
clamped integrator and the automatic derivatives of `Engine/Interpolation.cpp`.

Conventions of the embedding.

* C `double` is an arbitrary linear ordered field `α`; the theorems take `α := ℝ`.
  The definitions are computable, so they can be evaluated over `ℚ`.
* The `<cmath>`/boost functions `sqrt`, `cbrt`, `cos`, `acos` and the constant `M_PI` are
  the fields of a record `Libm α` passed to the functions that call them; `realLibm`
  is the record of the real functions.
* The output buffers `double s[n]`, `int o[n]` are functions `Nat → α`, `Nat → Int`
  (an unbounded memory, so that a write past the end of the buffer is visible); a solver
  returns the root count together with the two buffers after its writes.
* `assert` is compiled out (`NDEBUG`): the value functions ignore it.
* A function that throws returns an `Option`: `none` is the exception, and the values
  stored through output pointers are the components of the result.
-/

namespace Natron

/-- Modelled from the spec: the closed tag set `InterpolationKind` (the enum
`Natron::KeyframeType`, whose declaration is in a header outside the sources). -/
inductive KeyframeType
  | KEYFRAME_CONSTANT
  | KEYFRAME_LINEAR
  | KEYFRAME_SMOOTH
  | KEYFRAME_CATMULL_ROM
  | KEYFRAME_CUBIC
  | KEYFRAME_HORIZONTAL
  | KEYFRAME_FREE
  | KEYFRAME_BROKEN
  | KEYFRAME_NONE
  deriving DecidableEq, Repr

open KeyframeType

/-- The library functions the solvers call: `std::sqrt`, `boost::math::cbrt`, `std::cos`,
`std::acos` and the constant `M_PI`. -/
structure Libm (α : Type) where
  sqrt : α → α
  cbrt : α → α
  cos : α → α
  acos : α → α
  M_PI : α

section Defs

variable {α : Type} [LinearOrderedField α]

/-- `hermiteToCubicCoeffs`: the four coefficients `(c0, c1, c2, c3)`. -/
def hermiteToCubicCoeffs (P0 P0pr P3pl P3 : α) : α × α × α × α :=
  (P0, P0pr, 3 * (P3 - P0) - 2 * P0pr - P3pl, -2 * (P3 - P0) + P0pr + P3pl)

/-- `cubicEval`: evaluate at `t`. -/
def cubicEval (c0 c1 c2 c3 t : α) : α :=
  let t2 := t * t
  let t3 := t2 * t
  c0 + c1 * t + c2 * t2 + c3 * t3

/-- `cubicIntegrate`: integrate from `0` to `t`. -/
def cubicIntegrate (c0 c1 c2 c3 t : α) : α :=
  let t2 := t * t
  let t3 := t2 * t
  let t4 := t3 * t
  c0 * t + c1 * t2 / 2 + c2 * t3 / 3 + c3 * t4 / 4

/-- `cubicDerive`: derive at `t` (the first coefficient is unused). -/
def cubicDerive (_c0 c1 c2 c3 t : α) : α :=
  let t2 := t * t
  c1 + 2 * c2 * t + 3 * c3 * t2

/-- `#define EQN_EPS 1e-9`. -/
def EQN_EPS : α := 1 / 1000000000

/-- `isZero`: `x > -EQN_EPS && x < EQN_EPS`. -/
def isZero (x : α) : Prop := x > -EQN_EPS ∧ x < EQN_EPS

instance isZero.instDecidable (x : α) : Decidable (isZero x) := by
  unfold isZero
  exact inferInstance

/-- What a solver hands back: the returned count and the buffers `s`, `o` after the call. -/
structure SolveResult (α : Type) where
  num : Nat
  s : Nat → α
  o : Nat → Int

/-- `Natron::solveLinear`: solve `c0 + c1*x = 0`. -/
def solveLinear (c0 c1 : α) (s : Nat → α) (o : Nat → Int) : SolveResult α :=
  if isZero c1 then
    ⟨0, s, o⟩
  else
    let a := c1
    let b := c0
    ⟨1, Function.update s 0 (-b / a), Function.update o 0 1⟩

/-- `Natron::solveQuadric`: solve `c0 + c1*x + c2*x^2 = 0`. -/
def solveQuadric (L : Libm α) (c0 c1 c2 : α) (s : Nat → α) (o : Nat → Int) : SolveResult α :=
  if isZero c2 then
    solveLinear c0 c1 s o
  else
    let p := c1 / (2 * c2)
    let q := c0 / c2
    let D := p * p - q
    if isZero D then
      ⟨1, Function.update s 0 (-p), Function.update o 0 2⟩
    else if D < 0 then
      ⟨0, s, o⟩
    else
      let sqrt_D := L.sqrt D
      ⟨2, Function.update (Function.update s 0 (sqrt_D - p)) 1 (-sqrt_D - p),
        Function.update (Function.update o 0 1) 1 1⟩

/-- The resubstitution loop `for (i = 0; i < num; ++i) s[i] -= sub`. -/
def resubstitute (num : Nat) (sub : α) (s : Nat → α) : Nat → α :=
  fun i => if i < num then s i - sub else s i

/-- `Natron::solveCubic`: solve `c0 + c1*x + c2*x^2 + c3*x^3 = 0`. -/
def solveCubic (L : Libm α) (c0 c1 c2 c3 : α) (s : Nat → α) (o : Nat → Int) : SolveResult α :=
  if isZero c3 then
    solveQuadric L c0 c1 c2 s o
  else
    let A := c2 / c3
    let B := c1 / c3
    let C := c0 / c3
    let sq_A := A * A
    let p := 1 / 3 * (-1 / 3 * sq_A + B)
    let q := 1 / 2 * (2 / 27 * A * sq_A - 1 / 3 * A * B + C)
    let cb_p := p * p * p
    let D := q * q + cb_p
    let r : SolveResult α :=
      if isZero D then
        if isZero q then
          ⟨1, Function.update s 0 0, Function.update o 0 3⟩
        else
          let u := L.cbrt (-q)
          ⟨2, Function.update (Function.update s 0 (2 * u)) 1 (-u),
            Function.update (Function.update o 0 1) 1 2⟩
      else if D < 0 then
        let phi := 1 / 3 * L.acos (-q / L.sqrt (-cb_p))
        let t := 2 * L.sqrt (-p)
        ⟨3, Function.update (Function.update (Function.update s 0 (t * L.cos phi)) 1
              (-t * L.cos (phi + L.M_PI / 3))) 2 (-t * L.cos (phi - L.M_PI / 3)),
          Function.update (Function.update (Function.update o 0 1) 1 1) 2 1⟩
      else
        let sqrt_D := L.sqrt D
        let u := L.cbrt (sqrt_D + |q|)
        ⟨1, Function.update s 0 (if q > 0 then -u + p / u else u - p / u),
          Function.update o 0 1⟩
    let sub := 1 / 3 * A
    ⟨r.num, resubstitute r.num sub r.s, r.o⟩

/-- The buffer a callee sees through the pointer `s + k`. -/
def offsetView {β : Type} (k : Nat) (s : Nat → β) : Nat → β :=
  fun i => s (k + i)

/-- The caller's buffer after a callee wrote through the pointer `s + k`: the cells below
`k` are the caller's, the cells from `k` on are the callee's. -/
def offsetMerge {β : Type} (k : Nat) (s callee : Nat → β) : Nat → β :=
  fun j => if j < k then s j else callee (j - k)

/-- `Natron::solveQuartic`: solve `c0 + c1*x + c2*x^2 + c3*x^3 + c4*x^4 = 0`. -/
def solveQuartic (L : Libm α) (c0 c1 c2 c3 c4 : α) (s : Nat → α) (o : Nat → Int) :
    SolveResult α :=
  if isZero c4 then
    solveCubic L c0 c1 c2 c3 s o
  else
    let A := c3 / c4
    let B := c2 / c4
    let C := c1 / c4
    let D := c0 / c4
    let sq_A := A * A
    let p := -3 / 8 * sq_A + B
    let q := 1 / 8 * sq_A * A - 1 / 2 * A * B + C
    let r := -3 / 256 * sq_A * sq_A + 1 / 16 * sq_A * B - 1 / 4 * A * C + D
    let sub := 1 / 4 * A
    if isZero r then
      let r1 := solveCubic L q p 0 1 s o
      let num := r1.num
      ⟨num + 1, resubstitute (num + 1) sub (Function.update r1.s num 0),
        Function.update r1.o num 1⟩
    else
      let r1 := solveCubic L (1 / 2 * r * p - 1 / 8 * q * q) (-r) (-1 / 2 * p) (-1) s o
      let z := r1.s 0
      let u := z * z - r
      let v := 2 * z - p
      -- `none` stands for the early `return 0`
      let u' : Option α :=
        if isZero u then some 0 else if u > 0 then some (L.sqrt u) else none
      match u' with
      | none => ⟨0, r1.s, r1.o⟩
      | some u =>
        let v' : Option α :=
          if isZero v then some 0 else if v > 0 then some (L.sqrt v) else none
        match v' with
        | none => ⟨0, r1.s, r1.o⟩
        | some v =>
          let r2 := solveQuadric L (z - u) (if q < 0 then -v else v) 1 r1.s r1.o
          let num := r2.num
          let r3 := solveQuadric L (z + u) (if q < 0 then v else -v) 1
            (offsetView num r2.s) (offsetView num r2.o)
          let num2 := num + r3.num
          ⟨num2, resubstitute num2 sub (offsetMerge num r2.s r3.s), offsetMerge num r2.o r3.o⟩

/-- The assertion `assert(num == 1)` of `solveQuartic` on the resolvent cubic; `True` on the
paths that do not reach it. -/
def solveQuartic_assert (L : Libm α) (c0 c1 c2 c3 c4 : α) (s : Nat → α) (o : Nat → Int) :
    Prop :=
  if isZero c4 then True
  else
    let A := c3 / c4
    let B := c2 / c4
    let C := c1 / c4
    let D := c0 / c4
    let sq_A := A * A
    let p := -3 / 8 * sq_A + B
    let q := 1 / 8 * sq_A * A - 1 / 2 * A * B + C
    let r := -3 / 256 * sq_A * sq_A + 1 / 16 * sq_A * B - 1 / 4 * A * C + D
    if isZero r then True
    else (solveCubic L (1 / 2 * r * p - 1 / 8 * q * q) (-r) (-1 / 2 * p) (-1) s o).num = 1

/-- The local variables the prologue shared by `interpolate`, `derive`, `derive_clamp`,
`integrate` and `integrate_clamp` assigns. -/
structure Segment (α : Type) where
  P0 : α
  P0pr : α
  P3pl : α
  P3 : α
  tcur : α
  tnext : α

/-- The prologue that `interpolate`, `derive`, `derive_clamp`, `integrate` and
`integrate_clamp` all start with (the same statements in each of them): the Hermite
data of the segment after the boundary adjustments for `KEYFRAME_NONE` and
`KEYFRAME_CONSTANT`. -/
def segmentSetup (tcur vcur vcurDerivRight vnextDerivLeft tnext vnext : α)
    (interp interpNext : KeyframeType) : Segment α :=
  let st : Segment α :=
    { P0 := vcur
      P3 := vnext
      P0pr := vcurDerivRight * (tnext - tcur)
      P3pl := vnextDerivLeft * (tnext - tcur)
      tcur := tcur
      tnext := tnext }
  let st : Segment α :=
    if interp = KEYFRAME_NONE then
      -- virtual previous frame at t-1
      { st with P0 := st.P3 - st.P3pl, P0pr := st.P3pl, tcur := st.tnext - 1 }
    else if interp = KEYFRAME_CONSTANT then
      { st with P0pr := 0, P3pl := 0, P3 := st.P0 }
    else st
  if interpNext = KEYFRAME_NONE then
    -- virtual next frame at t+1
    { st with P3pl := st.P0pr, P3 := st.P0 + st.P0pr, tnext := st.tcur + 1 }
  else st

/-- The coefficients `hermiteToCubicCoeffs` computes from the prologue's variables. -/
def Segment.coeffs (st : Segment α) : α × α × α × α :=
  hermiteToCubicCoeffs st.P0 st.P0pr st.P3pl st.P3

/-- The assertion at the head of `interpolate`, `derive` and `derive_clamp`. -/
def interpolate_assert (tcur tnext currentTime : α) (interp interpNext : KeyframeType) : Prop :=
  (interp = KEYFRAME_NONE ∨ tcur ≤ currentTime) ∧
    (currentTime < tnext ∨ interpNext = KEYFRAME_NONE)

/-- The assertion at the head of `integrate` and `integrate_clamp`. -/
def integrate_assert (tcur tnext time1 time2 : α) (interp interpNext : KeyframeType) : Prop :=
  (interp = KEYFRAME_NONE ∨ tcur ≤ time1) ∧ time1 ≤ time2 ∧
    (time2 ≤ tnext ∨ interpNext = KEYFRAME_NONE)

/-- `Natron::interpolate`. -/
def interpolate (tcur vcur vcurDerivRight vnextDerivLeft tnext vnext currentTime : α)
    (interp interpNext : KeyframeType) : α :=
  let st := segmentSetup tcur vcur vcurDerivRight vnextDerivLeft tnext vnext interp interpNext
  let c := st.coeffs
  let t := (currentTime - st.tcur) / (st.tnext - st.tcur)
  cubicEval c.1 c.2.1 c.2.2.1 c.2.2.2 t

/-- `Natron::derive`: derive at `currentTime`, with respect to `currentTime`. -/
def derive (tcur vcur vcurDerivRight vnextDerivLeft tnext vnext currentTime : α)
    (interp interpNext : KeyframeType) : α :=
  let st := segmentSetup tcur vcur vcurDerivRight vnextDerivLeft tnext vnext interp interpNext
  let c := st.coeffs
  let t := (currentTime - st.tcur) / (st.tnext - st.tcur)
  let ret := cubicDerive c.1 c.2.1 c.2.2.1 c.2.2.2 t
  ret / (st.tnext - st.tcur)

/-- `Natron::derive_clamp`. -/
def derive_clamp (tcur vcur vcurDerivRight vnextDerivLeft tnext vnext currentTime vmin vmax : α)
    (interp interpNext : KeyframeType) : α :=
  let st := segmentSetup tcur vcur vcurDerivRight vnextDerivLeft tnext vnext interp interpNext
  let c := st.coeffs
  let t := (currentTime - st.tcur) / (st.tnext - st.tcur)
  let v := cubicEval c.1 c.2.1 c.2.2.1 c.2.2.2 t
  if vmin < v ∧ v < vmax then
    cubicDerive c.1 c.2.1 c.2.2.1 c.2.2.2 t / (st.tnext - st.tcur)
  else 0

/-- `Natron::integrate`: integrate from `time1` to `time2`. -/
def integrate (tcur vcur vcurDerivRight vnextDerivLeft tnext vnext time1 time2 : α)
    (interp interpNext : KeyframeType) : α :=
  let st := segmentSetup tcur vcur vcurDerivRight vnextDerivLeft tnext vnext interp interpNext
  let c := st.coeffs
  let t2 := (time2 - st.tcur) / (st.tnext - st.tcur)
  let ret := cubicIntegrate c.1 c.2.1 c.2.2.1 c.2.2.2 t2
  let ret :=
    if time1 ≠ st.tcur then
      let t1 := (time1 - st.tcur) / (st.tnext - st.tcur)
      ret - cubicIntegrate c.1 c.2.1 c.2.2.1 c.2.2.2 t1
    else ret
  ret * (st.tnext - st.tcur)

/-- `enum eSolType`. -/
inductive eSolType
  | SOLMIN
  | SOLMAX
  deriving DecidableEq, Repr

/-- `enum eFuncType`. -/
inductive eFuncType
  | CLAMPMIN
  | CLAMPMAX
  | CUBIC
  deriving DecidableEq, Repr

open eSolType eFuncType

/-- `struct Sol`. -/
structure Sol (α : Type) where
  type : eSolType
  t : α
  order : Int
  deriv : α

/-- `Sol_less_than_t::operator()`. -/
def Sol_less_than_t (struct1 struct2 : Sol α) : Prop := struct1.t < struct2.t

instance Sol_less_than_t.instDecidable (a b : Sol α) : Decidable (Sol_less_than_t a b) := by
  unfold Sol_less_than_t
  exact inferInstance

/-- The library call `std::sort(sols.begin(), sols.end(), Sol_less_than_t())`, as the
insertion sort the standard libraries run on a sequence this short (at most six
elements): an element is put before the first one that does not compare less than it, so
solutions with equal `t` keep the order in which they were pushed. -/
def sortSols (sols : List (Sol α)) : List (Sol α) :=
  sols.insertionSort (fun a b => ¬ Sol_less_than_t b a)

/-- `statusUpdate`: the function type after `sol`, from the function type before `sol`
(`sol.order % 2` is C's truncating remainder). -/
def statusUpdate (status : eFuncType) (sol : Sol α) : eFuncType :=
  match status with
  | CLAMPMIN => if sol.order.tmod 2 ≠ 0 then CUBIC else status
  | CLAMPMAX => if sol.order.tmod 2 ≠ 0 then CUBIC else status
  | CUBIC =>
    if sol.type = SOLMIN then
      if sol.order.tmod 2 ≠ 0 then CLAMPMIN else status
    else
      if sol.order.tmod 2 ≠ 0 then CLAMPMAX else status

/-- The assertions `statusUpdate` makes on its arguments. -/
def statusUpdate_assert (status : eFuncType) (sol : Sol α) : Prop :=
  match status with
  | CLAMPMIN => sol.type = SOLMIN ∧ sol.deriv ≥ -EQN_EPS
  | CLAMPMAX => sol.type = SOLMAX ∧ sol.deriv ≤ EQN_EPS
  | CUBIC => if sol.type = SOLMIN then sol.deriv ≤ EQN_EPS else sol.deriv ≥ -EQN_EPS

/-- The loop `while (it != sols.end() && it->t <= t1)` of `integrate_clamp`: the status at
`t1` and the solutions the iterator has not passed. -/
def statusAtT1 (t1 : α) : eFuncType → List (Sol α) → eFuncType × List (Sol α)
  | status, [] => (status, [])
  | status, sol :: it =>
    if sol.t ≤ t1 then statusAtT1 t1 (statusUpdate status sol) it
    else (status, sol :: it)

/-- The contribution of one span `[t, tend]` in the given status (the `switch (status)` of
`integrate_clamp`, which occurs in the loop and once more after it). -/
def spanIntegral (c0 c1 c2 c3 vmin vmax : α) (status : eFuncType) (t tend : α) : α :=
  match status with
  | CLAMPMAX => (tend - t) * vmax
  | CLAMPMIN => (tend - t) * vmin
  | CUBIC => cubicIntegrate c0 c1 c2 c3 tend - cubicIntegrate c0 c1 c2 c3 t

/-- The loop `while (it != sols.end() && it->t < t2)` of `integrate_clamp`: the status, the
time `t` and the sum `ret` when it ends. -/
def integrateSpans (c0 c1 c2 c3 vmin vmax t2 : α) :
    eFuncType → α → α → List (Sol α) → eFuncType × α × α
  | status, t, ret, [] => (status, t, ret)
  | status, t, ret, sol :: it =>
    if sol.t < t2 then
      integrateSpans c0 c1 c2 c3 vmin vmax t2 (statusUpdate status sol) sol.t
        (ret + spanIntegral c0 c1 c2 c3 vmin vmax status t sol.t) it
    else (status, t, ret)

/-- The vector `sols` of `integrate_clamp` before it is sorted: the solutions of
`cubic = vmax`, then those of `cubic = vmin`, each with the derivative of the cubic at it.
The local arrays `tmax`, `omax`, `tmin`, `omin` start as zeros. -/
def clampSols (L : Libm α) (c0 c1 c2 c3 vmin vmax : α) : List (Sol α) :=
  let rmax := solveCubic L (c0 - vmax) c1 c2 c3 (fun _ => 0) (fun _ => 0)
  let rmin := solveCubic L (c0 - vmin) c1 c2 c3 (fun _ => 0) (fun _ => 0)
  (List.range rmax.num).map
      (fun i => Sol.mk SOLMAX (rmax.s i) (rmax.o i) (cubicDerive c0 c1 c2 c3 (rmax.s i))) ++
    (List.range rmin.num).map
      (fun i => Sol.mk SOLMIN (rmin.s i) (rmin.o i) (cubicDerive c0 c1 c2 c3 (rmin.s i)))

/-- `Natron::integrate_clamp`: integrate from `time1` to `time2` with clamping of the
function values in `[vmin, vmax]`. -/
def integrate_clamp (L : Libm α)
    (tcur vcur vcurDerivRight vnextDerivLeft tnext vnext time1 time2 vmin vmax : α)
    (interp interpNext : KeyframeType) : α :=
  let st := segmentSetup tcur vcur vcurDerivRight vnextDerivLeft tnext vnext interp interpNext
  let c := st.coeffs
  let c0 := c.1
  let c1 := c.2.1
  let c2 := c.2.2.1
  let c3 := c.2.2.2
  let sols := clampSols L c0 c1 c2 c3 vmin vmax
  let t2 := (time2 - st.tcur) / (st.tnext - st.tcur)
  let t1 := (time1 - st.tcur) / (st.tnext - st.tcur)
  match sortSols sols with
  | [] =>
    -- special case: no solution
    let val := cubicEval c0 c1 c2 c3 t1
    let val := if val < vmin then vmin else if val > vmax then vmax else val
    val * (time2 - time1)
  | sol0 :: rest =>
    let status : eFuncType := if sol0.type = SOLMAX then CLAMPMAX else CLAMPMIN
    let (status, it) := statusAtT1 t1 status (sol0 :: rest)
    let (status, t, ret) := integrateSpans c0 c1 c2 c3 vmin vmax t2 status t1 0 it
    let ret := ret + spanIntegral c0 c1 c2 c3 vmin vmax status t t2
    ret * (st.tnext - st.tcur)

/-- The assertions of the `statusUpdate` calls that the loop
`while (it != sols.end() && it->t <= t1)` of `integrate_clamp` makes. -/
def statusAtT1_assert (t1 : α) : eFuncType → List (Sol α) → Prop
  | _, [] => True
  | status, sol :: it =>
    if sol.t ≤ t1 then
      statusUpdate_assert status sol ∧ statusAtT1_assert t1 (statusUpdate status sol) it
    else True

/-- The assertions of the `statusUpdate` calls that the loop
`while (it != sols.end() && it->t < t2)` of `integrate_clamp` makes. -/
def integrateSpans_assert (t2 : α) : eFuncType → List (Sol α) → Prop
  | _, [] => True
  | status, sol :: it =>
    if sol.t < t2 then
      statusUpdate_assert status sol ∧ integrateSpans_assert t2 (statusUpdate status sol) it
    else True

/-- The assertions `integrate_clamp` makes after the one at its head (`integrate_assert`):
the assertion on the derivative at the first solution, and those of the `statusUpdate` calls
of its two loops. `True` when there is no solution. -/
def integrate_clamp_assert (L : Libm α)
    (tcur vcur vcurDerivRight vnextDerivLeft tnext vnext time1 time2 vmin vmax : α)
    (interp interpNext : KeyframeType) : Prop :=
  let st := segmentSetup tcur vcur vcurDerivRight vnextDerivLeft tnext vnext interp interpNext
  let c := st.coeffs
  let sols := clampSols L c.1 c.2.1 c.2.2.1 c.2.2.2 vmin vmax
  let t2 := (time2 - st.tcur) / (st.tnext - st.tcur)
  let t1 := (time1 - st.tcur) / (st.tnext - st.tcur)
  match sortSols sols with
  | [] => True
  | sol0 :: rest =>
    let status : eFuncType := if sol0.type = SOLMAX then CLAMPMAX else CLAMPMIN
    (if sol0.type = SOLMAX then sol0.deriv < EQN_EPS else sol0.deriv > -EQN_EPS) ∧
      statusAtT1_assert t1 status (sol0 :: rest) ∧
      integrateSpans_assert t2 (statusAtT1 t1 status (sol0 :: rest)).1
        (statusAtT1 t1 status (sol0 :: rest)).2

/-- The two values `autoComputeDerivatives` stores through its output pointers
`vcurDerivLeft` and `vcurDerivRight`. -/
structure Derivatives (α : Type) where
  vcurDerivLeft : α
  vcurDerivRight : α

/-- The first clamping block of the `KEYFRAME_SMOOTH` case of `autoComputeDerivatives`:
the Bezier point `Q2` is clamped to the range of `vprev` and `vcur`, and `P1` is scaled with
it. The result is the pair `(P1, Q2)` after the block. -/
def smoothClampPrev (vprev vcur P0 Q3 P1 Q2 : α) : α × α :=
  let prevMax := max vprev vcur
  let prevMin := min vprev vcur
  if Q2 < prevMin ∨ Q2 > prevMax then
    let Q2new := max prevMin (min Q2 prevMax)
    (P0 + (P1 - P0) * (Q3 - Q2new) / (Q3 - Q2), Q2new)
  else (P1, Q2)

/-- The second clamping block of the `KEYFRAME_SMOOTH` case of `autoComputeDerivatives`:
the Bezier point `P1` is clamped to the range of `vcur` and `vnext`, and `Q2` is scaled with
it. The result is the pair `(P1, Q2)` after the block. -/
def smoothClampNext (vcur vnext P0 Q3 P1 Q2 : α) : α × α :=
  let nextMax := max vcur vnext
  let nextMin := min vcur vnext
  if P1 < nextMin ∨ P1 > nextMax then
    let P1new := max nextMin (min P1 nextMax)
    (P1new, Q3 - (Q3 - Q2) * (P1new - P0) / (P1 - P0))
  else (P1, Q2)

/-- `Natron::autoComputeDerivatives`: the left and right derivative of the keyframe `cur`
from the interpolation method `interp` and the previous and next keyframes. The result is
`none` where the function throws `std::runtime_error`, and the pair of stored values where
it returns. The zeros stored first when both neighbours are `KEYFRAME_NONE` are
overwritten by the two assignments at the end, and the final `assert` is compiled out. -/
def autoComputeDerivatives (interpPrev interp interpNext : KeyframeType)
    (tprev vprev tcur vcur tnext vnext vprevDerivRight vnextDerivLeft : α) :
    Option (Derivatives α) :=
  let Q0 := vprev
  let Q3 := vcur
  let P0 := vcur
  let P3 := vnext
  -- Hermite coefficients P0' and P3' are the derivatives with respect to x in [0,1]
  let tprev := if interpPrev = KEYFRAME_NONE then tcur - 1 else tprev
  let tnext := if interpNext = KEYFRAME_NONE then tcur + 1 else tnext
  let Q0pr := vprevDerivRight * (tcur - tprev)
  let P3pl := vnextDerivLeft * (tnext - tcur)
  -- if there is no next/previous keyframe, use LINEAR interpolation
  let keyframe_none_same_derivative : Bool :=
    if interpPrev = KEYFRAME_NONE ∨ interpNext = KEYFRAME_NONE then
      decide (interp = KEYFRAME_CATMULL_ROM ∨ interp = KEYFRAME_CUBIC)
    else false
  let interp :=
    if interpPrev = KEYFRAME_NONE ∨ interpNext = KEYFRAME_NONE then KEYFRAME_LINEAR else interp
  -- the two assignments after the switch
  let store (P0pr Q3pl : α) : Option (Derivatives α) :=
    some { vcurDerivRight := P0pr / (tnext - tcur), vcurDerivLeft := Q3pl / (tcur - tprev) }
  match interp with
  | KEYFRAME_LINEAR =>
    let P0pr :=
      if interpNext = KEYFRAME_NONE then 0
      else if interpNext = KEYFRAME_LINEAR then -P0 + P3
      else -3 / 2 * P0 + 3 / 2 * P3 - P3pl / 2
    let Q3pl :=
      if interpPrev = KEYFRAME_NONE then 0
      else if interpPrev = KEYFRAME_LINEAR then -Q0 + P0
      else -3 / 2 * Q0 - Q0pr / 2 + 3 / 2 * P0
    if keyframe_none_same_derivative = true then
      if interpNext = KEYFRAME_NONE then store (Q3pl / (tcur - tprev)) Q3pl
      else if interpPrev = KEYFRAME_NONE then store P0pr (P0pr / (tnext - tcur))
      else store P0pr Q3pl
    else store P0pr Q3pl
  | KEYFRAME_CATMULL_ROM =>
    let deriv := (vnext - vprev) / (tnext - tprev)
    store (deriv * (tnext - tcur)) (deriv * (tcur - tprev))
  | KEYFRAME_SMOOTH =>
    -- If vcur is outside of the range [vprev,vnext], then interpolation is horizontal
    if (vprev > vcur ∧ vcur < vnext) ∨ (vprev < vcur ∧ vcur > vnext) then store 0 0
    else
      let deriv := (vnext - vprev) / (tnext - tprev)
      let P0pr := deriv * (tnext - tcur)
      let Q3pl := deriv * (tcur - tprev)
      let P1 := P0 + P0pr / 3
      let Q2 := Q3 - Q3pl / 3
      -- We clamp Q2 to Q0 (aka vprev) and Q3 (aka vcur) and P1 to P0 (aka vcur) and P3 (aka vnext)
      let pq := smoothClampPrev vprev vcur P0 Q3 P1 Q2
      let pq := smoothClampNext vcur vnext P0 Q3 pq.1 pq.2
      -- We recompute the derivatives from the new clamped control points
      store (3 * (pq.1 - P0)) (3 * (Q3 - pq.2))
  | KEYFRAME_HORIZONTAL => store 0 0
  | KEYFRAME_CONSTANT => store 0 0
  | KEYFRAME_CUBIC =>
    if interpPrev = KEYFRAME_LINEAR ∧ interpNext = KEYFRAME_LINEAR then
      store
        (-((Q0 * tnext - Q0 * tcur - P0 * tprev - P3 * tcur + P3 * tprev - P0 * tnext
          + 2 * P0 * tcur) / (tcur - tprev)) / 2)
        ((Q0 * tnext - Q0 * tcur - P0 * tprev - P3 * tcur + P3 * tprev - P0 * tnext
          + 2 * P0 * tcur) / (-tnext + tcur) / 2)
    else if interpPrev = KEYFRAME_LINEAR then
      store
        (-((-6 * P0 * tprev - 6 * P3 * tcur + 6 * P3 * tprev + 2 * P3pl * tcur
          - 2 * P3pl * tprev + 3 * Q0 * tnext - 3 * Q0 * tcur - 3 * P0 * tnext
          + 9 * P0 * tcur) / (tcur - tprev)) / 7)
        ((-6 * P0 * tprev - 6 * P3 * tcur + 6 * P3 * tprev + 2 * P3pl * tcur
          - 2 * P3pl * tprev + 3 * Q0 * tnext - 3 * Q0 * tcur - 3 * P0 * tnext
          + 9 * P0 * tcur) / (-tnext + tcur) / 7)
    else if interpNext = KEYFRAME_LINEAR then
      store
        (-((-3 * P0 * tprev - 3 * P3 * tcur + 3 * P3 * tprev + 6 * Q0 * tnext
          - 6 * Q0 * tcur + 2 * Q0pr * tnext - 2 * Q0pr * tcur - 6 * P0 * tnext
          + 9 * P0 * tcur) / (tcur - tprev)) / 7)
        ((-3 * P0 * tprev - 3 * P3 * tcur + 3 * P3 * tprev + 6 * Q0 * tnext
          - 6 * Q0 * tcur + 2 * Q0pr * tnext - 2 * Q0pr * tcur - 6 * P0 * tnext
          + 9 * P0 * tcur) / (-tnext + tcur) / 7)
    else
      store
        (-((6 * P0 * tcur - 3 * P0 * tprev - 3 * P3 * tcur + 3 * P3 * tprev + P3pl * tcur
          - P3pl * tprev + 3 * Q0 * tnext - 3 * Q0 * tcur + Q0pr * tnext - Q0pr * tcur
          - 3 * P0 * tnext) / (tcur - tprev)) / 4)
        ((6 * P0 * tcur - 3 * P0 * tprev - 3 * P3 * tcur + 3 * P3 * tprev + P3pl * tcur
          - P3pl * tprev + 3 * Q0 * tnext - 3 * Q0 * tcur + Q0pr * tnext - Q0pr * tcur
          - 3 * P0 * tnext) / (-tnext + tcur) / 4)
  | KEYFRAME_NONE => none
  | KEYFRAME_FREE => none
  | KEYFRAME_BROKEN => none

/-! ### Names for the intermediate values of the solvers -/

/-- The coefficient `p` of the normal form `x^2 + 2 p x + q` in `solveQuadric`. -/
def quadricP (c1 c2 : α) : α := c1 / (2 * c2)

/-- The coefficient `q` of `solveQuadric`. -/
def quadricQ (c0 c2 : α) : α := c0 / c2

/-- The discriminant `D = p*p - q` of `solveQuadric`. -/
def quadricD (c0 c1 c2 : α) : α := quadricP c1 c2 * quadricP c1 c2 - quadricQ c0 c2

/-- The coefficient `A` of the normalized equation in `solveCubic`. -/
def cubicA (c2 c3 : α) : α := c2 / c3

/-- The value `p` of `solveCubic`. -/
def cubicP (c1 c2 c3 : α) : α := 1 / 3 * (-1 / 3 * (cubicA c2 c3 * cubicA c2 c3) + c1 / c3)

/-- The value `q` of `solveCubic`. -/
def cubicQ (c0 c1 c2 c3 : α) : α :=
  1 / 2 * (2 / 27 * cubicA c2 c3 * (cubicA c2 c3 * cubicA c2 c3)
    - 1 / 3 * cubicA c2 c3 * (c1 / c3) + c0 / c3)

/-- The discriminant `D = q*q + p*p*p` of `solveCubic`. -/
def cubicD (c0 c1 c2 c3 : α) : α :=
  cubicQ c0 c1 c2 c3 * cubicQ c0 c1 c2 c3 + cubicP c1 c2 c3 * cubicP c1 c2 c3 * cubicP c1 c2 c3

/-- The coefficient `A` of the normalized equation in `solveQuartic`. -/
def quarticA (c3 c4 : α) : α := c3 / c4

/-- The value `p` of `solveQuartic`. -/
def quarticP (c2 c3 c4 : α) : α := -3 / 8 * (quarticA c3 c4 * quarticA c3 c4) + c2 / c4

/-- The value `q` of `solveQuartic`. -/
def quarticQ (c1 c2 c3 c4 : α) : α :=
  1 / 8 * (quarticA c3 c4 * quarticA c3 c4) * quarticA c3 c4
    - 1 / 2 * quarticA c3 c4 * (c2 / c4) + c1 / c4

/-- The value `r` of `solveQuartic`. -/
def quarticR (c0 c1 c2 c3 c4 : α) : α :=
  -3 / 256 * (quarticA c3 c4 * quarticA c3 c4) * (quarticA c3 c4 * quarticA c3 c4)
    + 1 / 16 * (quarticA c3 c4 * quarticA c3 c4) * (c2 / c4)
    - 1 / 4 * quarticA c3 c4 * (c1 / c4) + c0 / c4

/-- The call of `solveCubic` on the resolvent cubic in `solveQuartic`. -/
def quarticResolvent (L : Libm α) (c0 c1 c2 c3 c4 : α) (s : Nat → α) (o : Nat → Int) :
    SolveResult α :=
  solveCubic L
    (1 / 2 * quarticR c0 c1 c2 c3 c4 * quarticP c2 c3 c4
      - 1 / 8 * quarticQ c1 c2 c3 c4 * quarticQ c1 c2 c3 c4)
    (-quarticR c0 c1 c2 c3 c4) (-1 / 2 * quarticP c2 c3 c4) (-1) s o

/-- The radicand `u = z*z - r` of `solveQuartic`, `z` the first root of the resolvent. -/
def quarticU (L : Libm α) (c0 c1 c2 c3 c4 : α) (s : Nat → α) (o : Nat → Int) : α :=
  (quarticResolvent L c0 c1 c2 c3 c4 s o).s 0 * (quarticResolvent L c0 c1 c2 c3 c4 s o).s 0
    - quarticR c0 c1 c2 c3 c4

/-- The radicand `v = 2*z - p` of `solveQuartic`. -/
def quarticV (L : Libm α) (c0 c1 c2 c3 c4 : α) (s : Nat → α) (o : Nat → Int) : α :=
  2 * (quarticResolvent L c0 c1 c2 c3 c4 s o).s 0 - quarticP c2 c3 c4

/-- The sum of the multiplicities of the returned roots. -/
def SolveResult.orderSum {α : Type} (r : SolveResult α) : Int :=
  ∑ i in Finset.range r.num, r.o i

/-- A solver of degree `n` kept to its contract on the buffers `s`, `o` it was given: at most
`n` roots, no write at an index from `n` on, multiplicities summing to at most `n`. -/
def SolveResult.Within {α : Type} (r : SolveResult α) (n : Nat) (s : Nat → α) (o : Nat → Int) :
    Prop :=
  r.num ≤ n ∧ (∀ i, n ≤ i → r.s i = s i ∧ r.o i = o i) ∧ r.orderSum ≤ n

/-- The roots a solver returned, each with its multiplicity, in buffer order. -/
def SolveResult.roots {α : Type} (r : SolveResult α) : List (α × Int) :=
  (List.range r.num).map (fun i => (r.s i, r.o i))

/-- The product of `(x - root) ^ multiplicity` over a list of roots. -/
def rootProduct (R : List (α × Int)) (x : α) : α :=
  (R.map (fun p => (x - p.1) ^ p.2.toNat)).prod

/-- The function `g` is `K` times the root product of `R` times a factor that is positive
everywhere; the multiplicities are at least one and their sum has the parity of `d`. -/
def Factored (g : α → α) (K : α) (d : Int) (R : List (α × Int)) : Prop :=
  K ≠ 0 ∧ (∀ p ∈ R, 1 ≤ p.2) ∧ (R.map Prod.snd).sum % 2 = d % 2 ∧
    ∃ h : α → α, (∀ x, 0 < h x) ∧ ∀ x, g x = K * rootProduct R x * h x

/-- No near-zero test of `solveQuadric` is passed by a value that is not exactly zero. -/
def quadricSharp (c0 c1 c2 : α) : Prop :=
  if isZero c2 then c2 = 0
  else (isZero (quadricD c0 c1 c2) → quadricD c0 c1 c2 = 0)

/-- No near-zero test of `solveCubic` is passed by a value that is not exactly zero. -/
def cubicSharp (c0 c1 c2 c3 : α) : Prop :=
  if isZero c3 then c3 = 0 ∧ quadricSharp c0 c1 c2
  else (isZero (cubicD c0 c1 c2 c3) →
    cubicD c0 c1 c2 c3 = 0 ∧ (isZero (cubicQ c0 c1 c2 c3) → cubicQ c0 c1 c2 c3 = 0))

/-- No near-zero test of `solveQuartic` is passed by a value that is not exactly zero, and
the call does not reach the resolvent cubic. -/
def quarticSharp (c0 c1 c2 c3 c4 : α) : Prop :=
  if isZero c4 then c4 = 0 ∧ cubicSharp c0 c1 c2 c3
  else quarticR c0 c1 c2 c3 c4 = 0 ∧
    cubicSharp (quarticQ c1 c2 c3 c4) (quarticP c2 c3 c4) 0 1

/-- The clamp of a value to `[vmin, vmax]`, as the specification writes it:
`min(max(v, vmin), vmax)`. -/
def clampValue (vmin vmax v : α) : α := min (max v vmin) vmax

/-- The integrand `integrate_clamp` uses on a span in the given status: the bound on a
clamped span, the cubic on a free one. -/
def statusValue (c0 c1 c2 c3 vmin vmax : α) (status : eFuncType) (x : α) : α :=
  match status with
  | eFuncType.CLAMPMAX => vmax
  | eFuncType.CLAMPMIN => vmin
  | eFuncType.CUBIC => cubicEval c0 c1 c2 c3 x

/-- The status describes the clamped cubic at `x`. -/
def StatusValid (c0 c1 c2 c3 vmin vmax : α) (status : eFuncType) (x : α) : Prop :=
  clampValue vmin vmax (cubicEval c0 c1 c2 c3 x) = statusValue c0 c1 c2 c3 vmin vmax status x

/-- The test `sol.order % 2` of `statusUpdate`: the multiplicity is odd. -/
def oddOrder (order : Int) : Prop := order.tmod 2 ≠ 0

instance oddOrder.instDecidable (order : Int) : Decidable (oddOrder order) := by
  unfold oddOrder
  exact inferInstance

/-- The number of roots of odd multiplicity in `R` that lie before `x`. -/
def oddBelow (R : List (α × Int)) (x : α) : Nat :=
  (R.filter (fun p => decide (p.1 < x ∧ oddOrder p.2))).length

/-- The product of `(root - x) ^ multiplicity` over a list of roots. -/
def signedProduct (R : List (α × Int)) (x : α) : α :=
  (R.map (fun p => (p.1 - x) ^ p.2.toNat)).prod

/-- Away from the roots in `R` the function `g` does not vanish, and the sign of
`sigma * g x` is given by the parity of the number of odd roots before `x`. -/
def SignRule (g : α → α) (sigma : α) (R : List (α × Int)) : Prop :=
  ∀ x, (∀ p ∈ R, p.1 ≠ x) → g x ≠ 0 ∧ (0 < sigma * g x ↔ Even (oddBelow R x))

/-- The element `integrate_clamp` pushes on `sols` for a root of the given type. -/
def rootSol (c0 c1 c2 c3 : α) (type : eSolType) (p : α × Int) : Sol α :=
  ⟨type, p.1, p.2, cubicDerive c0 c1 c2 c3 p.1⟩

/-- The hypothesis of the scan: after any processed prefix of the solutions, the status is
valid at every point that lies after the prefix and before the remaining solutions. -/
def ScanValid (c0 c1 c2 c3 vmin vmax : α) (init : eFuncType) (l : List (Sol α)) : Prop :=
  ∀ done rest : List (Sol α), l = done ++ rest → ∀ x : α, (∀ s ∈ done, s.t < x) →
    (∀ s ∈ rest, x < s.t) →
    StatusValid c0 c1 c2 c3 vmin vmax (done.foldl statusUpdate init) x

/-- The coefficient `solveCubic` treats as the leading one: the highest of `c3`, `c2`, `c1`
that is not near zero (`c1` when all are). -/
def leadCoeff (c1 c2 c3 : α) : α :=
  if ¬ isZero c3 then c3 else if ¬ isZero c2 then c2 else c1

/-- The degree `solveCubic` solves the equation at. -/
def leadDegree (c2 c3 : α) : Int :=
  if ¬ isZero c3 then 3 else if ¬ isZero c2 then 2 else 1

/-- No near-zero test made by the two `solveCubic` calls of `integrate_clamp` (for
`cubic = vmax` and `cubic = vmin`) or by the solvers they delegate to is passed by a value
that is not exactly zero. -/
def clampSharp (c0 c1 c2 c3 vmin vmax : α) : Prop :=
  cubicSharp (c0 - vmax) c1 c2 c3 ∧ cubicSharp (c0 - vmin) c1 c2 c3 ∧
    (isZero c3 → isZero c2 → isZero c1 → c1 = 0)

/-- Second derivative of the cubic `cubicEval c0 c1 c2 c3` at `t`: the derivative of
`cubicDerive c0 c1 c2 c3` at `t`. -/
def cubicDerive2 (c2 c3 t : α) : α := 2 * c2 + 6 * c3 * t

/-- Second derivative with respect to time, at the time `q`, of the Hermite segment that
`interpolate` evaluates between a keyframe `(tcur, vcur)` with right derivative
`vcurDerivRight` and a keyframe `(tnext, vnext)` with left derivative `vnextDerivLeft`
(both keyframes present, the first one not constant). -/
def segmentDerive2 (tcur vcur vcurDerivRight vnextDerivLeft tnext vnext q : α) : α :=
  let c := hermiteToCubicCoeffs vcur (vcurDerivRight * (tnext - tcur))
    (vnextDerivLeft * (tnext - tcur)) vnext
  cubicDerive2 c.2.2.1 c.2.2.2 ((q - tcur) / (tnext - tcur)) /
    ((tnext - tcur) * (tnext - tcur))

end Defs

/-- The cube root of a real number, odd like `boost::math::cbrt`. -/
noncomputable def realCbrt (x : ℝ) : ℝ :=
  if 0 ≤ x then x ^ ((1 : ℝ) / 3) else -((-x) ^ ((1 : ℝ) / 3))

/-- The library functions over the real numbers. -/
noncomputable def realLibm : Libm ℝ where
  sqrt := Real.sqrt
  cbrt := realCbrt
  cos := Real.cos
  acos := Real.arccos
  M_PI := Real.pi

/-! ## Theorems -/

open KeyframeType eSolType eFuncType

section Lemmas

variable {α : Type} [LinearOrderedField α]

/-! ### The branches of the solvers -/

theorem solveQuadric_of_isZero (L : Libm α) (c0 c1 c2 : α) (s : Nat → α) (o : Nat → Int)
    (h : isZero c2) : solveQuadric L c0 c1 c2 s o = solveLinear c0 c1 s o := by
  simp only [solveQuadric, if_pos h]

theorem solveQuadric_double (L : Libm α) (c0 c1 c2 : α) (s : Nat → α) (o : Nat → Int)
    (h : ¬ isZero c2) (hD : isZero (quadricD c0 c1 c2)) :
    solveQuadric L c0 c1 c2 s o =
      ⟨1, Function.update s 0 (-quadricP c1 c2), Function.update o 0 2⟩ := by
  unfold quadricD quadricP quadricQ at hD
  simp only [solveQuadric, if_neg h, if_pos hD, quadricP]

theorem solveQuadric_none (L : Libm α) (c0 c1 c2 : α) (s : Nat → α) (o : Nat → Int)
    (h : ¬ isZero c2) (hD : ¬ isZero (quadricD c0 c1 c2)) (hD' : quadricD c0 c1 c2 < 0) :
    solveQuadric L c0 c1 c2 s o = ⟨0, s, o⟩ := by
  unfold quadricD quadricP quadricQ at hD hD'
  simp only [solveQuadric, if_neg h, if_neg hD, if_pos hD']

theorem solveQuadric_two (L : Libm α) (c0 c1 c2 : α) (s : Nat → α) (o : Nat → Int)
    (h : ¬ isZero c2) (hD : ¬ isZero (quadricD c0 c1 c2)) (hD' : ¬ quadricD c0 c1 c2 < 0) :
    solveQuadric L c0 c1 c2 s o =
      ⟨2, Function.update (Function.update s 0 (L.sqrt (quadricD c0 c1 c2) - quadricP c1 c2)) 1
            (-L.sqrt (quadricD c0 c1 c2) - quadricP c1 c2),
        Function.update (Function.update o 0 1) 1 1⟩ := by
  unfold quadricD quadricP quadricQ at hD hD'
  simp only [solveQuadric, if_neg h, if_neg hD, if_neg hD', quadricD, quadricP, quadricQ]

theorem solveCubic_of_isZero (L : Libm α) (c0 c1 c2 c3 : α) (s : Nat → α) (o : Nat → Int)
    (h : isZero c3) : solveCubic L c0 c1 c2 c3 s o = solveQuadric L c0 c1 c2 s o := by
  simp only [solveCubic, if_pos h]

theorem solveCubic_triple (L : Libm α) (c0 c1 c2 c3 : α) (s : Nat → α) (o : Nat → Int)
    (h : ¬ isZero c3) (hD : isZero (cubicD c0 c1 c2 c3)) (hq : isZero (cubicQ c0 c1 c2 c3)) :
    solveCubic L c0 c1 c2 c3 s o =
      ⟨1, resubstitute 1 (1 / 3 * cubicA c2 c3) (Function.update s 0 0),
        Function.update o 0 3⟩ := by
  unfold cubicD cubicQ cubicP cubicA at hD
  unfold cubicQ cubicA at hq
  simp only [solveCubic, if_neg h, if_pos hD, if_pos hq, cubicA]

theorem solveCubic_double (L : Libm α) (c0 c1 c2 c3 : α) (s : Nat → α) (o : Nat → Int)
    (h : ¬ isZero c3) (hD : isZero (cubicD c0 c1 c2 c3)) (hq : ¬ isZero (cubicQ c0 c1 c2 c3)) :
    solveCubic L c0 c1 c2 c3 s o =
      ⟨2, resubstitute 2 (1 / 3 * cubicA c2 c3)
            (Function.update (Function.update s 0 (2 * L.cbrt (-cubicQ c0 c1 c2 c3))) 1
              (-L.cbrt (-cubicQ c0 c1 c2 c3))),
        Function.update (Function.update o 0 1) 1 2⟩ := by
  unfold cubicD cubicQ cubicP cubicA at hD
  unfold cubicQ cubicA at hq
  simp only [solveCubic, if_neg h, if_pos hD, if_neg hq, cubicA, cubicQ]

theorem solveCubic_three (L : Libm α) (c0 c1 c2 c3 : α) (s : Nat → α) (o : Nat → Int)
    (h : ¬ isZero c3) (hD : ¬ isZero (cubicD c0 c1 c2 c3)) (hD' : cubicD c0 c1 c2 c3 < 0) :
    solveCubic L c0 c1 c2 c3 s o =
      ⟨3, resubstitute 3 (1 / 3 * cubicA c2 c3)
            (Function.update (Function.update (Function.update s 0
              (2 * L.sqrt (-cubicP c1 c2 c3) *
                L.cos (1 / 3 * L.acos (-cubicQ c0 c1 c2 c3 /
                  L.sqrt (-(cubicP c1 c2 c3 * cubicP c1 c2 c3 * cubicP c1 c2 c3)))))) 1
              (-(2 * L.sqrt (-cubicP c1 c2 c3)) *
                L.cos (1 / 3 * L.acos (-cubicQ c0 c1 c2 c3 /
                  L.sqrt (-(cubicP c1 c2 c3 * cubicP c1 c2 c3 * cubicP c1 c2 c3))) + L.M_PI / 3))) 2
              (-(2 * L.sqrt (-cubicP c1 c2 c3)) *
                L.cos (1 / 3 * L.acos (-cubicQ c0 c1 c2 c3 /
                  L.sqrt (-(cubicP c1 c2 c3 * cubicP c1 c2 c3 * cubicP c1 c2 c3))) - L.M_PI / 3))),
        Function.update (Function.update (Function.update o 0 1) 1 1) 2 1⟩ := by
  unfold cubicD cubicQ cubicP cubicA at hD hD'
  simp only [solveCubic, if_neg h, if_neg hD, if_pos hD', cubicA, cubicQ, cubicP]

theorem solveCubic_one (L : Libm α) (c0 c1 c2 c3 : α) (s : Nat → α) (o : Nat → Int)
    (h : ¬ isZero c3) (hD : ¬ isZero (cubicD c0 c1 c2 c3)) (hD' : ¬ cubicD c0 c1 c2 c3 < 0) :
    solveCubic L c0 c1 c2 c3 s o =
      ⟨1, resubstitute 1 (1 / 3 * cubicA c2 c3)
            (Function.update s 0
              (if cubicQ c0 c1 c2 c3 > 0 then
                -L.cbrt (L.sqrt (cubicD c0 c1 c2 c3) + |cubicQ c0 c1 c2 c3|) +
                  cubicP c1 c2 c3 / L.cbrt (L.sqrt (cubicD c0 c1 c2 c3) + |cubicQ c0 c1 c2 c3|)
              else
                L.cbrt (L.sqrt (cubicD c0 c1 c2 c3) + |cubicQ c0 c1 c2 c3|) -
                  cubicP c1 c2 c3 / L.cbrt (L.sqrt (cubicD c0 c1 c2 c3) + |cubicQ c0 c1 c2 c3|))),
        Function.update o 0 1⟩ := by
  unfold cubicD cubicQ cubicP cubicA at hD hD'
  simp only [solveCubic, if_neg h, if_neg hD, if_neg hD', cubicA, cubicQ, cubicP, cubicD]

theorem solveQuartic_of_isZero (L : Libm α) (c0 c1 c2 c3 c4 : α) (s : Nat → α) (o : Nat → Int)
    (h : isZero c4) : solveQuartic L c0 c1 c2 c3 c4 s o = solveCubic L c0 c1 c2 c3 s o := by
  simp only [solveQuartic, if_pos h]

theorem solveQuartic_rzero (L : Libm α) (c0 c1 c2 c3 c4 : α) (s : Nat → α) (o : Nat → Int)
    (h : ¬ isZero c4) (hr : isZero (quarticR c0 c1 c2 c3 c4)) :
    solveQuartic L c0 c1 c2 c3 c4 s o =
      ⟨(solveCubic L (quarticQ c1 c2 c3 c4) (quarticP c2 c3 c4) 0 1 s o).num + 1,
        resubstitute ((solveCubic L (quarticQ c1 c2 c3 c4) (quarticP c2 c3 c4) 0 1 s o).num + 1)
          (1 / 4 * quarticA c3 c4)
          (Function.update (solveCubic L (quarticQ c1 c2 c3 c4) (quarticP c2 c3 c4) 0 1 s o).s
            (solveCubic L (quarticQ c1 c2 c3 c4) (quarticP c2 c3 c4) 0 1 s o).num 0),
        Function.update (solveCubic L (quarticQ c1 c2 c3 c4) (quarticP c2 c3 c4) 0 1 s o).o
          (solveCubic L (quarticQ c1 c2 c3 c4) (quarticP c2 c3 c4) 0 1 s o).num 1⟩ := by
  unfold quarticR quarticA at hr
  simp only [solveQuartic, if_neg h, if_pos hr, quarticA, quarticP, quarticQ]

/-- The quartic branch that reaches the resolvent: the result in terms of the radicands. -/
theorem solveQuartic_resolvent (L : Libm α) (c0 c1 c2 c3 c4 : α) (s : Nat → α) (o : Nat → Int)
    (h : ¬ isZero c4) (hr : ¬ isZero (quarticR c0 c1 c2 c3 c4)) :
    solveQuartic L c0 c1 c2 c3 c4 s o =
      (let r1 := quarticResolvent L c0 c1 c2 c3 c4 s o
       let z := r1.s 0
       let u' : Option α :=
         if isZero (quarticU L c0 c1 c2 c3 c4 s o) then some 0
         else if quarticU L c0 c1 c2 c3 c4 s o > 0 then
           some (L.sqrt (quarticU L c0 c1 c2 c3 c4 s o))
         else none
       match u' with
       | none => ⟨0, r1.s, r1.o⟩
       | some u =>
         let v' : Option α :=
           if isZero (quarticV L c0 c1 c2 c3 c4 s o) then some 0
           else if quarticV L c0 c1 c2 c3 c4 s o > 0 then
             some (L.sqrt (quarticV L c0 c1 c2 c3 c4 s o))
           else none
         match v' with
         | none => ⟨0, r1.s, r1.o⟩
         | some v =>
           let r2 := solveQuadric L (z - u) (if quarticQ c1 c2 c3 c4 < 0 then -v else v) 1
             r1.s r1.o
           let r3 := solveQuadric L (z + u) (if quarticQ c1 c2 c3 c4 < 0 then v else -v) 1
             (offsetView r2.num r2.s) (offsetView r2.num r2.o)
           ⟨r2.num + r3.num,
             resubstitute (r2.num + r3.num) (1 / 4 * quarticA c3 c4)
               (offsetMerge r2.num r2.s r3.s),
             offsetMerge r2.num r2.o r3.o⟩) := by
  unfold quarticR quarticA at hr
  simp only [solveQuartic, if_neg h, if_neg hr]
  rfl

/-! ### Counts, buffer frames and multiplicity sums -/

theorem update_frame {β : Type} (s : Nat → β) (k i : Nat) (x : β) (h : k < i) :
    Function.update s k x i = s i :=
  Function.update_noteq (by omega) _ _

theorem SolveResult.Within.mono {β : Type} {r : SolveResult β} {n m : Nat} {s : Nat → β}
    {o : Nat → Int}
    (h : r.Within n s o) (hnm : n ≤ m) : r.Within m s o := by
  obtain ⟨h1, h2, h3⟩ := h
  refine ⟨by omega, fun i hi => h2 i (by omega), ?_⟩
  have : (n : Int) ≤ m := by exact_mod_cast hnm
  omega

theorem solveLinear_within (c0 c1 : α) (s : Nat → α) (o : Nat → Int) :
    (solveLinear c0 c1 s o).Within 1 s o := by
  unfold solveLinear SolveResult.Within SolveResult.orderSum
  split_ifs
  · simp
  · refine ⟨le_refl _, fun i hi => ?_, ?_⟩
    · simp [update_frame _ 0 i _ (by omega)]
    · simp

theorem solveQuadric_within (L : Libm α) (c0 c1 c2 : α) (s : Nat → α) (o : Nat → Int) :
    (solveQuadric L c0 c1 c2 s o).Within 2 s o := by
  by_cases h : isZero c2
  · rw [solveQuadric_of_isZero L c0 c1 c2 s o h]
    exact (solveLinear_within c0 c1 s o).mono (by omega)
  by_cases hD : isZero (quadricD c0 c1 c2)
  · rw [solveQuadric_double L c0 c1 c2 s o h hD]
    refine ⟨by simp, fun i hi => ?_, ?_⟩
    · simp [update_frame _ 0 i _ (by omega)]
    · simp [SolveResult.orderSum]
  by_cases hD' : quadricD c0 c1 c2 < 0
  · rw [solveQuadric_none L c0 c1 c2 s o h hD hD']
    simp [SolveResult.Within, SolveResult.orderSum]
  · rw [solveQuadric_two L c0 c1 c2 s o h hD hD']
    refine ⟨by simp, fun i hi => ?_, ?_⟩
    · simp [update_frame _ 0 i _ (by omega), update_frame _ 1 i _ (by omega)]
    · simp [SolveResult.orderSum, Finset.sum_range_succ]

theorem resubstitute_frame (num : Nat) (sub : α) (s : Nat → α) (i : Nat) (h : num ≤ i) :
    resubstitute num sub s i = s i := by
  simp [resubstitute, Nat.not_lt.mpr h]

theorem solveCubic_within (L : Libm α) (c0 c1 c2 c3 : α) (s : Nat → α) (o : Nat → Int) :
    (solveCubic L c0 c1 c2 c3 s o).Within 3 s o := by
  by_cases h : isZero c3
  · rw [solveCubic_of_isZero L c0 c1 c2 c3 s o h]
    exact (solveQuadric_within L c0 c1 c2 s o).mono (by omega)
  by_cases hD : isZero (cubicD c0 c1 c2 c3)
  · by_cases hq : isZero (cubicQ c0 c1 c2 c3)
    · rw [solveCubic_triple L c0 c1 c2 c3 s o h hD hq]
      refine ⟨by simp, fun i hi => ?_, ?_⟩
      · simp [resubstitute_frame 1 _ _ i (by omega), update_frame _ 0 i _ (by omega)]
      · simp [SolveResult.orderSum]
    · rw [solveCubic_double L c0 c1 c2 c3 s o h hD hq]
      refine ⟨by simp, fun i hi => ?_, ?_⟩
      · simp [resubstitute_frame 2 _ _ i (by omega), update_frame _ 0 i _ (by omega),
          update_frame _ 1 i _ (by omega)]
      · simp [SolveResult.orderSum, Finset.sum_range_succ]
  by_cases hD' : cubicD c0 c1 c2 c3 < 0
  · rw [solveCubic_three L c0 c1 c2 c3 s o h hD hD']
    refine ⟨by simp, fun i hi => ?_, ?_⟩
    · simp [resubstitute_frame 3 _ _ i (by omega), update_frame _ 0 i _ (by omega),
        update_frame _ 1 i _ (by omega), update_frame _ 2 i _ (by omega)]
    · simp [SolveResult.orderSum, Finset.sum_range_succ]
  · rw [solveCubic_one L c0 c1 c2 c3 s o h hD hD']
    refine ⟨by simp, fun i hi => ?_, ?_⟩
    · simp [resubstitute_frame 1 _ _ i (by omega), update_frame _ 0 i _ (by omega)]
    · simp [SolveResult.orderSum]

theorem orderSum_update_succ (o : Nat → Int) (n : Nat) (x : Int) :
    ∑ i in Finset.range (n + 1), Function.update o n x i = ∑ i in Finset.range n, o i + x := by
  rw [Finset.sum_range_succ, Function.update_same]
  congr 1
  apply Finset.sum_congr rfl
  intro i hi
  rw [Finset.mem_range] at hi
  exact Function.update_noteq (by omega) _ _

theorem orderSum_offsetMerge (o o' : Nat → Int) (n m : Nat) :
    ∑ i in Finset.range (n + m), offsetMerge n o o' i =
      ∑ i in Finset.range n, o i + ∑ i in Finset.range m, o' i := by
  rw [Finset.sum_range_add]
  congr 1
  · apply Finset.sum_congr rfl
    intro i hi
    rw [Finset.mem_range] at hi
    simp [offsetMerge, hi]
  · apply Finset.sum_congr rfl
    intro i _
    simp [offsetMerge]

theorem solveQuartic_within (L : Libm α) (c0 c1 c2 c3 c4 : α) (s : Nat → α) (o : Nat → Int) :
    (solveQuartic L c0 c1 c2 c3 c4 s o).Within 4 s o := by
  by_cases h : isZero c4
  · rw [solveQuartic_of_isZero L c0 c1 c2 c3 c4 s o h]
    exact (solveCubic_within L c0 c1 c2 c3 s o).mono (by omega)
  by_cases hr : isZero (quarticR c0 c1 c2 c3 c4)
  · rw [solveQuartic_rzero L c0 c1 c2 c3 c4 s o h hr]
    obtain ⟨h1, h2, h3⟩ := solveCubic_within L (quarticQ c1 c2 c3 c4) (quarticP c2 c3 c4) 0 1 s o
    refine ⟨by simp; omega, fun i hi => ?_, ?_⟩
    · simp only
      rw [resubstitute_frame _ _ _ i (by omega), update_frame _ _ i _ (by omega),
        update_frame _ _ i _ (by omega)]
      exact h2 i (by omega)
    · simp only [SolveResult.orderSum] at h3 ⊢
      rw [orderSum_update_succ]
      push_cast at h3 ⊢
      omega
  · rw [solveQuartic_resolvent L c0 c1 c2 c3 c4 s o h hr]
    obtain ⟨_, hres, _⟩ := solveCubic_within L
      (1 / 2 * quarticR c0 c1 c2 c3 c4 * quarticP c2 c3 c4
        - 1 / 8 * quarticQ c1 c2 c3 c4 * quarticQ c1 c2 c3 c4)
      (-quarticR c0 c1 c2 c3 c4) (-1 / 2 * quarticP c2 c3 c4) (-1) s o
    have hres' : ∀ i, 3 ≤ i → (quarticResolvent L c0 c1 c2 c3 c4 s o).s i = s i ∧
        (quarticResolvent L c0 c1 c2 c3 c4 s o).o i = o i := hres
    have hzero : (SolveResult.mk 0 (quarticResolvent L c0 c1 c2 c3 c4 s o).s
        (quarticResolvent L c0 c1 c2 c3 c4 s o).o).Within 4 s o :=
      ⟨by simp, fun i hi => hres' i (by omega), by simp [SolveResult.orderSum]⟩
    dsimp only
    split
    · exact hzero
    · split
      · exact hzero
      · generalize hr2 : solveQuadric L _ _ 1 (quarticResolvent L c0 c1 c2 c3 c4 s o).s
          (quarticResolvent L c0 c1 c2 c3 c4 s o).o = r2
        have w2 : r2.Within 2 (quarticResolvent L c0 c1 c2 c3 c4 s o).s
            (quarticResolvent L c0 c1 c2 c3 c4 s o).o := by
          rw [← hr2]
          exact solveQuadric_within L _ _ _ _ _
        obtain ⟨a1, a2, a3⟩ := w2
        generalize hr3 : solveQuadric L _ _ 1 (offsetView r2.num r2.s) (offsetView r2.num r2.o)
          = r3
        have w3 : r3.Within 2 (offsetView r2.num r2.s) (offsetView r2.num r2.o) := by
          rw [← hr3]
          exact solveQuadric_within L _ _ _ _ _
        obtain ⟨b1, b2, b3⟩ := w3
        refine ⟨by simp only; omega, fun i hi => ?_, ?_⟩
        · simp only
          rw [resubstitute_frame _ _ _ i (by omega)]
          have hi2 : ¬ i < r2.num := by omega
          simp only [offsetMerge, if_neg hi2]
          have e1 := b2 (i - r2.num) (by omega)
          have e2 := a2 i (by omega)
          have e3 := hres' i (by omega)
          have hidx : r2.num + (i - r2.num) = i := by omega
          simp only [offsetView, hidx] at e1
          exact ⟨e1.1.trans (e2.1.trans e3.1), e1.2.trans (e2.2.trans e3.2)⟩
        · simp only [SolveResult.orderSum] at a3 b3 ⊢
          rw [orderSum_offsetMerge]
          push_cast at a3 b3 ⊢
          omega

end Lemmas

/-! ### The solvers over the real numbers -/

theorem isZero_iff_abs (x : ℝ) : isZero x ↔ |x| < 1e-9 := by
  unfold isZero EQN_EPS
  rw [abs_lt]
  norm_num

theorem not_isZero_iff_abs (x : ℝ) : ¬ isZero x ↔ 1e-9 ≤ |x| := by
  rw [isZero_iff_abs, not_lt]

theorem ne_zero_of_not_isZero {x : ℝ} (h : ¬ isZero x) : x ≠ 0 := by
  rintro rfl
  apply h
  unfold isZero EQN_EPS
  norm_num

/-- Claim C8. `solveLinear c0 c1` returns no root whenever `|c1| < 1e-9`, whatever `c0` is
(also for `c0 = 0`, where every `x` is a solution), and otherwise returns exactly one root
`-c0 / c1` with multiplicity 1, which satisfies `c0 + c1 * x = 0`. -/
theorem solveLinear_spec (c0 c1 : ℝ) (s : Nat → ℝ) (o : Nat → Int) :
    (|c1| < 1e-9 → (solveLinear c0 c1 s o).num = 0) ∧
    (1e-9 ≤ |c1| →
      (solveLinear c0 c1 s o).num = 1 ∧ (solveLinear c0 c1 s o).s 0 = -c0 / c1 ∧
        (solveLinear c0 c1 s o).o 0 = 1 ∧ c0 + c1 * (solveLinear c0 c1 s o).s 0 = 0) := by
  constructor
  · intro h
    rw [← isZero_iff_abs] at h
    simp [solveLinear, h]
  · intro h
    rw [← not_isZero_iff_abs] at h
    have h0 := ne_zero_of_not_isZero h
    simp only [solveLinear, h, if_false, Function.update_same, true_and]
    field_simp
    ring

/-- The two cases of claim C8 at `0 + 0*x` (no root) and `6 + 3*x` (the root `-2`). -/
theorem solveLinear_spec_witness :
    (solveLinear (0 : ℝ) 0 (fun _ => 0) (fun _ => 0)).num = 0 ∧
    ((solveLinear (6 : ℝ) 3 (fun _ => 0) (fun _ => 0)).num = 1 ∧
      (solveLinear (6 : ℝ) 3 (fun _ => 0) (fun _ => 0)).s 0 = -6 / 3 ∧
      (solveLinear (6 : ℝ) 3 (fun _ => 0) (fun _ => 0)).o 0 = 1 ∧
      (6 : ℝ) + 3 * (solveLinear (6 : ℝ) 3 (fun _ => 0) (fun _ => 0)).s 0 = 0) :=
  ⟨(solveLinear_spec 0 0 _ _).1 (by norm_num), (solveLinear_spec 6 3 _ _).2 (by norm_num)⟩

/-- Claim C5, degree-reduction consistency. Whenever the leading coefficient is near zero
(absolute value below `1e-9`), each solver returns exactly what the next lower solver returns
on the remaining coefficients: the same count and the same buffers of roots and
multiplicities. -/
theorem degree_reduction (L : Libm ℝ) (c0 c1 c2 c3 c4 : ℝ) (s : Nat → ℝ) (o : Nat → Int) :
    (|c2| < 1e-9 → solveQuadric L c0 c1 c2 s o = solveLinear c0 c1 s o) ∧
    (|c3| < 1e-9 → solveCubic L c0 c1 c2 c3 s o = solveQuadric L c0 c1 c2 s o) ∧
    (|c4| < 1e-9 → solveQuartic L c0 c1 c2 c3 c4 s o = solveCubic L c0 c1 c2 c3 s o) := by
  refine ⟨fun h => ?_, fun h => ?_, fun h => ?_⟩ <;> rw [← isZero_iff_abs] at h
  · simp [solveQuadric, h]
  · simp [solveCubic, h]
  · simp [solveQuartic, h]

/-- Claim C5 at leading coefficient `0`: `solveQuadric 6 3 0` is `solveLinear 6 3`. -/
theorem degree_reduction_witness :
    solveQuadric realLibm 6 3 0 (fun _ => 0) (fun _ => 0) =
      solveLinear (6 : ℝ) 3 (fun _ => 0) (fun _ => 0) :=
  (degree_reduction realLibm 6 3 0 0 0 (fun _ => 0) (fun _ => 0)).1 (by norm_num)

theorem not_isZero_of_le_neg {x : ℝ} (h : x ≤ -1e-9) : ¬ isZero x ∧ x < 0 := by
  have hpos : (0:ℝ) < 1e-9 := by norm_num
  refine ⟨?_, by linarith⟩
  rw [not_isZero_iff_abs, abs_of_nonpos (by linarith)]
  linarith

theorem not_isZero_of_ge {x : ℝ} (h : 1e-9 ≤ x) : ¬ isZero x ∧ ¬ x < 0 := by
  have hpos : (0:ℝ) < 1e-9 := by norm_num
  refine ⟨?_, by linarith⟩
  rw [not_isZero_iff_abs, abs_of_nonneg (by linarith)]
  exact h

/-- Claim C7. For `|c3| ≥ 1e-9`, with `A = c2/c3`, `B = c1/c3`, `C = c0/c3`,
`p = (B - A^2/3)/3`, `q = (2A^3/27 - A*B/3 + C)/2` and `D = q^2 + p^3`, `solveCubic` returns:
one root `-A/3` of multiplicity 3 when `D` and `q` are near zero; the two roots
`2*cbrt(-q) - A/3` and `-cbrt(-q) - A/3` of multiplicities 1 and 2 when `D` is near zero and
`q` is not; three roots of multiplicity 1 when `D ≤ -1e-9`; one root of multiplicity 1 when
`D ≥ 1e-9`. -/
theorem solveCubic_spec (c0 c1 c2 c3 A B C p q D : ℝ) (s : Nat → ℝ) (o : Nat → Int)
    (hc3 : 1e-9 ≤ |c3|) (hA : A = c2 / c3) (hB : B = c1 / c3) (hC : C = c0 / c3)
    (hp : p = (B - A ^ 2 / 3) / 3) (hq : q = (2 * A ^ 3 / 27 - A * B / 3 + C) / 2)
    (hD : D = q ^ 2 + p ^ 3) :
    (|D| < 1e-9 → |q| < 1e-9 →
      (solveCubic realLibm c0 c1 c2 c3 s o).num = 1 ∧
      (solveCubic realLibm c0 c1 c2 c3 s o).s 0 = -A / 3 ∧
      (solveCubic realLibm c0 c1 c2 c3 s o).o 0 = 3) ∧
    (|D| < 1e-9 → 1e-9 ≤ |q| →
      (solveCubic realLibm c0 c1 c2 c3 s o).num = 2 ∧
      (solveCubic realLibm c0 c1 c2 c3 s o).s 0 = 2 * realCbrt (-q) - A / 3 ∧
      (solveCubic realLibm c0 c1 c2 c3 s o).o 0 = 1 ∧
      (solveCubic realLibm c0 c1 c2 c3 s o).s 1 = -realCbrt (-q) - A / 3 ∧
      (solveCubic realLibm c0 c1 c2 c3 s o).o 1 = 2) ∧
    (D ≤ -1e-9 →
      (solveCubic realLibm c0 c1 c2 c3 s o).num = 3 ∧
      (solveCubic realLibm c0 c1 c2 c3 s o).o 0 = 1 ∧
      (solveCubic realLibm c0 c1 c2 c3 s o).o 1 = 1 ∧
      (solveCubic realLibm c0 c1 c2 c3 s o).o 2 = 1) ∧
    (1e-9 ≤ D →
      (solveCubic realLibm c0 c1 c2 c3 s o).num = 1 ∧
      (solveCubic realLibm c0 c1 c2 c3 s o).o 0 = 1) := by
  rw [← not_isZero_iff_abs] at hc3
  have eA : cubicA c2 c3 = A := by rw [hA, cubicA]
  have eP : cubicP c1 c2 c3 = p := by rw [hp, hB, cubicP, eA]; ring
  have eQ : cubicQ c0 c1 c2 c3 = q := by rw [hq, hB, hC, cubicQ, eA]; ring
  have eD : cubicD c0 c1 c2 c3 = D := by rw [hD, cubicD, eP, eQ]; ring
  refine ⟨fun h1 h2 => ?_, fun h1 h2 => ?_, fun h1 => ?_, fun h1 => ?_⟩
  · rw [← isZero_iff_abs, ← eD] at h1
    rw [← isZero_iff_abs, ← eQ] at h2
    rw [solveCubic_triple _ _ _ _ _ _ _ hc3 h1 h2, eA]
    refine ⟨rfl, ?_, by simp⟩
    simp [resubstitute]
    ring
  · rw [← isZero_iff_abs, ← eD] at h1
    rw [← not_isZero_iff_abs, ← eQ] at h2
    rw [solveCubic_double _ _ _ _ _ _ _ hc3 h1 h2, eA, eQ]
    refine ⟨rfl, ?_, by simp, ?_, by simp⟩
    · simp [resubstitute, realLibm]
      ring
    · simp [resubstitute, realLibm]
      ring
  · rw [← eD] at h1
    obtain ⟨h2, h3⟩ := not_isZero_of_le_neg h1
    rw [solveCubic_three _ _ _ _ _ _ _ hc3 h2 h3]
    simp
  · rw [← eD] at h1
    obtain ⟨h2, h3⟩ := not_isZero_of_ge h1
    rw [solveCubic_one _ _ _ _ _ _ _ hc3 h2 h3]
    simp

/-- Claim C7 at `(x + 1)^3 = 1 + 3x + 3x^2 + x^3`: one root `-1` of multiplicity 3. -/
theorem solveCubic_spec_witness :
    (1e-9 : ℝ) ≤ |1| ∧ (solveCubic realLibm 1 3 3 1 (fun _ => 0) (fun _ => 0)).num = 1 ∧
      (solveCubic realLibm 1 3 3 1 (fun _ => 0) (fun _ => 0)).s 0 = -3 / 3 ∧
      (solveCubic realLibm 1 3 3 1 (fun _ => 0) (fun _ => 0)).o 0 = 3 :=
  ⟨by norm_num,
    (solveCubic_spec 1 3 3 1 3 3 1 0 0 0 (fun _ => 0) (fun _ => 0) (by norm_num) (by norm_num)
      (by norm_num) (by norm_num) (by norm_num) (by norm_num) (by norm_num)).1
      (by norm_num) (by norm_num)⟩

/-- Claim C9. For every input, and whatever the library functions return, each solver of
degree `n` returns a root count of at most `n`, leaves its root and multiplicity buffers
unchanged at every index from `n` on, and the multiplicities of the returned roots sum to at
most `n`. -/
theorem solvers_within_degree (L : Libm ℝ) (c0 c1 c2 c3 c4 : ℝ) (s : Nat → ℝ) (o : Nat → Int) :
    (solveLinear c0 c1 s o).Within 1 s o ∧ (solveQuadric L c0 c1 c2 s o).Within 2 s o ∧
    (solveCubic L c0 c1 c2 c3 s o).Within 3 s o ∧
    (solveQuartic L c0 c1 c2 c3 c4 s o).Within 4 s o :=
  ⟨solveLinear_within c0 c1 s o, solveQuadric_within L c0 c1 c2 s o,
    solveCubic_within L c0 c1 c2 c3 s o, solveQuartic_within L c0 c1 c2 c3 c4 s o⟩

theorem realLibm_sqrt (x : ℝ) : realLibm.sqrt x = Real.sqrt x := rfl

/-- Claim C6. For `|c2| ≥ 1e-9`, with `p = c1/(2*c2)`, `q = c0/c2` and `D = p^2 - q`,
`solveQuadric` returns: exactly one root `-p` with multiplicity 2 when `|D| < 1e-9`; no root
when `D ≤ -1e-9`; exactly the two roots `sqrt(D) - p` and `-sqrt(D) - p`, each with
multiplicity 1, when `D ≥ 1e-9`, and these two are exactly the real roots of
`c0 + c1*x + c2*x^2`. -/
theorem solveQuadric_spec (c0 c1 c2 : ℝ) (s : Nat → ℝ) (o : Nat → Int) (hc2 : 1e-9 ≤ |c2|) :
    (|quadricD c0 c1 c2| < 1e-9 →
      (solveQuadric realLibm c0 c1 c2 s o).num = 1 ∧
      (solveQuadric realLibm c0 c1 c2 s o).s 0 = -quadricP c1 c2 ∧
      (solveQuadric realLibm c0 c1 c2 s o).o 0 = 2) ∧
    (quadricD c0 c1 c2 ≤ -1e-9 → (solveQuadric realLibm c0 c1 c2 s o).num = 0) ∧
    (1e-9 ≤ quadricD c0 c1 c2 →
      (solveQuadric realLibm c0 c1 c2 s o).num = 2 ∧
      (solveQuadric realLibm c0 c1 c2 s o).s 0 = Real.sqrt (quadricD c0 c1 c2) - quadricP c1 c2 ∧
      (solveQuadric realLibm c0 c1 c2 s o).o 0 = 1 ∧
      (solveQuadric realLibm c0 c1 c2 s o).s 1 = -Real.sqrt (quadricD c0 c1 c2) - quadricP c1 c2 ∧
      (solveQuadric realLibm c0 c1 c2 s o).o 1 = 1 ∧
      ∀ x : ℝ, c0 + c1 * x + c2 * x ^ 2 = 0 ↔
        x = (solveQuadric realLibm c0 c1 c2 s o).s 0 ∨
        x = (solveQuadric realLibm c0 c1 c2 s o).s 1) := by
  rw [← not_isZero_iff_abs] at hc2
  have hc2' := ne_zero_of_not_isZero hc2
  refine ⟨fun hD => ?_, fun hD => ?_, fun hD => ?_⟩
  · rw [← isZero_iff_abs] at hD
    rw [solveQuadric_double _ _ _ _ _ _ hc2 hD]
    simp
  · have hD1 : ¬ isZero (quadricD c0 c1 c2) := by
      rw [not_isZero_iff_abs]
      rw [abs_of_nonpos (by linarith)]
      linarith
    have hD2 : quadricD c0 c1 c2 < 0 := by
      have : (0:ℝ) < 1e-9 := by norm_num
      linarith
    rw [solveQuadric_none _ _ _ _ _ _ hc2 hD1 hD2]
  · have hpos : (0:ℝ) < 1e-9 := by norm_num
    have hD0 : 0 ≤ quadricD c0 c1 c2 := by linarith
    have hD1 : ¬ isZero (quadricD c0 c1 c2) := by
      rw [not_isZero_iff_abs, abs_of_nonneg hD0]
      exact hD
    have hD2 : ¬ quadricD c0 c1 c2 < 0 := not_lt.mpr hD0
    rw [solveQuadric_two _ _ _ _ _ _ hc2 hD1 hD2]
    simp only [realLibm_sqrt, Function.update_same, ne_eq, one_ne_zero, not_false_eq_true,
      Function.update_noteq, zero_ne_one, true_and]
    intro x
    have hsq := Real.sq_sqrt hD0
    have key : c0 + c1 * x + c2 * x ^ 2 =
        c2 * ((x + quadricP c1 c2) ^ 2 - quadricD c0 c1 c2) := by
      unfold quadricD quadricP quadricQ
      field_simp
      ring
    rw [key, mul_eq_zero]
    constructor
    · rintro (h | h)
      · exact absurd h hc2'
      · have : (x + quadricP c1 c2 - Real.sqrt (quadricD c0 c1 c2)) *
            (x + quadricP c1 c2 + Real.sqrt (quadricD c0 c1 c2)) = 0 := by
          nlinarith
        rcases mul_eq_zero.mp this with h' | h'
        · left; linarith
        · right; linarith
    · rintro (h | h)
      · right; rw [h]; nlinarith
      · right; rw [h]; nlinarith

/-- Claim C6 at `2 - 3x + x^2`: two roots, which are the real roots of the quadratic. -/
theorem solveQuadric_spec_witness :
    (1e-9 : ℝ) ≤ |1| ∧
      (solveQuadric realLibm 2 (-3) 1 (fun _ => 0) (fun _ => 0)).num = 2 ∧
      ∀ x : ℝ, 2 + (-3) * x + 1 * x ^ 2 = 0 ↔
        x = (solveQuadric realLibm 2 (-3) 1 (fun _ => 0) (fun _ => 0)).s 0 ∨
        x = (solveQuadric realLibm 2 (-3) 1 (fun _ => 0) (fun _ => 0)).s 1 :=
  have h := (solveQuadric_spec 2 (-3) 1 (fun _ => 0) (fun _ => 0) (by norm_num)).2.2
    (by norm_num [quadricD, quadricP, quadricQ])
  ⟨by norm_num, h.1, h.2.2.2.2.2⟩

/-- Claim C10. The segment passes through both of its keyframes: for `tcur < tnext` and a
current kind other than `KEYFRAME_NONE`, `interpolate` at `queryTime = tcur` returns `vcur`
exactly; for a current kind that is neither `KEYFRAME_CONSTANT` nor `KEYFRAME_NONE` and a next
kind other than `KEYFRAME_NONE`, the segment is continuous in the query time, has the value
`vnext` at `tnext`, and so converges to `vnext` as the query time tends to `tnext` from
below. -/
theorem interpolate_through_keyframes (tcur vcur vcurDerivRight vnextDerivLeft tnext vnext : ℝ)
    (kindCur kindNext : KeyframeType) (h : tcur < tnext) :
    (kindCur ≠ KEYFRAME_NONE →
      interpolate tcur vcur vcurDerivRight vnextDerivLeft tnext vnext tcur kindCur kindNext
        = vcur) ∧
    (kindCur ≠ KEYFRAME_CONSTANT → kindCur ≠ KEYFRAME_NONE → kindNext ≠ KEYFRAME_NONE →
      Continuous (fun q => interpolate tcur vcur vcurDerivRight vnextDerivLeft tnext vnext q
        kindCur kindNext) ∧
      interpolate tcur vcur vcurDerivRight vnextDerivLeft tnext vnext tnext kindCur kindNext
        = vnext ∧
      Filter.Tendsto (fun q => interpolate tcur vcur vcurDerivRight vnextDerivLeft tnext vnext q
        kindCur kindNext) (nhdsWithin tnext (Set.Iio tnext)) (nhds vnext)) := by
  have hne : tnext - tcur ≠ 0 := by linarith [sub_pos.mpr h]
  constructor
  · intro h1
    by_cases h2 : kindNext = KEYFRAME_NONE <;> by_cases h3 : kindCur = KEYFRAME_CONSTANT <;>
      simp [interpolate, segmentSetup, Segment.coeffs, hermiteToCubicCoeffs, cubicEval, h1, h2, h3]
  · intro h1 h2 h3
    have hval : interpolate tcur vcur vcurDerivRight vnextDerivLeft tnext vnext tnext
        kindCur kindNext = vnext := by
      simp [interpolate, segmentSetup, Segment.coeffs, hermiteToCubicCoeffs, cubicEval, h1, h2,
        h3, div_self hne]
      ring
    have hcont : Continuous (fun q => interpolate tcur vcur vcurDerivRight vnextDerivLeft tnext
        vnext q kindCur kindNext) := by
      simp only [interpolate, segmentSetup, Segment.coeffs, hermiteToCubicCoeffs, cubicEval, h1,
        h2, h3, if_false]
      fun_prop
    refine ⟨hcont, hval, ?_⟩
    have := (hcont.tendsto tnext).mono_left
      (nhdsWithin_le_nhds : nhdsWithin tnext (Set.Iio tnext) ≤ nhds tnext)
    rwa [hval] at this

/-- Claim C10 on the segment from `3` at time `0` to `7` at time `1`. -/
theorem interpolate_through_keyframes_witness :
    (0 : ℝ) < 1 ∧ interpolate (0 : ℝ) 3 1 2 1 7 0 KEYFRAME_LINEAR KEYFRAME_SMOOTH = 3 ∧
      interpolate (0 : ℝ) 3 1 2 1 7 1 KEYFRAME_LINEAR KEYFRAME_SMOOTH = 7 :=
  have w := interpolate_through_keyframes 0 3 1 2 1 7 KEYFRAME_LINEAR KEYFRAME_SMOOTH
    (by norm_num)
  ⟨by norm_num, w.1 (by decide), (w.2 (by decide) (by decide) (by decide)).2.1⟩

/-! ### The resolvent cubic of `solveQuartic` -/

theorem isZero_zero : isZero (0 : ℝ) := by
  unfold isZero EQN_EPS; norm_num

theorem quarticResolvent_at_bug (L : Libm ℝ) (s : Nat → ℝ) (o : Nat → Int) :
    (quarticResolvent L 75 100 30 0 1 s o).num = 1 ∧
      (quarticResolvent L 75 100 30 0 1 s o).s 0 = -5 := by
  have hR : quarticR (75:ℝ) 100 30 0 1 = 75 := by norm_num [quarticR, quarticA]
  have hP : quarticP (30:ℝ) 0 1 = 30 := by norm_num [quarticP, quarticA]
  have hQ : quarticQ (100:ℝ) 30 0 1 = 100 := by norm_num [quarticQ, quarticA]
  have h3 : ¬ isZero (-1 : ℝ) := by rw [not_isZero_iff_abs]; norm_num
  have hq : cubicQ (-125 : ℝ) (-75) (-15) (-1) = 0 := by norm_num [cubicQ, cubicA]
  have hp : cubicP (-75 : ℝ) (-15) (-1) = 0 := by norm_num [cubicP, cubicA]
  have hD : cubicD (-125 : ℝ) (-75) (-15) (-1) = 0 := by rw [cubicD, hq, hp]; norm_num
  have e : quarticResolvent L 75 100 30 0 1 s o = solveCubic L (-125) (-75) (-15) (-1) s o := by
    unfold quarticResolvent
    rw [hR, hP, hQ]
    norm_num
  rw [e, solveCubic_triple L _ _ _ _ s o h3 (by rw [hD]; exact isZero_zero)
    (by rw [hq]; exact isZero_zero)]
  norm_num [resubstitute, cubicA]

/-- Claim C3, the code at the failing input `x^4 + 30 x^2 + 100 x + 75`. The leading
coefficient `1` is not near zero, the radicand `u = z*z - r` computed from the root `z = -5`
that the resolvent call returns is `-50`, so `solveQuartic` reports zero roots; yet the
quartic has a real root. -/
theorem solveQuartic_misses_real_roots :
    (1e-9 : ℝ) ≤ |1| ∧
      quarticU realLibm 75 100 30 0 1 (fun _ => 0) (fun _ => 0) = -50 ∧
      (solveQuartic realLibm 75 100 30 0 1 (fun _ => 0) (fun _ => 0)).num = 0 ∧
      ∃ x : ℝ, 75 + 100 * x + 30 * x ^ 2 + 0 * x ^ 3 + 1 * x ^ 4 = 0 := by
  have hR : quarticR (75:ℝ) 100 30 0 1 = 75 := by norm_num [quarticR, quarticA]
  have h4 : ¬ isZero (1 : ℝ) := by rw [not_isZero_iff_abs]; norm_num
  have hr : ¬ isZero (quarticR (75:ℝ) 100 30 0 1) := by
    rw [hR, not_isZero_iff_abs]; norm_num
  obtain ⟨_, hz⟩ := quarticResolvent_at_bug realLibm (fun _ => 0) (fun _ => 0)
  have hU : quarticU realLibm 75 100 30 0 1 (fun _ => 0) (fun _ => 0) = -50 := by
    rw [quarticU, hz, hR]; norm_num
  have hU1 : ¬ isZero (quarticU realLibm 75 100 30 0 1 (fun _ => 0) (fun _ => 0)) := by
    rw [hU, not_isZero_iff_abs]; norm_num
  have hU2 : ¬ quarticU realLibm 75 100 30 0 1 (fun _ => 0) (fun _ => 0) > 0 := by
    rw [hU]; norm_num
  refine ⟨by norm_num, hU, ?_, ?_⟩
  · rw [solveQuartic_resolvent _ _ _ _ _ _ _ _ h4 hr]
    simp only [if_neg hU1, if_neg hU2]
  · have hc : ContinuousOn (fun x : ℝ => 75 + 100 * x + 30 * x ^ 2 + 0 * x ^ 3 + 1 * x ^ 4)
        (Set.Icc (-3/2) (-1)) := by fun_prop
    have := intermediate_value_Icc (by norm_num : (-3/2 : ℝ) ≤ -1) hc
    have h0 : (0:ℝ) ∈ Set.Icc ((fun x : ℝ => 75 + 100 * x + 30 * x ^ 2 + 0 * x ^ 3 + 1 * x ^ 4) (-3/2))
        ((fun x : ℝ => 75 + 100 * x + 30 * x ^ 2 + 0 * x ^ 3 + 1 * x ^ 4) (-1)) := by
      constructor <;> norm_num
    obtain ⟨x, _, hx⟩ := this h0
    exact ⟨x, hx⟩

/-! ### Cardano's formulas: factorizations of the depressed cubic -/

theorem realCbrt_pow_three (x : ℝ) : realCbrt x ^ 3 = x := by
  have key : ∀ y : ℝ, 0 ≤ y → (y ^ ((1 : ℝ) / 3)) ^ 3 = y := by
    intro y hy
    rw [← Real.rpow_natCast, ← Real.rpow_mul hy]
    norm_num
  unfold realCbrt
  split_ifs with h
  · exact key x h
  · have h' : 0 ≤ -x := by linarith
    have := key (-x) h'
    have e : (-(-x) ^ ((1 : ℝ) / 3)) ^ 3 = -(((-x) ^ ((1 : ℝ) / 3)) ^ 3) := by ring
    rw [e, this]
    ring

theorem realCbrt_pos {x : ℝ} (h : 0 < x) : 0 < realCbrt x := by
  unfold realCbrt
  rw [if_pos h.le]
  exact Real.rpow_pos_of_pos h _

theorem cube_injective {a b : ℝ} (h : a ^ 3 = b ^ 3) : a = b := by
  have hm : StrictMono (fun x : ℝ => x ^ 3) := Odd.strictMono_pow (by decide)
  exact hm.injective h

/-- The cubic in terms of the depressed variable `y = x + A/3`. -/
theorem cubic_depressed (c0 c1 c2 c3 x : ℝ) (h : c3 ≠ 0) :
    c0 + c1 * x + c2 * x ^ 2 + c3 * x ^ 3 =
      c3 * ((x + 1 / 3 * cubicA c2 c3) ^ 3 + 3 * cubicP c1 c2 c3 * (x + 1 / 3 * cubicA c2 c3)
        + 2 * cubicQ c0 c1 c2 c3) := by
  unfold cubicQ cubicP cubicA
  field_simp
  ring

/-- Cardano, one real root: the factorization of the depressed cubic when `D > 0`. -/
theorem depressed_one_root (p q : ℝ) (hD : 0 < q * q + p * p * p) :
    let u := realCbrt (Real.sqrt (q * q + p * p * p) + |q|)
    let y0 := if q > 0 then -u + p / u else u - p / u
    (∀ y : ℝ, y ^ 3 + 3 * p * y + 2 * q = (y - y0) * (y ^ 2 + y0 * y + (y0 ^ 2 + 3 * p))) ∧
      ∀ y : ℝ, 0 < y ^ 2 + y0 * y + (y0 ^ 2 + 3 * p) := by
  intro u y0
  set sD := Real.sqrt (q * q + p * p * p) with hsD
  have hs : 0 < sD := Real.sqrt_pos.mpr hD
  have hs2 : sD ^ 2 = q * q + p * p * p := Real.sq_sqrt hD.le
  have hw : 0 < sD + |q| := by positivity
  have hu : 0 < u := realCbrt_pos hw
  have hu3 : u ^ 3 = sD + |q| := realCbrt_pow_three _
  have hune : u ≠ 0 := hu.ne'
  -- p^3 = (sD - |q|) (sD + |q|)
  have hp3 : p ^ 3 = (sD - |q|) * u ^ 3 := by
    rw [hu3]
    have : |q| ^ 2 = q ^ 2 := sq_abs q
    nlinarith
  -- the root satisfies the depressed equation
  have hroot : y0 ^ 3 + 3 * p * y0 + 2 * q = 0 := by
    have e1 : (u - p / u) ^ 3 + 3 * p * (u - p / u) = u ^ 3 - p ^ 3 / u ^ 3 := by
      field_simp
      ring
    have e2 : p ^ 3 / u ^ 3 = sD - |q| := by
      rw [hp3]
      field_simp
    by_cases hq : q > 0
    · have : y0 = -(u - p / u) := by simp only [y0, if_pos hq]; ring
      rw [this]
      have e3 : (-(u - p / u)) ^ 3 + 3 * p * (-(u - p / u)) = -((u - p / u) ^ 3 + 3 * p * (u - p / u)) := by
        ring
      rw [e3, e1, e2, hu3, abs_of_pos hq]
      ring
    · have : y0 = u - p / u := by simp only [y0, if_neg hq]
      rw [this, e1, e2, hu3, abs_of_nonpos (not_lt.mp hq)]
      ring
  have hpos : 0 < y0 ^ 2 + 4 * p := by
    have e : y0 ^ 2 + 4 * p = (u + p / u) ^ 2 := by
      by_cases hq : q > 0
      · have : y0 = -(u - p / u) := by simp only [y0, if_pos hq]; ring
        rw [this]; field_simp; ring
      · have : y0 = u - p / u := by simp only [y0, if_neg hq]
        rw [this]; field_simp; ring
    rw [e]
    have hne : u + p / u ≠ 0 := by
      intro h0
      have hp : p = -u ^ 2 := by
        field_simp at h0
        linarith
      have hp3' : p ^ 3 = -(u ^ 3) ^ 2 := by rw [hp]; ring
      rw [hu3] at hp3'
      have habs : |q| ^ 2 = q ^ 2 := sq_abs q
      have hq0 : 0 ≤ |q| := abs_nonneg q
      nlinarith
    positivity
  constructor
  · intro y
    linear_combination hroot
  · intro y
    nlinarith [sq_nonneg (y + y0 / 2)]

/-- Casus irreducibilis: the factorization of the depressed cubic when `D < 0`. -/
theorem depressed_three_roots (p q : ℝ) (hD : q * q + p * p * p < 0) :
    let phi := 1 / 3 * Real.arccos (-q / Real.sqrt (-(p * p * p)))
    let t := 2 * Real.sqrt (-p)
    ∀ y : ℝ, y ^ 3 + 3 * p * y + 2 * q =
      (y - t * Real.cos phi) * (y - -t * Real.cos (phi + Real.pi / 3)) *
        (y - -t * Real.cos (phi - Real.pi / 3)) := by
  intro phi t y
  have hp : p < 0 := by
    by_contra h
    push_neg at h
    have : 0 ≤ p * p * p := by positivity
    nlinarith [mul_self_nonneg q]
  set m := Real.sqrt (-p) with hm
  have hm0 : 0 < m := Real.sqrt_pos.mpr (by linarith)
  have hm2 : m ^ 2 = -p := Real.sq_sqrt (by linarith)
  have hm3 : Real.sqrt (-(p * p * p)) = m ^ 3 := by
    have e : -(p * p * p) = (m ^ 3) ^ 2 := by
      have : (m ^ 3) ^ 2 = (m ^ 2) ^ 3 := by ring
      rw [this, hm2]; ring
    rw [e]
    exact Real.sqrt_sq (by positivity)
  have hm3pos : 0 < m ^ 3 := by positivity
  have hq2 : q ^ 2 < (m ^ 3) ^ 2 := by
    have : (m ^ 3) ^ 2 = (m ^ 2) ^ 3 := by ring
    rw [this, hm2]; nlinarith
  have habsq : |q| < m ^ 3 := by
    have := abs_lt_of_sq_lt_sq hq2 hm3pos.le
    exact this
  set z := -q / Real.sqrt (-(p * p * p)) with hz
  have hz' : z = -q / m ^ 3 := by rw [hz, hm3]
  have hz1 : -1 ≤ z := by
    rw [hz', le_div_iff₀ hm3pos]
    have := (abs_lt.mp habsq).2
    linarith
  have hz2 : z ≤ 1 := by
    rw [hz', div_le_iff₀ hm3pos]
    have := (abs_lt.mp habsq).1
    linarith
  have hcos3 : Real.cos (3 * phi) = z := by
    have : 3 * phi = Real.arccos z := by simp only [phi]; ring
    rw [this, Real.cos_arccos hz1 hz2]
  have hq : q = -(m ^ 3 * (4 * Real.cos phi ^ 3 - 3 * Real.cos phi)) := by
    rw [← Real.cos_three_mul, hcos3, hz']
    field_simp
  have hab : Real.cos phi ^ 2 + Real.sin phi ^ 2 = 1 := Real.cos_sq_add_sin_sq phi
  have hs : (Real.sqrt 3 / 2) ^ 2 = 3 / 4 := by
    rw [div_pow, Real.sq_sqrt (by norm_num)]; norm_num
  have hpp : p = -m ^ 2 := by linarith
  rw [Real.cos_add, Real.cos_sub, Real.cos_pi_div_three, Real.sin_pi_div_three]
  have ht : t = 2 * m := rfl
  rw [ht]
  clear_value m t phi
  subst hpp
  rw [hq]
  linear_combination (3 * m ^ 2 * y - 6 * m ^ 3 * Real.cos phi) * hab +
    (4 * m ^ 2 * Real.sin phi ^ 2 * y - 8 * m ^ 3 * Real.cos phi * Real.sin phi ^ 2) * hs

/-- One single and one double root: the factorization of the depressed cubic when `D = 0`. -/
theorem depressed_double_root (p q : ℝ) (hD : q * q + p * p * p = 0) :
    ∀ y : ℝ, y ^ 3 + 3 * p * y + 2 * q =
      (y - 2 * realCbrt (-q)) * (y - -realCbrt (-q)) ^ 2 := by
  intro y
  have hu3 : realCbrt (-q) ^ 3 = -q := realCbrt_pow_three _
  set u := realCbrt (-q)
  have hp : p = -u ^ 2 := by
    apply cube_injective
    have : (-u ^ 2) ^ 3 = -(u ^ 3) ^ 2 := by ring
    rw [this, hu3]
    linarith
  have hq : q = -u ^ 3 := by linarith
  rw [hp, hq]
  ring

/-- One triple root: the depressed cubic when `D = 0` and `q = 0`. -/
theorem depressed_triple_root (p q : ℝ) (hD : q * q + p * p * p = 0) (hq : q = 0) :
    ∀ y : ℝ, y ^ 3 + 3 * p * y + 2 * q = (y - 0) ^ 3 := by
  intro y
  have hp : p = 0 := by
    rw [hq] at hD
    have : p ^ 3 = 0 := by linarith
    exact pow_eq_zero_iff (by norm_num) |>.mp this
  rw [hp, hq]
  ring

/-! ### Every solver result factors the polynomial over its roots -/

theorem cubicEval_eq (c0 c1 c2 c3 x : ℝ) :
    cubicEval c0 c1 c2 c3 x = c0 + c1 * x + c2 * x ^ 2 + c3 * x ^ 3 := by
  unfold cubicEval; ring

theorem isZero_eq_zero_of {x : ℝ} (h : isZero x → x = 0) (hz : isZero x) : x = 0 := h hz

theorem toNat_one : (1 : Int).toNat = 1 := rfl

theorem toNat_two : (2 : Int).toNat = 2 := rfl

theorem toNat_three : (3 : Int).toNat = 3 := rfl

theorem roots_mk_one {β : Type} (s : Nat → β) (o : Nat → Int) :
    (SolveResult.mk 1 s o).roots = [(s 0, o 0)] := by
  simp [SolveResult.roots, List.range_succ]

theorem roots_mk_two {β : Type} (s : Nat → β) (o : Nat → Int) :
    (SolveResult.mk 2 s o).roots = [(s 0, o 0), (s 1, o 1)] := by
  simp [SolveResult.roots, List.range_succ]

theorem roots_mk_three {β : Type} (s : Nat → β) (o : Nat → Int) :
    (SolveResult.mk 3 s o).roots = [(s 0, o 0), (s 1, o 1), (s 2, o 2)] := by
  simp [SolveResult.roots, List.range_succ]

theorem roots_mk_zero {β : Type} (s : Nat → β) (o : Nat → Int) :
    (SolveResult.mk 0 s o).roots = [] := by
  simp [SolveResult.roots]

/-- The linear solver, leading coefficient not near zero. -/
theorem solveLinear_factored (c0 c1 : ℝ) (s : Nat → ℝ) (o : Nat → Int) (h1 : ¬ isZero c1) :
    Factored (cubicEval c0 c1 0 0) c1 1 (solveLinear c0 c1 s o).roots := by
  have h0 := ne_zero_of_not_isZero h1
  simp only [solveLinear, if_neg h1, roots_mk_one, Function.update_same]
  refine ⟨h0, by simp, by simp, fun _ => 1, fun _ => one_pos, fun x => ?_⟩
  simp only [rootProduct, cubicEval_eq, List.map_cons, List.map_nil, List.prod_cons,
    List.prod_nil, toNat_one, toNat_two, toNat_three]
  norm_num
  field_simp
  ring

/-- The quadratic solver, leading coefficient not near zero. -/
theorem solveQuadric_factored (c0 c1 c2 : ℝ) (s : Nat → ℝ) (o : Nat → Int) (h2 : ¬ isZero c2)
    (hs : isZero (quadricD c0 c1 c2) → quadricD c0 c1 c2 = 0) :
    Factored (cubicEval c0 c1 c2 0) c2 2 (solveQuadric realLibm c0 c1 c2 s o).roots := by
  have h0 := ne_zero_of_not_isZero h2
  have key : ∀ x, cubicEval c0 c1 c2 0 x =
      c2 * ((x + quadricP c1 c2) ^ 2 - quadricD c0 c1 c2) := by
    intro x
    rw [cubicEval_eq]
    unfold quadricD quadricP quadricQ
    field_simp
    ring
  by_cases hD : isZero (quadricD c0 c1 c2)
  · have hD0 := hs hD
    rw [solveQuadric_double _ _ _ _ _ _ h2 hD, roots_mk_one]
    simp only [Function.update_same]
    refine ⟨h0, by simp, by simp, fun _ => 1, fun _ => one_pos, fun x => ?_⟩
    rw [key, hD0]
    simp only [rootProduct, List.map_cons, List.map_nil, List.prod_cons, List.prod_nil, toNat_one, toNat_two, toNat_three]
    norm_num
  by_cases hD' : quadricD c0 c1 c2 < 0
  · rw [solveQuadric_none _ _ _ _ _ _ h2 hD hD', roots_mk_zero]
    refine ⟨h0, by simp, by simp, fun x => (x + quadricP c1 c2) ^ 2 - quadricD c0 c1 c2,
      fun x => ?_, fun x => ?_⟩
    · show 0 < (x + quadricP c1 c2) ^ 2 - quadricD c0 c1 c2
      have := sq_nonneg (x + quadricP c1 c2)
      linarith
    · rw [key]
      simp [rootProduct]
  · rw [solveQuadric_two _ _ _ _ _ _ h2 hD hD', roots_mk_two]
    have hsq := Real.sq_sqrt (not_lt.mp hD')
    simp only [Function.update_same, ne_eq, one_ne_zero, not_false_eq_true,
      Function.update_noteq, zero_ne_one, realLibm_sqrt]
    refine ⟨h0, by simp, by simp, fun _ => 1, fun _ => one_pos, fun x => ?_⟩
    rw [key]
    simp only [rootProduct, List.map_cons, List.map_nil, List.prod_cons, List.prod_nil, toNat_one, toNat_two, toNat_three]
    norm_num
    left
    nlinarith

/-- The cubic solver, leading coefficient not near zero. -/
theorem solveCubic_factored (c0 c1 c2 c3 : ℝ) (s : Nat → ℝ) (o : Nat → Int) (h3 : ¬ isZero c3)
    (hs : isZero (cubicD c0 c1 c2 c3) →
      cubicD c0 c1 c2 c3 = 0 ∧ (isZero (cubicQ c0 c1 c2 c3) → cubicQ c0 c1 c2 c3 = 0)) :
    Factored (cubicEval c0 c1 c2 c3) c3 3 (solveCubic realLibm c0 c1 c2 c3 s o).roots := by
  have h0 := ne_zero_of_not_isZero h3
  have key : ∀ x, cubicEval c0 c1 c2 c3 x =
      c3 * ((x + 1 / 3 * cubicA c2 c3) ^ 3 + 3 * cubicP c1 c2 c3 * (x + 1 / 3 * cubicA c2 c3)
        + 2 * cubicQ c0 c1 c2 c3) := by
    intro x
    rw [cubicEval_eq, cubic_depressed c0 c1 c2 c3 x h0]
  by_cases hD : isZero (cubicD c0 c1 c2 c3)
  · obtain ⟨hD0, hq0⟩ := hs hD
    by_cases hq : isZero (cubicQ c0 c1 c2 c3)
    · rw [solveCubic_triple _ _ _ _ _ _ _ h3 hD hq, roots_mk_one]
      refine ⟨h0, by simp, by simp, fun _ => 1, fun _ => one_pos, fun x => ?_⟩
      rw [key, depressed_triple_root _ _ hD0 (hq0 hq)]
      simp only [rootProduct, resubstitute, List.map_cons, List.map_nil, List.prod_cons,
        List.prod_nil, toNat_one, toNat_two, toNat_three]
      norm_num [toNat_one, toNat_two, toNat_three]
    · rw [solveCubic_double _ _ _ _ _ _ _ h3 hD hq, roots_mk_two]
      refine ⟨h0, by simp, by simp, fun _ => 1, fun _ => one_pos, fun x => ?_⟩
      rw [key, depressed_double_root _ _ hD0]
      simp only [rootProduct, resubstitute, List.map_cons, List.map_nil, List.prod_cons,
        List.prod_nil, realLibm, toNat_one, toNat_two, toNat_three]
      norm_num [toNat_one, toNat_two, toNat_three]
      left
      ring
  by_cases hD' : cubicD c0 c1 c2 c3 < 0
  · rw [solveCubic_three _ _ _ _ _ _ _ h3 hD hD', roots_mk_three]
    refine ⟨h0, by simp, by simp, fun _ => 1, fun _ => one_pos, fun x => ?_⟩
    rw [key, depressed_three_roots _ _ hD']
    simp only [rootProduct, resubstitute, List.map_cons, List.map_nil, List.prod_cons,
      List.prod_nil, realLibm, toNat_one, toNat_two, toNat_three]
    norm_num [toNat_one, toNat_two, toNat_three]
    left
    ring
  · have hDpos : 0 < cubicD c0 c1 c2 c3 := by
      rcases lt_or_eq_of_le (not_lt.mp hD') with h | h
      · exact h
      · exact absurd (h ▸ isZero_zero) hD
    rw [solveCubic_one _ _ _ _ _ _ _ h3 hD hD', roots_mk_one]
    obtain ⟨e1, e2⟩ := depressed_one_root _ _ hDpos
    refine ⟨h0, by simp, by simp, _, fun x => e2 (x + 1 / 3 * cubicA c2 c3), fun x => ?_⟩
    rw [key, e1]
    simp only [rootProduct, resubstitute, List.map_cons, List.map_nil, List.prod_cons,
      List.prod_nil, realLibm, cubicD, toNat_one, toNat_two, toNat_three]
    norm_num [toNat_one, toNat_two, toNat_three]
    ring

theorem mem_roots {β : Type} (r : SolveResult β) (i : Nat) (h : i < r.num) :
    (r.s i, r.o i) ∈ r.roots := by
  unfold SolveResult.roots
  exact List.mem_map.mpr ⟨i, List.mem_range.mpr h, rfl⟩

theorem Factored.root_exact {g : ℝ → ℝ} {K : ℝ} {d : Int} {R : List (ℝ × Int)}
    (h : Factored g K d R) {p : ℝ × Int} (hp : p ∈ R) : g p.1 = 0 := by
  obtain ⟨_, hord, _, f, _, hf⟩ := h
  have h1 : 1 ≤ p.2 := hord p hp
  have hz : rootProduct R p.1 = 0 := by
    unfold rootProduct
    apply List.prod_eq_zero
    refine List.mem_map.mpr ⟨p, hp, ?_⟩
    have : p.2.toNat ≠ 0 := by omega
    simp [this]
  rw [hf, hz]
  ring

/-- Every root `solveQuadric` returns is exact when its near-zero tests are sharp. -/
theorem solveQuadric_root_exact (c0 c1 c2 : ℝ) (s : Nat → ℝ) (o : Nat → Int)
    (hs : quadricSharp c0 c1 c2) (i : Nat) (hi : i < (solveQuadric realLibm c0 c1 c2 s o).num) :
    cubicEval c0 c1 c2 0 ((solveQuadric realLibm c0 c1 c2 s o).s i) = 0 := by
  unfold quadricSharp at hs
  by_cases h2 : isZero c2
  · rw [if_pos h2] at hs
    subst hs
    rw [solveQuadric_of_isZero _ _ _ _ _ _ h2] at hi ⊢
    by_cases h1 : isZero c1
    · simp [solveLinear, h1] at hi
    · exact (solveLinear_factored c0 c1 s o h1).root_exact (mem_roots _ i hi)
  · rw [if_neg h2] at hs
    exact (solveQuadric_factored c0 c1 c2 s o h2 hs).root_exact (mem_roots _ i hi)

/-- Every root `solveCubic` returns is exact when its near-zero tests are sharp. -/
theorem solveCubic_root_exact (c0 c1 c2 c3 : ℝ) (s : Nat → ℝ) (o : Nat → Int)
    (hs : cubicSharp c0 c1 c2 c3) (i : Nat)
    (hi : i < (solveCubic realLibm c0 c1 c2 c3 s o).num) :
    cubicEval c0 c1 c2 c3 ((solveCubic realLibm c0 c1 c2 c3 s o).s i) = 0 := by
  unfold cubicSharp at hs
  by_cases h3 : isZero c3
  · rw [if_pos h3] at hs
    obtain ⟨hc3, hs⟩ := hs
    subst hc3
    rw [solveCubic_of_isZero _ _ _ _ _ _ _ h3] at hi ⊢
    exact solveQuadric_root_exact c0 c1 c2 s o hs i hi
  · rw [if_neg h3] at hs
    exact (solveCubic_factored c0 c1 c2 c3 s o h3 hs).root_exact (mem_roots _ i hi)

/-- The quartic in terms of the depressed variable `y = x + A/4`. -/
theorem quartic_depressed (c0 c1 c2 c3 c4 x : ℝ) (h : c4 ≠ 0) :
    c0 + c1 * x + c2 * x ^ 2 + c3 * x ^ 3 + c4 * x ^ 4 =
      c4 * ((x + 1 / 4 * quarticA c3 c4) ^ 4
        + quarticP c2 c3 c4 * (x + 1 / 4 * quarticA c3 c4) ^ 2
        + quarticQ c1 c2 c3 c4 * (x + 1 / 4 * quarticA c3 c4) + quarticR c0 c1 c2 c3 c4) := by
  unfold quarticR quarticQ quarticP quarticA
  field_simp
  ring

/-- Every root `solveQuartic` returns is exact when its near-zero tests are sharp and the
call does not go through the resolvent cubic. -/
theorem solveQuartic_root_exact (c0 c1 c2 c3 c4 : ℝ) (s : Nat → ℝ) (o : Nat → Int)
    (hs : quarticSharp c0 c1 c2 c3 c4) (i : Nat)
    (hi : i < (solveQuartic realLibm c0 c1 c2 c3 c4 s o).num) :
    c0 + c1 * (solveQuartic realLibm c0 c1 c2 c3 c4 s o).s i
      + c2 * (solveQuartic realLibm c0 c1 c2 c3 c4 s o).s i ^ 2
      + c3 * (solveQuartic realLibm c0 c1 c2 c3 c4 s o).s i ^ 3
      + c4 * (solveQuartic realLibm c0 c1 c2 c3 c4 s o).s i ^ 4 = 0 := by
  unfold quarticSharp at hs
  by_cases h4 : isZero c4
  · rw [if_pos h4] at hs
    obtain ⟨hc4, hs⟩ := hs
    subst hc4
    rw [solveQuartic_of_isZero _ _ _ _ _ _ _ _ h4] at hi ⊢
    have := solveCubic_root_exact c0 c1 c2 c3 s o hs i hi
    rw [cubicEval_eq] at this
    linarith
  · rw [if_neg h4] at hs
    obtain ⟨hr, hs⟩ := hs
    have hr' : isZero (quarticR c0 c1 c2 c3 c4) := by rw [hr]; exact isZero_zero
    rw [solveQuartic_rzero _ _ _ _ _ _ _ _ h4 hr'] at hi ⊢
    rw [quartic_depressed c0 c1 c2 c3 c4 _ (ne_zero_of_not_isZero h4), hr]
    simp only at hi
    simp only [resubstitute, if_pos hi]
    set r1 := solveCubic realLibm (quarticQ c1 c2 c3 c4) (quarticP c2 c3 c4) 0 1 s o with hr1
    rcases Nat.lt_succ_iff_lt_or_eq.mp hi with hlt | heq
    · have := solveCubic_root_exact (quarticQ c1 c2 c3 c4) (quarticP c2 c3 c4) 0 1 s o hs i hlt
      rw [cubicEval_eq, ← hr1] at this
      rw [Function.update_noteq (by omega)]
      have e : r1.s i - 1 / 4 * quarticA c3 c4 + 1 / 4 * quarticA c3 c4 = r1.s i := by ring
      rw [e]
      linear_combination c4 * r1.s i * this
    · rw [heq, Function.update_same]
      ring

/-! ### Residuals of the returned roots -/

theorem isZero_small : isZero ((1 : ℝ) / 10000000000) := by
  unfold isZero EQN_EPS; norm_num

theorem not_isZero_one : ¬ isZero (1 : ℝ) := by
  rw [not_isZero_iff_abs]; norm_num

/-- Claim C4 fails as stated: not every root returned by `solveCubic` has a residual below
`1e-6`. For `(c0, c1, c2, c3) = (-1000, 1, 0, 1e-10)` the leading coefficient is dropped and
the linear root `1000` is returned, where the cubic is `0.1`. -/
theorem solveCubic_residual_counterexample :
    ¬ ∀ (c0 c1 c2 c3 : ℝ) (s : Nat → ℝ) (o : Nat → Int) (i : Nat),
      i < (solveCubic realLibm c0 c1 c2 c3 s o).num →
      |c0 + c1 * (solveCubic realLibm c0 c1 c2 c3 s o).s i
        + c2 * (solveCubic realLibm c0 c1 c2 c3 s o).s i ^ 2
        + c3 * (solveCubic realLibm c0 c1 c2 c3 s o).s i ^ 3| < 1e-6 := by
  intro h
  have e : solveCubic realLibm (-1000) 1 0 (1 / 10000000000) (fun _ => 0) (fun _ => 0) =
      ⟨1, Function.update (fun _ => 0) 0 1000, Function.update (fun _ => 0) 0 1⟩ := by
    rw [solveCubic_of_isZero _ _ _ _ _ _ _ isZero_small,
      solveQuadric_of_isZero _ _ _ _ _ _ isZero_zero]
    simp [solveLinear, not_isZero_one]
  have := h (-1000) 1 0 (1 / 10000000000) (fun _ => 0) (fun _ => 0) 0 (by rw [e]; norm_num)
  rw [e] at this
  norm_num [abs_of_pos] at this

/-- Claim C4, as amended. In exact real arithmetic, when no near-zero test of `solveCubic`
and the solvers it delegates to is passed by a value that is not exactly zero (`cubicSharp`),
every root `solveCubic` returns is an exact root of `c0 + c1*x + c2*x^2 + c3*x^3`; in
particular its residual is below `1e-6`. -/
theorem solveCubic_residual_sharp (c0 c1 c2 c3 : ℝ) (s : Nat → ℝ) (o : Nat → Int)
    (hs : cubicSharp c0 c1 c2 c3) (i : Nat)
    (hi : i < (solveCubic realLibm c0 c1 c2 c3 s o).num) :
    c0 + c1 * (solveCubic realLibm c0 c1 c2 c3 s o).s i
        + c2 * (solveCubic realLibm c0 c1 c2 c3 s o).s i ^ 2
        + c3 * (solveCubic realLibm c0 c1 c2 c3 s o).s i ^ 3 = 0 ∧
      |c0 + c1 * (solveCubic realLibm c0 c1 c2 c3 s o).s i
        + c2 * (solveCubic realLibm c0 c1 c2 c3 s o).s i ^ 2
        + c3 * (solveCubic realLibm c0 c1 c2 c3 s o).s i ^ 3| < 1e-6 := by
  have h := solveCubic_root_exact c0 c1 c2 c3 s o hs i hi
  rw [cubicEval_eq] at h
  rw [h]
  norm_num

theorem cubic_x3_sub_x :
    ¬ isZero (1 : ℝ) ∧ ¬ isZero (cubicD (0 : ℝ) (-1) 0 1) ∧ cubicD (0 : ℝ) (-1) 0 1 < 0 := by
  have hD : cubicD (0 : ℝ) (-1) 0 1 = -1 / 27 := by norm_num [cubicD, cubicQ, cubicP, cubicA]
  refine ⟨not_isZero_one, ?_, ?_⟩
  · rw [hD, not_isZero_iff_abs]; norm_num [abs_of_neg]
  · rw [hD]; norm_num

theorem cubicSharp_x3_sub_x : cubicSharp (0 : ℝ) (-1) 0 1 := by
  obtain ⟨h1, h2, _⟩ := cubic_x3_sub_x
  unfold cubicSharp
  rw [if_neg h1]
  intro h
  exact absurd h h2

theorem solveCubic_x3_sub_x_num (s : Nat → ℝ) (o : Nat → Int) :
    (solveCubic realLibm 0 (-1) 0 1 s o).num = 3 := by
  obtain ⟨h1, h2, h3⟩ := cubic_x3_sub_x
  rw [solveCubic_three _ _ _ _ _ _ _ h1 h2 h3]

/-- The amended claim C4 at `x^3 - x`, which takes the three-root branch. -/
theorem solveCubic_residual_sharp_witness :
    cubicSharp (0 : ℝ) (-1) 0 1 ∧
      2 < (solveCubic realLibm 0 (-1) 0 1 (fun _ => 0) (fun _ => 0)).num ∧
      (0 : ℝ) + (-1) * (solveCubic realLibm 0 (-1) 0 1 (fun _ => 0) (fun _ => 0)).s 2
        + 0 * (solveCubic realLibm 0 (-1) 0 1 (fun _ => 0) (fun _ => 0)).s 2 ^ 2
        + 1 * (solveCubic realLibm 0 (-1) 0 1 (fun _ => 0) (fun _ => 0)).s 2 ^ 3 = 0 :=
  have hn : 2 < (solveCubic realLibm 0 (-1) 0 1 (fun _ => 0) (fun _ => 0)).num := by
    rw [solveCubic_x3_sub_x_num]; norm_num
  ⟨cubicSharp_x3_sub_x, hn,
    (solveCubic_residual_sharp 0 (-1) 0 1 _ _ cubicSharp_x3_sub_x 2 hn).1⟩

/-- Claim C2 fails as stated: not every root returned by `solveQuartic` has a residual below
`1e-6`. For `(c0, c1, c2, c3, c4) = (-1000, 1, 0, 0, 1e-10)` the leading coefficient is dropped
and the linear root `1000` is returned, where the quartic is `100`. -/
theorem solveQuartic_residual_counterexample :
    ¬ ∀ (c0 c1 c2 c3 c4 : ℝ) (s : Nat → ℝ) (o : Nat → Int) (i : Nat),
      i < (solveQuartic realLibm c0 c1 c2 c3 c4 s o).num →
      |c0 + c1 * (solveQuartic realLibm c0 c1 c2 c3 c4 s o).s i
        + c2 * (solveQuartic realLibm c0 c1 c2 c3 c4 s o).s i ^ 2
        + c3 * (solveQuartic realLibm c0 c1 c2 c3 c4 s o).s i ^ 3
        + c4 * (solveQuartic realLibm c0 c1 c2 c3 c4 s o).s i ^ 4| < 1e-6 := by
  intro h
  have e : solveQuartic realLibm (-1000) 1 0 0 (1 / 10000000000) (fun _ => 0) (fun _ => 0) =
      ⟨1, Function.update (fun _ => 0) 0 1000, Function.update (fun _ => 0) 0 1⟩ := by
    rw [solveQuartic_of_isZero _ _ _ _ _ _ _ _ isZero_small,
      solveCubic_of_isZero _ _ _ _ _ _ _ isZero_zero,
      solveQuadric_of_isZero _ _ _ _ _ _ isZero_zero]
    simp [solveLinear, not_isZero_one]
  have := h (-1000) 1 0 0 (1 / 10000000000) (fun _ => 0) (fun _ => 0) 0 (by rw [e]; norm_num)
  rw [e] at this
  norm_num [abs_of_pos] at this

/-- Claim C2, as amended. In exact real arithmetic, when no near-zero test of `solveQuartic`
and the solvers it delegates to is passed by a value that is not exactly zero and the call
is settled without the resolvent cubic (`quarticSharp`: `c4 = 0`, or `|c4| ≥ 1e-9` and the
depressed constant term `r = 0`), every root `solveQuartic` returns is an exact root of
`c0 + c1*x + c2*x^2 + c3*x^3 + c4*x^4`; in particular its residual is below `1e-6`. -/
theorem solveQuartic_residual_sharp (c0 c1 c2 c3 c4 : ℝ) (s : Nat → ℝ) (o : Nat → Int)
    (hs : quarticSharp c0 c1 c2 c3 c4) (i : Nat)
    (hi : i < (solveQuartic realLibm c0 c1 c2 c3 c4 s o).num) :
    c0 + c1 * (solveQuartic realLibm c0 c1 c2 c3 c4 s o).s i
        + c2 * (solveQuartic realLibm c0 c1 c2 c3 c4 s o).s i ^ 2
        + c3 * (solveQuartic realLibm c0 c1 c2 c3 c4 s o).s i ^ 3
        + c4 * (solveQuartic realLibm c0 c1 c2 c3 c4 s o).s i ^ 4 = 0 ∧
      |c0 + c1 * (solveQuartic realLibm c0 c1 c2 c3 c4 s o).s i
        + c2 * (solveQuartic realLibm c0 c1 c2 c3 c4 s o).s i ^ 2
        + c3 * (solveQuartic realLibm c0 c1 c2 c3 c4 s o).s i ^ 3
        + c4 * (solveQuartic realLibm c0 c1 c2 c3 c4 s o).s i ^ 4| < 1e-6 := by
  have h := solveQuartic_root_exact c0 c1 c2 c3 c4 s o hs i hi
  rw [h]
  norm_num

theorem quartic_x4_sub_x2 :
    quarticR (0 : ℝ) 0 (-1) 0 1 = 0 ∧ quarticQ (0 : ℝ) (-1) 0 1 = 0 ∧
      quarticP (-1 : ℝ) 0 1 = -1 := by
  refine ⟨?_, ?_, ?_⟩ <;> norm_num [quarticR, quarticQ, quarticP, quarticA]

theorem quarticSharp_x4_sub_x2 : quarticSharp (0 : ℝ) 0 (-1) 0 1 := by
  obtain ⟨hR, hQ, hP⟩ := quartic_x4_sub_x2
  unfold quarticSharp
  rw [if_neg not_isZero_one, hQ, hP]
  exact ⟨hR, cubicSharp_x3_sub_x⟩

theorem solveQuartic_x4_sub_x2_num (s : Nat → ℝ) (o : Nat → Int) :
    (solveQuartic realLibm 0 0 (-1) 0 1 s o).num = 4 := by
  obtain ⟨hR, hQ, hP⟩ := quartic_x4_sub_x2
  rw [solveQuartic_rzero _ _ _ _ _ _ _ _ not_isZero_one (by rw [hR]; exact isZero_zero), hQ, hP]
  simp only [solveCubic_x3_sub_x_num]

/-- The amended claim C2 at `x^4 - x^2`, which takes the branch `r = 0`. -/
theorem solveQuartic_residual_sharp_witness :
    quarticSharp (0 : ℝ) 0 (-1) 0 1 ∧
      3 < (solveQuartic realLibm 0 0 (-1) 0 1 (fun _ => 0) (fun _ => 0)).num ∧
      (0 : ℝ) + 0 * (solveQuartic realLibm 0 0 (-1) 0 1 (fun _ => 0) (fun _ => 0)).s 3
        + (-1) * (solveQuartic realLibm 0 0 (-1) 0 1 (fun _ => 0) (fun _ => 0)).s 3 ^ 2
        + 0 * (solveQuartic realLibm 0 0 (-1) 0 1 (fun _ => 0) (fun _ => 0)).s 3 ^ 3
        + 1 * (solveQuartic realLibm 0 0 (-1) 0 1 (fun _ => 0) (fun _ => 0)).s 3 ^ 4 = 0 :=
  have hn : 3 < (solveQuartic realLibm 0 0 (-1) 0 1 (fun _ => 0) (fun _ => 0)).num := by
    rw [solveQuartic_x4_sub_x2_num]; norm_num
  ⟨quarticSharp_x4_sub_x2, hn,
    (solveQuartic_residual_sharp 0 0 (-1) 0 1 _ _ quarticSharp_x4_sub_x2 3 hn).1⟩

/-! ### The clamped integrator: integrals of the spans -/

theorem cubicEval_continuous (c0 c1 c2 c3 : ℝ) : Continuous (cubicEval c0 c1 c2 c3) := by
  unfold cubicEval
  fun_prop

theorem clamp_continuous (c0 c1 c2 c3 vmin vmax : ℝ) :
    Continuous (fun x => clampValue vmin vmax (cubicEval c0 c1 c2 c3 x)) := by
  unfold clampValue
  have := cubicEval_continuous c0 c1 c2 c3
  fun_prop

theorem statusValue_continuous (c0 c1 c2 c3 vmin vmax : ℝ) (st : eFuncType) :
    Continuous (statusValue c0 c1 c2 c3 vmin vmax st) := by
  cases st
  · exact continuous_const
  · exact continuous_const
  · exact cubicEval_continuous c0 c1 c2 c3

theorem cubicIntegrate_hasDerivAt (c0 c1 c2 c3 x : ℝ) :
    HasDerivAt (cubicIntegrate c0 c1 c2 c3) (cubicEval c0 c1 c2 c3 x) x := by
  have h : cubicIntegrate c0 c1 c2 c3 =
      fun t => c0 * t + c1 * t ^ 2 / 2 + c2 * t ^ 3 / 3 + c3 * t ^ 4 / 4 := by
    funext t; unfold cubicIntegrate; ring
  rw [h]
  have e : cubicEval c0 c1 c2 c3 x =
      c0 * 1 + c1 * (2 * x ^ 1 * 1) / 2 + c2 * (3 * x ^ 2 * 1) / 3 + c3 * (4 * x ^ 3 * 1) / 4 := by
    unfold cubicEval; ring
  rw [e]
  have hx : HasDerivAt (fun t : ℝ => t) 1 x := hasDerivAt_id x
  exact (((hx.const_mul c0).add (((hx.pow 2).const_mul c1).div_const 2)).add
    (((hx.pow 3).const_mul c2).div_const 3)).add (((hx.pow 4).const_mul c3).div_const 4)

theorem integral_cubicEval (c0 c1 c2 c3 a b : ℝ) :
    ∫ x in a..b, cubicEval c0 c1 c2 c3 x =
      cubicIntegrate c0 c1 c2 c3 b - cubicIntegrate c0 c1 c2 c3 a :=
  intervalIntegral.integral_eq_sub_of_hasDerivAt
    (fun x _ => cubicIntegrate_hasDerivAt c0 c1 c2 c3 x)
    ((cubicEval_continuous c0 c1 c2 c3).intervalIntegrable a b)

theorem integral_statusValue (c0 c1 c2 c3 vmin vmax : ℝ) (st : eFuncType) (a b : ℝ) :
    ∫ x in a..b, statusValue c0 c1 c2 c3 vmin vmax st x =
      spanIntegral c0 c1 c2 c3 vmin vmax st a b := by
  cases st
  · simp [statusValue, spanIntegral]
  · simp [statusValue, spanIntegral]
  · simp only [statusValue, spanIntegral]
    exact integral_cubicEval c0 c1 c2 c3 a b

/-- On a span where the status is valid at every interior point, the integral of the clamped
cubic is what `integrate_clamp` adds for the span. -/
theorem span_integral_eq (c0 c1 c2 c3 vmin vmax : ℝ) (st : eFuncType) (a b : ℝ) (hab : a ≤ b)
    (hv : ∀ x, a < x → x < b → StatusValid c0 c1 c2 c3 vmin vmax st x) :
    ∫ x in a..b, clampValue vmin vmax (cubicEval c0 c1 c2 c3 x) =
      spanIntegral c0 c1 c2 c3 vmin vmax st a b := by
  rw [← integral_statusValue]
  rcases eq_or_lt_of_le hab with h | h
  · subst h; simp
  · apply intervalIntegral.integral_congr
    rw [Set.uIcc_of_le hab, ← closure_Ioo h.ne]
    apply Set.EqOn.closure _ (clamp_continuous c0 c1 c2 c3 vmin vmax)
      (statusValue_continuous c0 c1 c2 c3 vmin vmax st)
    intro x hx
    exact hv x hx.1 hx.2

theorem clamp_integral_add (c0 c1 c2 c3 vmin vmax a b c : ℝ) :
    (∫ x in a..b, clampValue vmin vmax (cubicEval c0 c1 c2 c3 x)) +
      ∫ x in b..c, clampValue vmin vmax (cubicEval c0 c1 c2 c3 x) =
      ∫ x in a..c, clampValue vmin vmax (cubicEval c0 c1 c2 c3 x) :=
  intervalIntegral.integral_add_adjacent_intervals
    ((clamp_continuous c0 c1 c2 c3 vmin vmax).intervalIntegrable a b)
    ((clamp_continuous c0 c1 c2 c3 vmin vmax).intervalIntegrable b c)

theorem integrateSpans_correct (c0 c1 c2 c3 vmin vmax t2 : ℝ) (init : eFuncType)
    (l : List (Sol ℝ)) (H : ScanValid c0 c1 c2 c3 vmin vmax init l) :
    ∀ (rest done : List (Sol ℝ)) (t ret : ℝ), l = done ++ rest → (∀ s ∈ done, s.t ≤ t) →
      (∀ s ∈ rest, t ≤ s.t) → rest.Pairwise (fun a b => a.t ≤ b.t) → t ≤ t2 →
      (integrateSpans c0 c1 c2 c3 vmin vmax t2 (done.foldl statusUpdate init) t ret rest).2.2 +
        spanIntegral c0 c1 c2 c3 vmin vmax
          (integrateSpans c0 c1 c2 c3 vmin vmax t2 (done.foldl statusUpdate init) t ret rest).1
          (integrateSpans c0 c1 c2 c3 vmin vmax t2 (done.foldl statusUpdate init) t ret rest).2.1
          t2 =
        ret + ∫ x in t..t2, clampValue vmin vmax (cubicEval c0 c1 c2 c3 x) := by
  intro rest
  induction rest with
  | nil =>
    intro done t ret hl hdone _ _ ht
    simp only [integrateSpans]
    rw [span_integral_eq c0 c1 c2 c3 vmin vmax _ t t2 ht]
    intro x hx1 _
    exact H done [] hl x (fun s hs => lt_of_le_of_lt (hdone s hs) hx1) (by simp)
  | cons sol rest ih =>
    intro done t ret hl hdone hrest hpw ht
    have hsol : t ≤ sol.t := hrest sol (List.mem_cons_self _ _)
    have hle : ∀ s ∈ rest, sol.t ≤ s.t := (List.pairwise_cons.mp hpw).1
    by_cases hlt : sol.t < t2
    · simp only [integrateSpans, if_pos hlt]
      have hl' : l = (done ++ [sol]) ++ rest := by simp [hl]
      have hfold : (done ++ [sol]).foldl statusUpdate init =
          statusUpdate (done.foldl statusUpdate init) sol := by
        simp [List.foldl_append]
      have := ih (done ++ [sol]) sol.t
        (ret + spanIntegral c0 c1 c2 c3 vmin vmax (done.foldl statusUpdate init) t sol.t) hl'
        (by
          intro s hs
          rcases List.mem_append.mp hs with h | h
          · exact le_trans (hdone s h) hsol
          · rw [List.mem_singleton.mp h])
        hle (List.pairwise_cons.mp hpw).2 hlt.le
      rw [hfold] at this
      rw [this, ← span_integral_eq c0 c1 c2 c3 vmin vmax _ t sol.t hsol, add_assoc,
        clamp_integral_add]
      intro x hx1 hx2
      refine H done (sol :: rest) hl x (fun s hs => lt_of_le_of_lt (hdone s hs) hx1) ?_
      intro s hs
      rcases List.mem_cons.mp hs with h | h
      · rw [h]; exact hx2
      · exact lt_of_lt_of_le hx2 (hle s h)
    · simp only [integrateSpans, if_neg hlt]
      rw [span_integral_eq c0 c1 c2 c3 vmin vmax _ t t2 ht]
      intro x hx1 hx2
      refine H done (sol :: rest) hl x (fun s hs => lt_of_le_of_lt (hdone s hs) hx1) ?_
      intro s hs
      have h2 : t2 ≤ sol.t := not_lt.mp hlt
      rcases List.mem_cons.mp hs with h | h
      · rw [h]; exact lt_of_lt_of_le hx2 h2
      · exact lt_of_lt_of_le hx2 (le_trans h2 (hle s h))

theorem statusAtT1_spec (t1 : ℝ) (init : eFuncType) (l : List (Sol ℝ)) :
    ∀ (rest done : List (Sol ℝ)), l = done ++ rest → (∀ s ∈ done, s.t ≤ t1) →
      rest.Pairwise (fun a b => a.t ≤ b.t) →
      ∃ done' rest' : List (Sol ℝ),
        statusAtT1 t1 (done.foldl statusUpdate init) rest =
          (done'.foldl statusUpdate init, rest') ∧
        l = done' ++ rest' ∧ (∀ s ∈ done', s.t ≤ t1) ∧ (∀ s ∈ rest', t1 ≤ s.t) ∧
        rest'.Pairwise (fun a b => a.t ≤ b.t) := by
  intro rest
  induction rest with
  | nil =>
    intro done hl hdone _
    exact ⟨done, [], by simp [statusAtT1], hl, hdone, by simp, List.Pairwise.nil⟩
  | cons sol rest ih =>
    intro done hl hdone hpw
    by_cases h : sol.t ≤ t1
    · have hl' : l = (done ++ [sol]) ++ rest := by simp [hl]
      obtain ⟨d', r', e, h1, h2, h3, h4⟩ := ih (done ++ [sol]) hl'
        (by
          intro s hs
          rcases List.mem_append.mp hs with h' | h'
          · exact hdone s h'
          · rw [List.mem_singleton.mp h']; exact h)
        (List.pairwise_cons.mp hpw).2
      refine ⟨d', r', ?_, h1, h2, h3, h4⟩
      simp only [statusAtT1, if_pos h]
      rw [← e]
      simp [List.foldl_append]
    · refine ⟨done, sol :: rest, by simp [statusAtT1, h], hl, hdone, ?_, hpw⟩
      intro s hs
      have h1 : t1 ≤ sol.t := (not_le.mp h).le
      rcases List.mem_cons.mp hs with h' | h'
      · rw [h']; exact h1
      · exact le_trans h1 ((List.pairwise_cons.mp hpw).1 s h')

/-- The two loops of `integrate_clamp` and the last span add up to the integral of the clamped
cubic over `[t1, t2]`. -/
theorem scan_correct (c0 c1 c2 c3 vmin vmax t1 t2 : ℝ) (init : eFuncType) (l : List (Sol ℝ))
    (H : ScanValid c0 c1 c2 c3 vmin vmax init l) (hpw : l.Pairwise (fun a b => a.t ≤ b.t))
    (h12 : t1 ≤ t2) :
    (integrateSpans c0 c1 c2 c3 vmin vmax t2 (statusAtT1 t1 init l).1 t1 0
        (statusAtT1 t1 init l).2).2.2 +
      spanIntegral c0 c1 c2 c3 vmin vmax
        (integrateSpans c0 c1 c2 c3 vmin vmax t2 (statusAtT1 t1 init l).1 t1 0
          (statusAtT1 t1 init l).2).1
        (integrateSpans c0 c1 c2 c3 vmin vmax t2 (statusAtT1 t1 init l).1 t1 0
          (statusAtT1 t1 init l).2).2.1 t2 =
      ∫ x in t1..t2, clampValue vmin vmax (cubicEval c0 c1 c2 c3 x) := by
  obtain ⟨d', r', e, h1, h2, h3, h4⟩ := statusAtT1_spec t1 init l l [] (by simp) (by simp) hpw
  simp only [List.foldl_nil] at e
  rw [e]
  simp only
  rw [integrateSpans_correct c0 c1 c2 c3 vmin vmax t2 init l H r' d' t1 0 h1 h2 h3 h4 h12]
  ring

/-! ### The clamped integrator: the status after a prefix of solutions -/

theorem statusUpdate_even (st : eFuncType) (s : Sol ℝ) (h : ¬ oddOrder s.order) :
    statusUpdate st s = st := by
  unfold oddOrder at h
  cases st <;> simp [statusUpdate, h]

theorem statusUpdate_odd_clamp (st : eFuncType) (s : Sol ℝ) (h : oddOrder s.order)
    (hst : st ≠ CUBIC) : statusUpdate st s = CUBIC := by
  unfold oddOrder at h
  cases st <;> simp_all [statusUpdate]

theorem statusUpdate_odd_cubic (s : Sol ℝ) (h : oddOrder s.order) :
    statusUpdate CUBIC s = if s.type = SOLMIN then CLAMPMIN else CLAMPMAX := by
  unfold oddOrder at h
  by_cases ht : s.type = SOLMIN <;> simp [statusUpdate, h, ht]

theorem foldl_statusUpdate_even (P : List (Sol ℝ)) (h : ∀ s ∈ P, ¬ oddOrder s.order) :
    ∀ st, P.foldl statusUpdate st = st := by
  induction P with
  | nil => intro st; rfl
  | cons a P ih =>
    intro st
    rw [List.foldl_cons, statusUpdate_even st a (h a (List.mem_cons_self _ _))]
    exact ih (fun s hs => h s (List.mem_cons_of_mem _ hs)) st

/-- The status is `CUBIC` exactly after an odd number of odd-order solutions (from a clamped
start). -/
theorem foldl_statusUpdate_cubic_iff (P : List (Sol ℝ)) :
    ∀ st, (P.foldl statusUpdate st = CUBIC ↔
      (st = CUBIC ↔ Even (P.filter (fun s => decide (oddOrder s.order))).length)) := by
  induction P with
  | nil => intro st; simp
  | cons a P ih =>
    intro st
    rw [List.foldl_cons, ih]
    by_cases ha : oddOrder a.order
    · rw [List.filter_cons_of_pos (by simpa using ha), List.length_cons, Nat.even_add_one]
      by_cases hst : st = CUBIC
      · subst hst
        rw [statusUpdate_odd_cubic a ha]
        by_cases ht : a.type = SOLMIN <;> simp [ht]
      · rw [statusUpdate_odd_clamp st a ha hst]
        simp [hst]
    · rw [List.filter_cons_of_neg (by simpa using ha), statusUpdate_even st a ha]

theorem last_odd_decomp (P : List (Sol ℝ)) :
    (∀ s ∈ P, ¬ oddOrder s.order) ∨
      ∃ (P1 : List (Sol ℝ)) (s : Sol ℝ) (P2 : List (Sol ℝ)),
        P = P1 ++ s :: P2 ∧ oddOrder s.order ∧ ∀ s' ∈ P2, ¬ oddOrder s'.order := by
  induction P with
  | nil => left; simp
  | cons a P ih =>
    rcases ih with h | ⟨P1, s, P2, e, hs, h2⟩
    · by_cases ha : oddOrder a.order
      · right
        exact ⟨[], a, P, rfl, ha, h⟩
      · left
        intro s hs
        rcases List.mem_cons.mp hs with h' | h'
        · rw [h']; exact ha
        · exact h s h'
    · right
      exact ⟨a :: P1, s, P2, by rw [e]; rfl, hs, h2⟩

/-- After a prefix whose last odd-order solution is `s`, a status that is not `CUBIC` is the
clamp of the type of `s`. -/
theorem foldl_statusUpdate_last_odd (P1 P2 : List (Sol ℝ)) (s : Sol ℝ) (init : eFuncType)
    (hs : oddOrder s.order) (h2 : ∀ s' ∈ P2, ¬ oddOrder s'.order)
    (hne : (P1 ++ s :: P2).foldl statusUpdate init ≠ CUBIC) :
    (P1 ++ s :: P2).foldl statusUpdate init = if s.type = SOLMIN then CLAMPMIN else CLAMPMAX := by
  rw [List.foldl_append, List.foldl_cons, foldl_statusUpdate_even P2 h2] at hne ⊢
  by_cases hst : P1.foldl statusUpdate init = CUBIC
  · rw [hst, statusUpdate_odd_cubic s hs]
  · rw [statusUpdate_odd_clamp _ s hs hst] at hne
    exact absurd rfl hne

/-! ### The clamped integrator: signs between the roots -/

theorem oddOrder_iff_toNat {o : Int} (h : 1 ≤ o) : oddOrder o ↔ Odd o.toNat := by
  unfold oddOrder
  rw [Nat.odd_iff]
  have h0 : 0 ≤ o := by omega
  rw [Int.tmod_eq_emod h0 (by norm_num)]
  omega

theorem signedProduct_cons (p : ℝ × Int) (R : List (ℝ × Int)) (x : ℝ) :
    signedProduct (p :: R) x = (p.1 - x) ^ p.2.toNat * signedProduct R x := by
  simp [signedProduct]

theorem rootProduct_cons (p : ℝ × Int) (R : List (ℝ × Int)) (x : ℝ) :
    rootProduct (p :: R) x = (x - p.1) ^ p.2.toNat * rootProduct R x := by
  simp [rootProduct]

/-- The sign of the product of `(root - x) ^ multiplicity` away from the roots. -/
theorem signedProduct_sign (x : ℝ) (R : List (ℝ × Int)) (hord : ∀ p ∈ R, 1 ≤ p.2)
    (hx : ∀ p ∈ R, p.1 ≠ x) :
    signedProduct R x ≠ 0 ∧ (0 < signedProduct R x ↔ Even (oddBelow R x)) := by
  induction R with
  | nil => simp [signedProduct, oddBelow]
  | cons p R ih =>
    obtain ⟨ih1, ih2⟩ := ih (fun q hq => hord q (List.mem_cons_of_mem _ hq))
      (fun q hq => hx q (List.mem_cons_of_mem _ hq))
    have hp1 : 1 ≤ p.2 := hord p (List.mem_cons_self _ _)
    have hpx : p.1 ≠ x := hx p (List.mem_cons_self _ _)
    have hne : p.1 - x ≠ 0 := sub_ne_zero.mpr hpx
    rw [signedProduct_cons]
    refine ⟨mul_ne_zero (pow_ne_zero _ hne) ih1, ?_⟩
    rcases lt_or_gt_of_ne hpx with hlt | hgt
    · -- the root is before x
      have hneg : p.1 - x < 0 := by linarith
      by_cases hodd : oddOrder p.2
      · have hpow : (p.1 - x) ^ p.2.toNat < 0 :=
          Odd.pow_neg ((oddOrder_iff_toNat hp1).mp hodd) hneg
        have hc : oddBelow (p :: R) x = oddBelow R x + 1 := by
          unfold oddBelow
          rw [List.filter_cons_of_pos (by simpa using ⟨hlt, hodd⟩), List.length_cons]
        rw [hc, Nat.even_add_one, ← ih2]
        constructor
        · intro h hpos
          nlinarith
        · intro h
          have : signedProduct R x < 0 := lt_of_le_of_ne (not_lt.mp h) ih1
          nlinarith
      · have heven : Even p.2.toNat := by
          rw [← Nat.not_odd_iff_even, ← oddOrder_iff_toNat hp1]; exact hodd
        have hpow : 0 < (p.1 - x) ^ p.2.toNat := Even.pow_pos heven hne
        have hc : oddBelow (p :: R) x = oddBelow R x := by
          unfold oddBelow
          rw [List.filter_cons_of_neg (by simp [hodd])]
        rw [hc, ← ih2]
        exact mul_pos_iff_of_pos_left hpow
    · have hpos : 0 < p.1 - x := by linarith
      have hpow : 0 < (p.1 - x) ^ p.2.toNat := pow_pos hpos _
      have hc : oddBelow (p :: R) x = oddBelow R x := by
        unfold oddBelow
        rw [List.filter_cons_of_neg (by simp [not_lt.mpr hgt.le])]
      rw [hc, ← ih2]
      exact mul_pos_iff_of_pos_left hpow

theorem rootProduct_eq_signedProduct (x : ℝ) (R : List (ℝ × Int)) :
    rootProduct R x = (-1) ^ (R.map (fun p => p.2.toNat)).sum * signedProduct R x := by
  induction R with
  | nil => simp [rootProduct, signedProduct]
  | cons p R ih =>
    rw [rootProduct_cons, signedProduct_cons, ih, List.map_cons, List.sum_cons, pow_add]
    have : (x - p.1) ^ p.2.toNat = (-1) ^ p.2.toNat * (p.1 - x) ^ p.2.toNat := by
      rw [← mul_pow]; congr 1; ring
    rw [this]
    ring

theorem sum_toNat_cast (R : List (ℝ × Int)) (hord : ∀ p ∈ R, 1 ≤ p.2) :
    (((R.map (fun p => p.2.toNat)).sum : Nat) : Int) = (R.map Prod.snd).sum := by
  induction R with
  | nil => simp
  | cons p R ih =>
    have hp1 : 1 ≤ p.2 := hord p (List.mem_cons_self _ _)
    have ih' := ih (fun q hq => hord q (List.mem_cons_of_mem _ hq))
    simp only [List.map_cons, List.sum_cons, Nat.cast_add]
    rw [ih', Int.toNat_of_nonneg (by omega)]

theorem neg_one_pow_congr {n m : Nat} (h : n % 2 = m % 2) : ((-1 : ℝ)) ^ n = (-1) ^ m := by
  rcases Nat.even_or_odd n with hn | hn
  · have hm : Even m := by rw [Nat.even_iff] at hn ⊢; omega
    rw [hn.neg_one_pow, hm.neg_one_pow]
  · have hm : Odd m := by rw [Nat.odd_iff] at hn ⊢; omega
    rw [hn.neg_one_pow, hm.neg_one_pow]

/-- A factored function obeys the sign rule, with `sigma` the leading coefficient times
`(-1) ^ d`. -/
theorem Factored.signRule {g : ℝ → ℝ} {K : ℝ} {d : Int} {R : List (ℝ × Int)}
    (h : Factored g K d R) (hd : 0 ≤ d) : SignRule g (K * (-1) ^ d.toNat) R := by
  obtain ⟨hK, hord, hpar, f, hf, hg⟩ := h
  intro x hx
  obtain ⟨h1, h2⟩ := signedProduct_sign x R hord hx
  have hN : (-1 : ℝ) ^ (R.map (fun p => p.2.toNat)).sum = (-1) ^ d.toNat := by
    apply neg_one_pow_congr
    have := sum_toNat_cast R hord
    omega
  have hsq : ((-1 : ℝ) ^ d.toNat) * ((-1 : ℝ) ^ d.toNat) = 1 := by
    rw [← pow_add, ← two_mul, pow_mul]; norm_num
  have e : K * (-1) ^ d.toNat * g x = K ^ 2 * f x * signedProduct R x := by
    rw [hg, rootProduct_eq_signedProduct, hN]
    linear_combination (K ^ 2 * signedProduct R x * f x) * hsq
  have hpos : 0 < K ^ 2 * f x := mul_pos (by positivity) (hf x)
  constructor
  · intro h0
    rw [h0, mul_zero] at e
    have := mul_ne_zero hpos.ne' h1
    exact this e.symm
  · rw [e, ← h2]
    exact mul_pos_iff_of_pos_left hpos

/-! ### The clamped integrator: the status is valid between the solutions -/

theorem pos_iff_of_scaled {σ u v : ℝ} (hσ : σ ≠ 0) (hu : u ≠ 0) (hv : v ≠ 0)
    (h : 0 < σ * u ↔ 0 < σ * v) : (0 < u ↔ 0 < v) := by
  rcases lt_or_gt_of_ne hσ with hs | hs
  · -- σ < 0
    have e1 : ∀ w : ℝ, w ≠ 0 → (0 < σ * w ↔ ¬ 0 < w) := by
      intro w hw
      constructor
      · intro h1 h2
        nlinarith
      · intro h1
        have : w < 0 := lt_of_le_of_ne (not_lt.mp h1) hw
        nlinarith
    rw [e1 u hu, e1 v hv] at h
    exact not_iff_not.mp h
  · have e1 : ∀ w : ℝ, (0 < σ * w ↔ 0 < w) := fun w => mul_pos_iff_of_pos_left hs
    rw [e1 u, e1 v] at h
    exact h

/-- Two non-root points with the same parity of odd roots before them see the same sign. -/
theorem SignRule.same_sign {g : ℝ → ℝ} {σ : ℝ} {R : List (ℝ × Int)} (h : SignRule g σ R)
    (hσ : σ ≠ 0) {a b : ℝ} (ha : ∀ p ∈ R, p.1 ≠ a) (hb : ∀ p ∈ R, p.1 ≠ b)
    (hpar : Even (oddBelow R a) ↔ Even (oddBelow R b)) : (0 < g a ↔ 0 < g b) := by
  obtain ⟨a1, a2⟩ := h a ha
  obtain ⟨b1, b2⟩ := h b hb
  exact pos_iff_of_scaled hσ a1 b1 (by rw [a2, b2]; exact hpar)

theorem clampValue_of_gt {vmin vmax v : ℝ} (hv : vmin ≤ vmax) (h : vmax < v) :
    clampValue vmin vmax v = vmax := by
  unfold clampValue
  rw [max_eq_left (by linarith), min_eq_right h.le]

theorem clampValue_of_lt {vmin vmax v : ℝ} (hv : vmin ≤ vmax) (h : v < vmin) :
    clampValue vmin vmax v = vmin := by
  unfold clampValue
  rw [max_eq_right h.le, min_eq_left hv]

theorem clampValue_of_mem {vmin vmax v : ℝ} (h1 : vmin ≤ v) (h2 : v ≤ vmax) :
    clampValue vmin vmax v = v := by
  unfold clampValue
  rw [max_eq_left h1, min_eq_left h2]

theorem cubicEval_sub (c0 c1 c2 c3 v x : ℝ) :
    cubicEval (c0 - v) c1 c2 c3 x = cubicEval c0 c1 c2 c3 x - v := by
  unfold cubicEval; ring

theorem oddBelow_rootSol (c0 c1 c2 c3 : ℝ) (ty : eSolType) (R : List (ℝ × Int)) (x : ℝ) :
    ((R.map (rootSol c0 c1 c2 c3 ty)).filter
      (fun s => decide (s.t < x ∧ oddOrder s.order))).length = oddBelow R x := by
  unfold oddBelow
  rw [List.filter_map, List.length_map]
  rfl

/-- The number of odd-order solutions in the processed prefix, in terms of the two root
lists. -/
theorem odd_count_prefix (c0 c1 c2 c3 : ℝ) (Rmax Rmin : List (ℝ × Int)) (l done rest : List (Sol ℝ))
    (hperm : l.Perm (Rmax.map (rootSol c0 c1 c2 c3 SOLMAX) ++ Rmin.map (rootSol c0 c1 c2 c3 SOLMIN)))
    (hl : l = done ++ rest) (x : ℝ) (hdone : ∀ s ∈ done, s.t < x) (hrest : ∀ s ∈ rest, x < s.t) :
    (done.filter (fun s => decide (oddOrder s.order))).length =
      oddBelow Rmax x + oddBelow Rmin x := by
  have h1 : (l.filter (fun s => decide (s.t < x ∧ oddOrder s.order))).length =
      oddBelow Rmax x + oddBelow Rmin x := by
    rw [(hperm.filter _).length_eq, List.filter_append, List.length_append,
      oddBelow_rootSol, oddBelow_rootSol]
  rw [← h1, hl, List.filter_append, List.length_append]
  have h2 : rest.filter (fun s => decide (s.t < x ∧ oddOrder s.order)) = [] := by
    rw [List.filter_eq_nil_iff]
    intro s hs
    have := hrest s hs
    simp [not_lt.mpr this.le]
  have h3 : done.filter (fun s => decide (s.t < x ∧ oddOrder s.order)) =
      done.filter (fun s => decide (oddOrder s.order)) := by
    apply List.filter_congr
    intro s hs
    simp [hdone s hs]
  rw [h2, h3]
  simp

theorem mem_sols_cases (c0 c1 c2 c3 : ℝ) (Rmax Rmin : List (ℝ × Int)) (l : List (Sol ℝ))
    (hperm : l.Perm (Rmax.map (rootSol c0 c1 c2 c3 SOLMAX) ++ Rmin.map (rootSol c0 c1 c2 c3 SOLMIN)))
    (s : Sol ℝ) (hs : s ∈ l) :
    (s.type = SOLMAX ∧ (s.t, s.order) ∈ Rmax) ∨ (s.type = SOLMIN ∧ (s.t, s.order) ∈ Rmin) := by
  have := hperm.mem_iff.mp hs
  rcases List.mem_append.mp this with h | h
  · obtain ⟨p, hp, e⟩ := List.mem_map.mp h
    left
    subst e
    exact ⟨rfl, hp⟩
  · obtain ⟨p, hp, e⟩ := List.mem_map.mp h
    right
    subst e
    exact ⟨rfl, hp⟩

theorem neg_pos_of_scaled {σ u v : ℝ} (hσ : σ ≠ 0) (hu : u ≠ 0) (hv : v ≠ 0) (huv : u < v)
    (h : 0 < σ * u ↔ ¬ 0 < σ * v) : u < 0 ∧ 0 < v := by
  rcases lt_or_gt_of_ne hσ with hs | hs
  · have e1 : ∀ w : ℝ, w ≠ 0 → (0 < σ * w ↔ w < 0) := by
      intro w hw
      constructor
      · intro h1
        by_contra h2
        have : 0 < w := lt_of_le_of_ne (not_lt.mp h2) (Ne.symm hw)
        nlinarith
      · intro h1
        nlinarith
    rw [e1 u hu, e1 v hv] at h
    by_cases hv0 : v < 0
    · exact absurd hv0 (h.mp (lt_trans huv hv0))
    · exact ⟨h.mpr hv0, lt_of_le_of_ne (not_lt.mp hv0) (Ne.symm hv)⟩
  · have e1 : ∀ w : ℝ, (0 < σ * w ↔ 0 < w) := fun w => mul_pos_iff_of_pos_left hs
    rw [e1 u, e1 v] at h
    by_cases hu0 : 0 < u
    · exact absurd (lt_trans hu0 huv) (h.mp hu0)
    · have hv0 : 0 < v := by
        by_contra hv0
        exact hu0 (h.mpr hv0)
      exact ⟨lt_of_le_of_ne (not_lt.mp hu0) hu, hv0⟩

theorem oddBelow_eq_zero_of_le (R : List (ℝ × Int)) (a : ℝ) (h : ∀ p ∈ R, a ≤ p.1) :
    oddBelow R a = 0 := by
  unfold oddBelow
  rw [List.length_eq_zero, List.filter_eq_nil_iff]
  intro p hp
  simp [not_lt.mpr (h p hp)]

/-- The odd roots of the other type before `x` are those before the last odd-order solution
of the processed prefix. -/
theorem oddBelow_eq_of_last_odd (c0 c1 c2 c3 : ℝ) (R : List (ℝ × Int)) (ty : eSolType)
    (P1 P2 rest : List (Sol ℝ)) (s : Sol ℝ) (x : ℝ)
    (hmemR : ∀ p ∈ R, rootSol c0 c1 c2 c3 ty p ∈ (P1 ++ s :: P2) ++ rest)
    (hrest : ∀ a ∈ rest, x < a.t) (hsx : s.t < x) (hP1 : ∀ a ∈ P1, a.t ≤ s.t)
    (h2 : ∀ a ∈ P2, ¬ oddOrder a.order) (hty : s.type ≠ ty) (hτ : ∀ p ∈ R, p.1 ≠ s.t) :
    oddBelow R s.t = oddBelow R x := by
  unfold oddBelow
  congr 1
  apply List.filter_congr
  intro p hp
  by_cases hodd : oddOrder p.2
  · have : (p.1 < s.t ↔ p.1 < x) := by
      constructor
      · intro h; exact lt_trans h hsx
      · intro h
        have hm := hmemR p hp
        rcases List.mem_append.mp hm with hd | hr
        · rcases List.mem_append.mp hd with h1 | h1
          · exact lt_of_le_of_ne (hP1 _ h1) (hτ p hp)
          · rcases List.mem_cons.mp h1 with h3 | h3
            · exfalso
              apply hty
              rw [← h3]
              rfl
            · exact absurd hodd (h2 _ h3)
        · have := hrest _ hr
          exact absurd h (not_lt.mpr this.le)
    simp [this, hodd]
  · simp [hodd]

/-- With `vmin < vmax`, sign rules with a common `sigma` for `cubic - vmax` and
`cubic - vmin` and exact roots, the statuses of the scan are valid. -/
theorem scanValid_of_signRules (c0 c1 c2 c3 vmin vmax σ : ℝ) (Rmax Rmin : List (ℝ × Int))
    (l : List (Sol ℝ)) (s0 : Sol ℝ) (l' : List (Sol ℝ)) (hv : vmin < vmax)
    (hmaxR : SignRule (cubicEval (c0 - vmax) c1 c2 c3) σ Rmax)
    (hminR : SignRule (cubicEval (c0 - vmin) c1 c2 c3) σ Rmin) (hσ : σ ≠ 0)
    (hmaxE : ∀ p ∈ Rmax, cubicEval (c0 - vmax) c1 c2 c3 p.1 = 0)
    (hminE : ∀ p ∈ Rmin, cubicEval (c0 - vmin) c1 c2 c3 p.1 = 0)
    (hperm : l.Perm (Rmax.map (rootSol c0 c1 c2 c3 SOLMAX) ++
      Rmin.map (rootSol c0 c1 c2 c3 SOLMIN)))
    (hpw : l.Pairwise (fun a b => a.t ≤ b.t)) (hl0 : l = s0 :: l') :
    ScanValid c0 c1 c2 c3 vmin vmax (if s0.type = SOLMAX then CLAMPMAX else CLAMPMIN) l := by
  intro done rest hl x hdone hrest
  have hinit : (if s0.type = SOLMAX then CLAMPMAX else CLAMPMIN) ≠ CUBIC := by
    split_ifs <;> decide
  generalize hI : (if s0.type = SOLMAX then CLAMPMAX else CLAMPMIN) = init at hinit ⊢
  -- membership facts
  have hmemMax : ∀ p ∈ Rmax, rootSol c0 c1 c2 c3 SOLMAX p ∈ l := fun p hp =>
    hperm.mem_iff.mpr (List.mem_append_left _ (List.mem_map_of_mem _ hp))
  have hmemMin : ∀ p ∈ Rmin, rootSol c0 c1 c2 c3 SOLMIN p ∈ l := fun p hp =>
    hperm.mem_iff.mpr (List.mem_append_right _ (List.mem_map_of_mem _ hp))
  have hlx : ∀ s ∈ l, s.t ≠ x := by
    intro s hs
    rw [hl] at hs
    rcases List.mem_append.mp hs with h | h
    · exact (hdone s h).ne
    · exact (hrest s h).ne'
  have hxmax : ∀ p ∈ Rmax, p.1 ≠ x := fun p hp => hlx _ (hmemMax p hp)
  have hxmin : ∀ p ∈ Rmin, p.1 ≠ x := fun p hp => hlx _ (hmemMin p hp)
  obtain ⟨nzmax, smax⟩ := hmaxR x hxmax
  obtain ⟨nzmin, smin⟩ := hminR x hxmin
  have hcount := odd_count_prefix c0 c1 c2 c3 Rmax Rmin l done rest hperm hl x hdone hrest
  have hcub := foldl_statusUpdate_cubic_iff done init
  have hgmax : ∀ y, cubicEval (c0 - vmax) c1 c2 c3 y = cubicEval c0 c1 c2 c3 y - vmax :=
    cubicEval_sub c0 c1 c2 c3 vmax
  have hgmin : ∀ y, cubicEval (c0 - vmin) c1 c2 c3 y = cubicEval c0 c1 c2 c3 y - vmin :=
    cubicEval_sub c0 c1 c2 c3 vmin
  have hlt : cubicEval (c0 - vmax) c1 c2 c3 x < cubicEval (c0 - vmin) c1 c2 c3 x := by
    rw [hgmax, hgmin]; linarith
  unfold StatusValid
  by_cases hS : done.foldl statusUpdate init = CUBIC
  · have hodd : ¬ Even (oddBelow Rmax x + oddBelow Rmin x) := by
      rw [← hcount]
      intro he
      exact hinit ((hcub.mp hS).mpr he)
    rw [Nat.even_add] at hodd
    have hdiff : 0 < σ * cubicEval (c0 - vmax) c1 c2 c3 x ↔
        ¬ 0 < σ * cubicEval (c0 - vmin) c1 c2 c3 x := by
      rw [smax, smin]
      constructor
      · intro h1 h2
        exact hodd ⟨fun _ => h2, fun _ => h1⟩
      · intro h1
        by_contra h2
        exact hodd ⟨fun h => absurd h h2, fun h => absurd h h1⟩
    obtain ⟨h1, h2⟩ := neg_pos_of_scaled hσ nzmax nzmin hlt hdiff
    rw [hgmax] at h1
    rw [hgmin] at h2
    rw [hS, clampValue_of_mem (by linarith) (by linarith)]
    rfl
  · have heven : Even (oddBelow Rmax x + oddBelow Rmin x) := by
      rw [← hcount]
      by_contra he
      exact hS (hcub.mpr ⟨fun h => absurd h hinit, fun h => absurd h he⟩)
    rw [Nat.even_add] at heven
    have hsame : 0 < cubicEval (c0 - vmax) c1 c2 c3 x ↔ 0 < cubicEval (c0 - vmin) c1 c2 c3 x :=
      pos_iff_of_scaled hσ nzmax nzmin (by rw [smax, smin]; exact heven)
    -- the two ways of concluding
    have concl_max : 0 < cubicEval (c0 - vmin) c1 c2 c3 x →
        clampValue vmin vmax (cubicEval c0 c1 c2 c3 x) = vmax := by
      intro h
      have := hsame.mpr h
      rw [hgmax] at this
      exact clampValue_of_gt hv.le (by linarith)
    have concl_min : ¬ 0 < cubicEval (c0 - vmax) c1 c2 c3 x →
        clampValue vmin vmax (cubicEval c0 c1 c2 c3 x) = vmin := by
      intro h
      have h' : ¬ 0 < cubicEval (c0 - vmin) c1 c2 c3 x := fun h2 => h (hsame.mpr h2)
      have : cubicEval (c0 - vmin) c1 c2 c3 x < 0 := lt_of_le_of_ne (not_lt.mp h') nzmin
      rw [hgmin] at this
      exact clampValue_of_lt hv.le (by linarith)
    have hpwl := hpw
    rw [hl] at hpwl
    rcases last_odd_decomp done with hall | ⟨P1, s, P2, e, hs, h2⟩
    · -- no odd solution was processed: the status is the initial one
      rw [foldl_statusUpdate_even done hall init]
      have hzero : (done.filter (fun s => decide (oddOrder s.order))).length = 0 := by
        rw [List.length_eq_zero, List.filter_eq_nil_iff]
        intro a ha
        simpa using hall a ha
      rw [hzero] at hcount
      have hnmax : oddBelow Rmax x = 0 := by omega
      have hnmin : oddBelow Rmin x = 0 := by omega
      have hs0 : s0 ∈ l := by rw [hl0]; exact List.mem_cons_self _ _
      have hfirst : ∀ a ∈ l, s0.t ≤ a.t := by
        intro a ha
        rw [hl0] at ha hpw
        rcases List.mem_cons.mp ha with h | h
        · rw [h]
        · exact (List.pairwise_cons.mp hpw).1 a h
      rcases mem_sols_cases c0 c1 c2 c3 Rmax Rmin l hperm s0 hs0 with ⟨hty, hmem⟩ | ⟨hty, hmem⟩
      · have g0 := hmaxE _ hmem
        simp only at g0
        have hτ : ∀ p ∈ Rmin, p.1 ≠ s0.t := by
          intro p hp e
          have := hminE p hp
          rw [e, hgmin] at this
          rw [hgmax] at g0
          linarith
        have hz : oddBelow Rmin s0.t = 0 :=
          oddBelow_eq_zero_of_le Rmin s0.t (fun p hp => hfirst _ (hmemMin p hp))
        have hpos0 : 0 < cubicEval (c0 - vmin) c1 c2 c3 s0.t := by
          rw [hgmin]; rw [hgmax] at g0; linarith
        have := (hminR.same_sign hσ hτ hxmin (by rw [hz, hnmin])).mp hpos0
        rw [← hI, if_pos hty]
        exact concl_max this
      · have g0 := hminE _ hmem
        simp only at g0
        have hτ : ∀ p ∈ Rmax, p.1 ≠ s0.t := by
          intro p hp e
          have := hmaxE p hp
          rw [e, hgmax] at this
          rw [hgmin] at g0
          linarith
        have hz : oddBelow Rmax s0.t = 0 :=
          oddBelow_eq_zero_of_le Rmax s0.t (fun p hp => hfirst _ (hmemMax p hp))
        have hneg0 : ¬ 0 < cubicEval (c0 - vmax) c1 c2 c3 s0.t := by
          rw [hgmax]; rw [hgmin] at g0; intro h; linarith
        have := hmaxR.same_sign hσ hτ hxmax (by rw [hz, hnmax])
        rw [← hI, if_neg (by rw [hty]; decide)]
        exact concl_min (fun h => hneg0 (this.mpr h))
    · -- `s` is the last odd solution processed
      subst e
      rw [foldl_statusUpdate_last_odd P1 P2 s init hs h2 hS]
      have hsl : s ∈ l := by rw [hl]; simp
      have hsx : s.t < x := hdone s (by simp)
      have hP1 : ∀ a ∈ P1, a.t ≤ s.t := by
        intro a ha
        have h1 := (List.pairwise_append.mp hpwl).1
        exact (List.pairwise_append.mp h1).2.2 a ha s (List.mem_cons_self _ _)
      rcases mem_sols_cases c0 c1 c2 c3 Rmax Rmin l hperm s hsl with ⟨hty, hmem⟩ | ⟨hty, hmem⟩
      · have g0 := hmaxE _ hmem
        simp only at g0
        have hτ : ∀ p ∈ Rmin, p.1 ≠ s.t := by
          intro p hp e
          have := hminE p hp
          rw [e, hgmin] at this
          rw [hgmax] at g0
          linarith
        have hcnt := oddBelow_eq_of_last_odd c0 c1 c2 c3 Rmin SOLMIN P1 P2 rest s x
          (fun p hp => by rw [← hl]; exact hmemMin p hp) hrest hsx hP1 h2
          (by rw [hty]; decide) hτ
        have hpos0 : 0 < cubicEval (c0 - vmin) c1 c2 c3 s.t := by
          rw [hgmin]; rw [hgmax] at g0; linarith
        have := (hminR.same_sign hσ hτ hxmin (by rw [hcnt])).mp hpos0
        rw [if_neg (by rw [hty]; decide)]
        exact concl_max this
      · have g0 := hminE _ hmem
        simp only at g0
        have hτ : ∀ p ∈ Rmax, p.1 ≠ s.t := by
          intro p hp e
          have := hmaxE p hp
          rw [e, hgmax] at this
          rw [hgmin] at g0
          linarith
        have hcnt := oddBelow_eq_of_last_odd c0 c1 c2 c3 Rmax SOLMAX P1 P2 rest s x
          (fun p hp => by rw [← hl]; exact hmemMax p hp) hrest hsx hP1 h2
          (by rw [hty]; decide) hτ
        have hneg0 : ¬ 0 < cubicEval (c0 - vmax) c1 c2 c3 s.t := by
          rw [hgmax]; rw [hgmin] at g0; intro h; linarith
        have := hmaxR.same_sign hσ hτ hxmax (by rw [hcnt])
        rw [if_pos hty]
        exact concl_min (fun h => hneg0 (this.mpr h))

theorem clampValue_eq_self (v y : ℝ) : clampValue v v y = v := by
  unfold clampValue
  exact min_eq_right (le_max_right y v)

/-- With `vmin = vmax` the statuses of the scan are valid: the two solves return the same
roots, so the status is clamped after every group of solutions. -/
theorem scanValid_of_eq (c0 c1 c2 c3 v : ℝ) (R : List (ℝ × Int)) (l : List (Sol ℝ))
    (init : eFuncType) (hinit : init ≠ CUBIC)
    (hperm : l.Perm (R.map (rootSol c0 c1 c2 c3 SOLMAX) ++ R.map (rootSol c0 c1 c2 c3 SOLMIN))) :
    ScanValid c0 c1 c2 c3 v v init l := by
  intro done rest hl x hdone hrest
  have hcount := odd_count_prefix c0 c1 c2 c3 R R l done rest hperm hl x hdone hrest
  have hcub := foldl_statusUpdate_cubic_iff done init
  have hS : done.foldl statusUpdate init ≠ CUBIC := by
    intro h
    have := (hcub.mp h).mpr (by rw [hcount]; exact ⟨oddBelow R x, rfl⟩)
    exact hinit this
  unfold StatusValid
  rw [clampValue_eq_self]
  cases hst : done.foldl statusUpdate init
  · rfl
  · rfl
  · exact absurd hst hS

theorem clampSols_eq (c0 c1 c2 c3 vmin vmax : ℝ) :
    clampSols realLibm c0 c1 c2 c3 vmin vmax =
      (solveCubic realLibm (c0 - vmax) c1 c2 c3 (fun _ => 0) (fun _ => 0)).roots.map
          (rootSol c0 c1 c2 c3 SOLMAX) ++
        (solveCubic realLibm (c0 - vmin) c1 c2 c3 (fun _ => 0) (fun _ => 0)).roots.map
          (rootSol c0 c1 c2 c3 SOLMIN) := by
  simp only [clampSols, SolveResult.roots, List.map_map]
  rfl

theorem sortSols_perm (sols : List (Sol ℝ)) : (sortSols sols).Perm sols :=
  List.perm_insertionSort _ _

theorem sortSols_pairwise (sols : List (Sol ℝ)) :
    (sortSols sols).Pairwise (fun a b => a.t ≤ b.t) := by
  haveI : IsTotal (Sol ℝ) (fun a b => ¬ Sol_less_than_t b a) :=
    ⟨fun a b => by
      unfold Sol_less_than_t
      rcases le_total a.t b.t with h | h
      · left; exact not_lt.mpr h
      · right; exact not_lt.mpr h⟩
  haveI : IsTrans (Sol ℝ) (fun a b => ¬ Sol_less_than_t b a) :=
    ⟨fun a b c h1 h2 => by
      unfold Sol_less_than_t at *
      exact not_lt.mpr (le_trans (not_lt.mp h1) (not_lt.mp h2))⟩
  have h := List.sorted_insertionSort (fun a b : Sol ℝ => ¬ Sol_less_than_t b a) sols
  unfold sortSols
  exact List.Pairwise.imp (fun {a b} hab => not_lt.mp hab) h

theorem leadDegree_nonneg (c2 c3 : ℝ) : 0 ≤ leadDegree c2 c3 := by
  unfold leadDegree
  split_ifs <;> norm_num

/-- The certificate of a `solveCubic` call with sharp near-zero tests: either the cubic is
constant and no root is returned, or it factors over the returned roots. -/
theorem solveCubic_cert (c0 c1 c2 c3 : ℝ) (s : Nat → ℝ) (o : Nat → Int)
    (hs : cubicSharp c0 c1 c2 c3) (hl : isZero c3 → isZero c2 → isZero c1 → c1 = 0) :
    (c1 = 0 ∧ c2 = 0 ∧ c3 = 0 ∧ (solveCubic realLibm c0 c1 c2 c3 s o).roots = []) ∨
      Factored (cubicEval c0 c1 c2 c3) (leadCoeff c1 c2 c3) (leadDegree c2 c3)
        (solveCubic realLibm c0 c1 c2 c3 s o).roots := by
  unfold cubicSharp at hs
  by_cases h3 : isZero c3
  · rw [if_pos h3] at hs
    obtain ⟨hc3, hs⟩ := hs
    unfold quadricSharp at hs
    rw [solveCubic_of_isZero _ _ _ _ _ _ _ h3]
    by_cases h2 : isZero c2
    · rw [if_pos h2] at hs
      rw [solveQuadric_of_isZero _ _ _ _ _ _ h2]
      by_cases h1 : isZero c1
      · left
        refine ⟨hl h3 h2 h1, hs, hc3, ?_⟩
        simp [solveLinear, h1, SolveResult.roots]
      · right
        have := solveLinear_factored c0 c1 s o h1
        rw [hs, hc3]
        simpa [leadCoeff, leadDegree, isZero_zero, h1] using this
    · rw [if_neg h2] at hs
      right
      have := solveQuadric_factored c0 c1 c2 s o h2 hs
      rw [hc3]
      simpa [leadCoeff, leadDegree, isZero_zero, h2] using this
  · rw [if_neg h3] at hs
    right
    have := solveCubic_factored c0 c1 c2 c3 s o h3 hs
    simpa [leadCoeff, leadDegree, h3] using this

theorem code_clamp_eq (vmin vmax val : ℝ) (hv : vmin ≤ vmax) :
    (if val < vmin then vmin else if val > vmax then vmax else val) =
      clampValue vmin vmax val := by
  split_ifs with h1 h2
  · exact (clampValue_of_lt hv h1).symm
  · exact (clampValue_of_gt hv h2).symm
  · exact (clampValue_of_mem (not_lt.mp h1) (not_lt.mp h2)).symm

theorem leadCoeff_zero : leadCoeff (0 : ℝ) 0 0 = 0 := by
  simp [leadCoeff]

theorem signRule_nil_pos {g : ℝ → ℝ} {σ : ℝ} (h : SignRule g σ []) (x : ℝ) : 0 < σ * g x := by
  have := (h x (by simp)).2
  rw [this]
  simp [oddBelow]

/-- Without any solution the clamped cubic is constant. -/
theorem clamp_const_of_no_sols (c0 c1 c2 c3 vmin vmax : ℝ) (hv : vmin ≤ vmax)
    (hsharp : clampSharp c0 c1 c2 c3 vmin vmax)
    (hsort : sortSols (clampSols realLibm c0 c1 c2 c3 vmin vmax) = []) (a b : ℝ) :
    clampValue vmin vmax (cubicEval c0 c1 c2 c3 a) =
      clampValue vmin vmax (cubicEval c0 c1 c2 c3 b) := by
  obtain ⟨hsmax, hsmin, hlin⟩ := hsharp
  have hnil : clampSols realLibm c0 c1 c2 c3 vmin vmax = [] := by
    have := sortSols_perm (clampSols realLibm c0 c1 c2 c3 vmin vmax)
    rw [hsort] at this
    exact List.nil_perm.mp this
  rw [clampSols_eq, List.append_eq_nil, List.map_eq_nil_iff, List.map_eq_nil_iff] at hnil
  obtain ⟨hRmax, hRmin⟩ := hnil
  have hconst : c1 = 0 ∧ c2 = 0 ∧ c3 = 0 →
      clampValue vmin vmax (cubicEval c0 c1 c2 c3 a) =
        clampValue vmin vmax (cubicEval c0 c1 c2 c3 b) := by
    rintro ⟨h1, h2, h3⟩
    subst h1 h2 h3
    simp [cubicEval]
  rcases solveCubic_cert (c0 - vmax) c1 c2 c3 (fun _ => 0) (fun _ => 0) hsmax hlin with
    ⟨h1, h2, h3, _⟩ | hFmax
  · exact hconst ⟨h1, h2, h3⟩
  rcases solveCubic_cert (c0 - vmin) c1 c2 c3 (fun _ => 0) (fun _ => 0) hsmin hlin with
    ⟨h1, h2, h3, _⟩ | hFmin
  · exact hconst ⟨h1, h2, h3⟩
  rw [hRmax] at hFmax
  rw [hRmin] at hFmin
  have hd := leadDegree_nonneg c2 c3
  have rmax := hFmax.signRule hd
  have rmin := hFmin.signRule hd
  have hσ : leadCoeff c1 c2 c3 * (-1) ^ (leadDegree c2 c3).toNat ≠ 0 :=
    mul_ne_zero hFmax.1 (pow_ne_zero _ (by norm_num))
  generalize leadCoeff c1 c2 c3 * (-1) ^ (leadDegree c2 c3).toNat = σ at rmax rmin hσ
  rcases lt_or_gt_of_ne hσ with hneg | hpos
  · have key : ∀ x, clampValue vmin vmax (cubicEval c0 c1 c2 c3 x) = vmin := by
      intro x
      have := signRule_nil_pos rmin x
      rw [cubicEval_sub] at this
      have hx : cubicEval c0 c1 c2 c3 x - vmin < 0 := by
        by_contra h
        have := mul_nonpos_of_nonpos_of_nonneg hneg.le (not_lt.mp h)
        linarith
      exact clampValue_of_lt hv (by linarith)
    rw [key a, key b]
  · have key : ∀ x, clampValue vmin vmax (cubicEval c0 c1 c2 c3 x) = vmax := by
      intro x
      have := signRule_nil_pos rmax x
      rw [cubicEval_sub] at this
      have hx : 0 < cubicEval c0 c1 c2 c3 x - vmax := (mul_pos_iff_of_pos_left hpos).mp this
      exact clampValue_of_gt hv (by linarith)
    rw [key a, key b]

/-- With at least one solution, the statuses of the scan are valid. -/
theorem scanValid_of_sharp (c0 c1 c2 c3 vmin vmax : ℝ) (hv : vmin ≤ vmax)
    (hsharp : clampSharp c0 c1 c2 c3 vmin vmax) (s0 : Sol ℝ) (l' : List (Sol ℝ))
    (hsort : sortSols (clampSols realLibm c0 c1 c2 c3 vmin vmax) = s0 :: l') :
    ScanValid c0 c1 c2 c3 vmin vmax (if s0.type = SOLMAX then CLAMPMAX else CLAMPMIN)
      (sortSols (clampSols realLibm c0 c1 c2 c3 vmin vmax)) := by
  have hperm := (sortSols_perm (clampSols realLibm c0 c1 c2 c3 vmin vmax)).trans
    (List.Perm.of_eq (clampSols_eq c0 c1 c2 c3 vmin vmax))
  have hpw := sortSols_pairwise (clampSols realLibm c0 c1 c2 c3 vmin vmax)
  have hinit : (if s0.type = SOLMAX then CLAMPMAX else CLAMPMIN) ≠ CUBIC := by
    split_ifs <;> decide
  rcases eq_or_lt_of_le hv with heq | hlt
  · subst heq
    exact scanValid_of_eq c0 c1 c2 c3 vmin _ _ _ hinit hperm
  · obtain ⟨hsmax, hsmin, hlin⟩ := hsharp
    have hd := leadDegree_nonneg c2 c3
    rcases solveCubic_cert (c0 - vmax) c1 c2 c3 (fun _ => 0) (fun _ => 0) hsmax hlin with
      ⟨h1, h2, h3, hRmax⟩ | hFmax
    · exfalso
      rcases solveCubic_cert (c0 - vmin) c1 c2 c3 (fun _ => 0) (fun _ => 0) hsmin hlin with
        ⟨_, _, _, hRmin⟩ | hFmin
      · rw [hsort, hRmax, hRmin] at hperm
        simpa using hperm.length_eq
      · have := hFmin.1
        rw [h1, h2, h3, leadCoeff_zero] at this
        exact this rfl
    rcases solveCubic_cert (c0 - vmin) c1 c2 c3 (fun _ => 0) (fun _ => 0) hsmin hlin with
      ⟨h1, h2, h3, _⟩ | hFmin
    · exfalso
      have := hFmax.1
      rw [h1, h2, h3, leadCoeff_zero] at this
      exact this rfl
    exact scanValid_of_signRules c0 c1 c2 c3 vmin vmax _ _ _ _ s0 l' hlt
      (hFmax.signRule hd) (hFmin.signRule hd)
      (mul_ne_zero hFmax.1 (pow_ne_zero _ (by norm_num)))
      (fun p hp => hFmax.root_exact hp) (fun p hp => hFmin.root_exact hp) hperm hpw hsort

/-! ### The clamped integrator: the result -/

theorem segmentSetup_times (tcur vcur vcurDerivRight vnextDerivLeft tnext vnext : ℝ)
    (interp interpNext : KeyframeType) (hk1 : interp ≠ KEYFRAME_NONE)
    (hk2 : interpNext ≠ KEYFRAME_NONE) :
    (segmentSetup tcur vcur vcurDerivRight vnextDerivLeft tnext vnext interp interpNext).tcur
        = tcur ∧
      (segmentSetup tcur vcur vcurDerivRight vnextDerivLeft tnext vnext interp interpNext).tnext
        = tnext := by
  by_cases h : interp = KEYFRAME_CONSTANT <;> simp [segmentSetup, hk1, hk2, h]

/-- The integral of the clamped segment over `[time1, time2]` in the normalized variable. -/
theorem clamp_integral_normalize (c0 c1 c2 c3 vmin vmax tcur tnext time1 time2 : ℝ)
    (ht : tcur < tnext) :
    ∫ q in time1..time2,
        clampValue vmin vmax (cubicEval c0 c1 c2 c3 ((q - tcur) / (tnext - tcur))) =
      (∫ x in (time1 - tcur) / (tnext - tcur)..(time2 - tcur) / (tnext - tcur),
        clampValue vmin vmax (cubicEval c0 c1 c2 c3 x)) * (tnext - tcur) := by
  have hc : tnext - tcur ≠ 0 := by linarith [sub_pos.mpr ht]
  have key : ∫ q in time1..time2, (fun x => clampValue vmin vmax (cubicEval c0 c1 c2 c3 x))
        (q / (tnext - tcur) - tcur / (tnext - tcur)) =
      (tnext - tcur) • ∫ x in time1 / (tnext - tcur) - tcur / (tnext - tcur)..
        time2 / (tnext - tcur) - tcur / (tnext - tcur),
        (fun x => clampValue vmin vmax (cubicEval c0 c1 c2 c3 x)) x :=
    intervalIntegral.integral_comp_div_sub
      (fun x => clampValue vmin vmax (cubicEval c0 c1 c2 c3 x)) hc (tcur / (tnext - tcur))
  simp only [sub_div]
  rw [key, smul_eq_mul, mul_comm]

/-- The branch of `integrate_clamp` without solutions returns the integral. -/
theorem integrate_clamp_nil (c0 c1 c2 c3 vmin vmax tcur tnext time1 time2 : ℝ)
    (hv : vmin ≤ vmax) (hsharp : clampSharp c0 c1 c2 c3 vmin vmax)
    (hsort : sortSols (clampSols realLibm c0 c1 c2 c3 vmin vmax) = []) :
    (if cubicEval c0 c1 c2 c3 ((time1 - tcur) / (tnext - tcur)) < vmin then vmin
      else if cubicEval c0 c1 c2 c3 ((time1 - tcur) / (tnext - tcur)) > vmax then vmax
      else cubicEval c0 c1 c2 c3 ((time1 - tcur) / (tnext - tcur))) * (time2 - time1) =
      ∫ q in time1..time2,
        clampValue vmin vmax (cubicEval c0 c1 c2 c3 ((q - tcur) / (tnext - tcur))) := by
  rw [code_clamp_eq _ _ _ hv]
  have e : (fun q => clampValue vmin vmax (cubicEval c0 c1 c2 c3 ((q - tcur) / (tnext - tcur))))
      = fun _ => clampValue vmin vmax
          (cubicEval c0 c1 c2 c3 ((time1 - tcur) / (tnext - tcur))) := by
    funext q
    exact clamp_const_of_no_sols c0 c1 c2 c3 vmin vmax hv hsharp hsort _ _
  rw [e, intervalIntegral.integral_const, smul_eq_mul, mul_comm]

/-- The branch of `integrate_clamp` that scans the solutions returns the integral. -/
theorem integrate_clamp_cons (c0 c1 c2 c3 vmin vmax tcur tnext time1 time2 : ℝ)
    (ht : tcur < tnext) (hv : vmin ≤ vmax) (h12 : time1 ≤ time2)
    (hsharp : clampSharp c0 c1 c2 c3 vmin vmax) (s0 : Sol ℝ) (l' : List (Sol ℝ))
    (hsort : sortSols (clampSols realLibm c0 c1 c2 c3 vmin vmax) = s0 :: l') :
    ((integrateSpans c0 c1 c2 c3 vmin vmax ((time2 - tcur) / (tnext - tcur))
          (statusAtT1 ((time1 - tcur) / (tnext - tcur))
            (if s0.type = SOLMAX then CLAMPMAX else CLAMPMIN) (s0 :: l')).1
          ((time1 - tcur) / (tnext - tcur)) 0
          (statusAtT1 ((time1 - tcur) / (tnext - tcur))
            (if s0.type = SOLMAX then CLAMPMAX else CLAMPMIN) (s0 :: l')).2).2.2 +
        spanIntegral c0 c1 c2 c3 vmin vmax
          (integrateSpans c0 c1 c2 c3 vmin vmax ((time2 - tcur) / (tnext - tcur))
            (statusAtT1 ((time1 - tcur) / (tnext - tcur))
              (if s0.type = SOLMAX then CLAMPMAX else CLAMPMIN) (s0 :: l')).1
            ((time1 - tcur) / (tnext - tcur)) 0
            (statusAtT1 ((time1 - tcur) / (tnext - tcur))
              (if s0.type = SOLMAX then CLAMPMAX else CLAMPMIN) (s0 :: l')).2).1
          (integrateSpans c0 c1 c2 c3 vmin vmax ((time2 - tcur) / (tnext - tcur))
            (statusAtT1 ((time1 - tcur) / (tnext - tcur))
              (if s0.type = SOLMAX then CLAMPMAX else CLAMPMIN) (s0 :: l')).1
            ((time1 - tcur) / (tnext - tcur)) 0
            (statusAtT1 ((time1 - tcur) / (tnext - tcur))
              (if s0.type = SOLMAX then CLAMPMAX else CLAMPMIN) (s0 :: l')).2).2.1
          ((time2 - tcur) / (tnext - tcur))) * (tnext - tcur) =
      ∫ q in time1..time2,
        clampValue vmin vmax (cubicEval c0 c1 c2 c3 ((q - tcur) / (tnext - tcur))) := by
  have hc : 0 < tnext - tcur := sub_pos.mpr ht
  have H := scanValid_of_sharp c0 c1 c2 c3 vmin vmax hv hsharp s0 l' hsort
  have hpw := sortSols_pairwise (clampSols realLibm c0 c1 c2 c3 vmin vmax)
  rw [hsort] at H hpw
  have h12' : (time1 - tcur) / (tnext - tcur) ≤ (time2 - tcur) / (tnext - tcur) :=
    div_le_div_of_nonneg_right (by linarith) hc.le
  have := scan_correct c0 c1 c2 c3 vmin vmax _ _ _ _ H hpw h12'
  rw [clamp_integral_normalize c0 c1 c2 c3 vmin vmax tcur tnext time1 time2 ht, ← this]

/-- Claim C1, as amended. For a segment between two real keyframes (kinds other than
`KEYFRAME_NONE`, `tcur < tnext`), `vmin ≤ vmax` and `tcur ≤ time1 ≤ time2 ≤ tnext`, when no
near-zero test of the two `solveCubic` calls of `integrate_clamp` is passed by a value that is
not exactly zero (`clampSharp`), `integrate_clamp` returns exactly the definite integral over
`[time1, time2]` of `q ↦ min (max (interpolate q) vmin) vmax`, where `interpolate` is
evaluated with the same segment arguments. -/
theorem integrate_clamp_sharp (tcur vcur vcurDerivRight vnextDerivLeft tnext vnext time1 time2
    vmin vmax : ℝ) (interp interpNext : KeyframeType)
    (hk1 : interp ≠ KEYFRAME_NONE) (hk2 : interpNext ≠ KEYFRAME_NONE) (ht : tcur < tnext)
    (hv : vmin ≤ vmax) (_h1 : tcur ≤ time1) (h12 : time1 ≤ time2) (_h2 : time2 ≤ tnext)
    (hsharp : clampSharp
      (segmentSetup tcur vcur vcurDerivRight vnextDerivLeft tnext vnext interp interpNext).coeffs.1
      (segmentSetup tcur vcur vcurDerivRight vnextDerivLeft tnext vnext interp interpNext).coeffs.2.1
      (segmentSetup tcur vcur vcurDerivRight vnextDerivLeft tnext vnext interp
        interpNext).coeffs.2.2.1
      (segmentSetup tcur vcur vcurDerivRight vnextDerivLeft tnext vnext interp
        interpNext).coeffs.2.2.2
      vmin vmax) :
    integrate_clamp realLibm tcur vcur vcurDerivRight vnextDerivLeft tnext vnext time1 time2
        vmin vmax interp interpNext =
      ∫ q in time1..time2,
        min (max (interpolate tcur vcur vcurDerivRight vnextDerivLeft tnext vnext q interp
          interpNext) vmin) vmax := by
  obtain ⟨htc, htn⟩ := segmentSetup_times tcur vcur vcurDerivRight vnextDerivLeft tnext vnext
    interp interpNext hk1 hk2
  unfold integrate_clamp interpolate
  simp only [htc, htn]
  split
  · rename_i hsort
    exact integrate_clamp_nil _ _ _ _ vmin vmax tcur tnext time1 time2 hv hsharp hsort
  · rename_i s0 l' hsort
    exact integrate_clamp_cons _ _ _ _ vmin vmax tcur tnext time1 time2 ht hv h12 hsharp s0 l'
      hsort

theorem eps_isZero : isZero ((1 : ℝ) / 10000000000) := by
  unfold isZero EQN_EPS; norm_num

/-- Claim C1 fails as stated. On the segment from value `0` at time `0` to value `1e-10` at
time `1` with both derivatives `1e-10` (the line `1e-10 * t`), clamped to `[-1, 1]` and
integrated over `[0, 1]`, the slope passes the near-zero test, no solution is found and
`integrate_clamp` returns `0`, while the integral of the clamped segment is `5e-11`. -/
theorem integrate_clamp_counterexample :
    KEYFRAME_LINEAR ≠ KEYFRAME_NONE ∧ (0 : ℝ) < 1 ∧ (-1 : ℝ) ≤ 1 ∧ (0 : ℝ) ≤ 0 ∧ (0 : ℝ) ≤ 1 ∧
      (1 : ℝ) ≤ 1 ∧
      integrate_clamp realLibm 0 0 (1 / 10000000000) (1 / 10000000000) 1 (1 / 10000000000)
        0 1 (-1) 1 KEYFRAME_LINEAR KEYFRAME_LINEAR = 0 ∧
      ∫ q in (0 : ℝ)..1,
        min (max (interpolate 0 0 (1 / 10000000000) (1 / 10000000000) 1 (1 / 10000000000) q
          KEYFRAME_LINEAR KEYFRAME_LINEAR) (-1)) 1 = 1 / 20000000000 ∧
      integrate_clamp realLibm 0 0 (1 / 10000000000) (1 / 10000000000) 1 (1 / 10000000000)
        0 1 (-1) 1 KEYFRAME_LINEAR KEYFRAME_LINEAR ≠
      ∫ q in (0 : ℝ)..1,
        min (max (interpolate 0 0 (1 / 10000000000) (1 / 10000000000) 1 (1 / 10000000000) q
          KEYFRAME_LINEAR KEYFRAME_LINEAR) (-1)) 1 := by
  have main : integrate_clamp realLibm 0 0 (1 / 10000000000) (1 / 10000000000) 1
        (1 / 10000000000) 0 1 (-1) 1 KEYFRAME_LINEAR KEYFRAME_LINEAR = 0 ∧
      ∫ q in (0 : ℝ)..1,
        min (max (interpolate 0 0 (1 / 10000000000) (1 / 10000000000) 1 (1 / 10000000000) q
          KEYFRAME_LINEAR KEYFRAME_LINEAR) (-1)) 1 = 1 / 20000000000 := by
    refine ⟨?_, ?_⟩
    · have hs : ∀ v : ℝ, (solveCubic realLibm (0 - v) (1 / 10000000000) 0 0
          (fun _ => 0) (fun _ => 0)).num = 0 := by
        intro v
        rw [solveCubic_of_isZero _ _ _ _ _ _ _ isZero_zero,
          solveQuadric_of_isZero _ _ _ _ _ _ isZero_zero]
        rw [solveLinear, if_pos eps_isZero]
      have hsols : clampSols realLibm (0 : ℝ) (1 / 10000000000) 0 0 (-1) 1 = [] := by
        simp only [clampSols, hs]
        rfl
      have hc : (segmentSetup (0 : ℝ) 0 (1 / 10000000000) (1 / 10000000000) 1
          (1 / 10000000000) KEYFRAME_LINEAR KEYFRAME_LINEAR).coeffs =
          (0, 1 / 10000000000, 0, 0) := by
        unfold Segment.coeffs segmentSetup hermiteToCubicCoeffs
        simp only [if_neg (by decide : ¬ KEYFRAME_LINEAR = KEYFRAME_NONE),
          if_neg (by decide : ¬ KEYFRAME_LINEAR = KEYFRAME_CONSTANT)]
        norm_num
      have ht : (segmentSetup (0 : ℝ) 0 (1 / 10000000000) (1 / 10000000000) 1
          (1 / 10000000000) KEYFRAME_LINEAR KEYFRAME_LINEAR).tcur = 0 ∧
          (segmentSetup (0 : ℝ) 0 (1 / 10000000000) (1 / 10000000000) 1
          (1 / 10000000000) KEYFRAME_LINEAR KEYFRAME_LINEAR).tnext = 1 :=
        segmentSetup_times _ _ _ _ _ _ _ _ (by decide) (by decide)
      unfold integrate_clamp
      simp only [hc, ht.1, ht.2, hsols, sortSols, List.insertionSort]
      norm_num [cubicEval]
    · have e : ∀ q ∈ Set.uIcc (0 : ℝ) 1,
          min (max (interpolate 0 0 (1 / 10000000000) (1 / 10000000000) 1 (1 / 10000000000) q
            KEYFRAME_LINEAR KEYFRAME_LINEAR) (-1)) 1 = 1 / 10000000000 * q := by
        intro q hq
        rw [Set.uIcc_of_le (by norm_num : (0 : ℝ) ≤ 1)] at hq
        have hi : interpolate 0 0 (1 / 10000000000) (1 / 10000000000) 1 (1 / 10000000000) q
            KEYFRAME_LINEAR KEYFRAME_LINEAR = 1 / 10000000000 * q := by
          unfold interpolate Segment.coeffs segmentSetup hermiteToCubicCoeffs cubicEval
          simp only [if_neg (by decide : ¬ KEYFRAME_LINEAR = KEYFRAME_NONE),
            if_neg (by decide : ¬ KEYFRAME_LINEAR = KEYFRAME_CONSTANT)]
          norm_num
        rw [hi, max_eq_left (by nlinarith [hq.1]), min_eq_left (by nlinarith [hq.2])]
      rw [intervalIntegral.integral_congr e, intervalIntegral.integral_const_mul, integral_id]
      norm_num
  refine ⟨by decide, by norm_num, by norm_num, le_refl _, by norm_num, le_refl _, main.1, main.2,
    ?_⟩
  rw [main.1, main.2]
  norm_num

theorem scenario_coeffs :
    (segmentSetup (0 : ℝ) 0 0 0 1 10 KEYFRAME_SMOOTH KEYFRAME_SMOOTH).coeffs =
      (0, 0, 30, -20) := by
  unfold Segment.coeffs segmentSetup hermiteToCubicCoeffs
  simp only [if_neg (by decide : ¬ KEYFRAME_SMOOTH = KEYFRAME_NONE),
    if_neg (by decide : ¬ KEYFRAME_SMOOTH = KEYFRAME_CONSTANT)]
  norm_num

theorem scenario_clampSharp : clampSharp (0 : ℝ) 0 30 (-20) (-1) 5 := by
  have h3 : ¬ isZero (-20 : ℝ) := by rw [not_isZero_iff_abs]; norm_num
  refine ⟨?_, ?_, fun h => absurd h h3⟩
  · unfold cubicSharp
    rw [if_neg h3]
    intro hD
    exfalso
    have e : cubicD ((0 : ℝ) - 5) 0 30 (-20) = -1 / 64 := by
      norm_num [cubicD, cubicQ, cubicP, cubicA]
    rw [e, isZero_iff_abs] at hD
    norm_num [abs_of_neg] at hD
  · unfold cubicSharp
    rw [if_neg h3]
    intro hD
    exfalso
    have e : cubicD ((0 : ℝ) - -1) 0 30 (-20) = 11 / 1600 := by
      norm_num [cubicD, cubicQ, cubicP, cubicA]
    rw [e, isZero_iff_abs] at hD
    norm_num [abs_of_pos] at hD

/-- The amended claim C1 on the segment from `0` at time `0` to `10` at time `1` with zero
derivatives (the cubic `30 t^2 - 20 t^3`), clamped to `[-1, 5]` and integrated over `[0, 1]`. -/
theorem integrate_clamp_sharp_witness :
    clampSharp (0 : ℝ) 0 30 (-20) (-1) 5 ∧
      integrate_clamp realLibm 0 0 0 0 1 10 0 1 (-1) 5 KEYFRAME_SMOOTH KEYFRAME_SMOOTH =
        ∫ q in (0 : ℝ)..1,
          min (max (interpolate 0 0 0 0 1 10 q KEYFRAME_SMOOTH KEYFRAME_SMOOTH) (-1)) 5 :=
  ⟨scenario_clampSharp,
    integrate_clamp_sharp 0 0 0 0 1 10 0 1 (-1) 5 KEYFRAME_SMOOTH KEYFRAME_SMOOTH
      (by decide) (by decide) (by norm_num) (by norm_num) (le_refl _) (by norm_num) (le_refl _)
      (by rw [scenario_coeffs]; exact scenario_clampSharp)⟩

/-! ### The segment functions: constant hold, integral and derivative -/

theorem segmentSetup_duration (tcur vcur vcurDerivRight vnextDerivLeft tnext vnext : ℝ)
    (interp interpNext : KeyframeType) (h : tcur < tnext) :
    0 < (segmentSetup tcur vcur vcurDerivRight vnextDerivLeft tnext vnext interp interpNext).tnext
      - (segmentSetup tcur vcur vcurDerivRight vnextDerivLeft tnext vnext interp
          interpNext).tcur := by
  by_cases h1 : interp = KEYFRAME_NONE <;> by_cases h2 : interp = KEYFRAME_CONSTANT <;>
    by_cases h3 : interpNext = KEYFRAME_NONE <;>
    simp [segmentSetup, h1, h2, h3] <;> linarith

theorem segmentSetup_constant_coeffs (tcur vcur vcurDerivRight vnextDerivLeft tnext vnext : ℝ)
    (interpNext : KeyframeType) :
    (segmentSetup tcur vcur vcurDerivRight vnextDerivLeft tnext vnext KEYFRAME_CONSTANT
      interpNext).coeffs = (vcur, 0, 0, 0) := by
  by_cases h3 : interpNext = KEYFRAME_NONE <;>
    simp [segmentSetup, Segment.coeffs, hermiteToCubicCoeffs, h3]

/-- Claim C11. When the current keyframe is `KEYFRAME_CONSTANT`, `interpolate` returns `vcur`
at every query time in `[tcur, tnext)`, whatever `vnext`, the two derivative arguments and the
kind of the next keyframe are. -/
theorem interpolate_constant_hold
    (tcur vcur vcurDerivRight vnextDerivLeft tnext vnext queryTime : ℝ)
    (kindNext : KeyframeType) (_h1 : tcur ≤ queryTime) (_h2 : queryTime < tnext) :
    interpolate tcur vcur vcurDerivRight vnextDerivLeft tnext vnext queryTime
      KEYFRAME_CONSTANT kindNext = vcur := by
  simp only [interpolate, segmentSetup_constant_coeffs, cubicEval]
  ring

/-- Claim C11 on the constant keyframe `3` at time `0` followed by a linear keyframe `7` at
time `2`: the value at time `1` is `3`. -/
theorem interpolate_constant_hold_witness :
    (0 : ℝ) ≤ 1 ∧ (1 : ℝ) < 2 ∧
      interpolate (0 : ℝ) 3 0 0 2 7 1 KEYFRAME_CONSTANT KEYFRAME_LINEAR = 3 :=
  ⟨by norm_num, by norm_num,
    interpolate_constant_hold 0 3 0 0 2 7 1 KEYFRAME_LINEAR (by norm_num) (by norm_num)⟩

theorem cubicIntegrate_eq (c0 c1 c2 c3 t : ℝ) :
    cubicIntegrate c0 c1 c2 c3 t = c0 * t + c1 * t ^ 2 / 2 + c2 * t ^ 3 / 3 + c3 * t ^ 4 / 4 := by
  unfold cubicIntegrate; ring

theorem cubicIntegrate_zero (c0 c1 c2 c3 : ℝ) : cubicIntegrate c0 c1 c2 c3 0 = 0 := by
  rw [cubicIntegrate_eq]; norm_num

/-- The value of `integrate` without the case distinction on `time1`. -/
theorem integrate_eq_sub (tcur vcur vcurDerivRight vnextDerivLeft tnext vnext time1 time2 : ℝ)
    (interp interpNext : KeyframeType) :
    integrate tcur vcur vcurDerivRight vnextDerivLeft tnext vnext time1 time2 interp interpNext =
      (cubicIntegrate
          (segmentSetup tcur vcur vcurDerivRight vnextDerivLeft tnext vnext interp
            interpNext).coeffs.1
          (segmentSetup tcur vcur vcurDerivRight vnextDerivLeft tnext vnext interp
            interpNext).coeffs.2.1
          (segmentSetup tcur vcur vcurDerivRight vnextDerivLeft tnext vnext interp
            interpNext).coeffs.2.2.1
          (segmentSetup tcur vcur vcurDerivRight vnextDerivLeft tnext vnext interp
            interpNext).coeffs.2.2.2
          ((time2 - (segmentSetup tcur vcur vcurDerivRight vnextDerivLeft tnext vnext interp
            interpNext).tcur) /
            ((segmentSetup tcur vcur vcurDerivRight vnextDerivLeft tnext vnext interp
              interpNext).tnext -
              (segmentSetup tcur vcur vcurDerivRight vnextDerivLeft tnext vnext interp
                interpNext).tcur)) -
        cubicIntegrate
          (segmentSetup tcur vcur vcurDerivRight vnextDerivLeft tnext vnext interp
            interpNext).coeffs.1
          (segmentSetup tcur vcur vcurDerivRight vnextDerivLeft tnext vnext interp
            interpNext).coeffs.2.1
          (segmentSetup tcur vcur vcurDerivRight vnextDerivLeft tnext vnext interp
            interpNext).coeffs.2.2.1
          (segmentSetup tcur vcur vcurDerivRight vnextDerivLeft tnext vnext interp
            interpNext).coeffs.2.2.2
          ((time1 - (segmentSetup tcur vcur vcurDerivRight vnextDerivLeft tnext vnext interp
            interpNext).tcur) /
            ((segmentSetup tcur vcur vcurDerivRight vnextDerivLeft tnext vnext interp
              interpNext).tnext -
              (segmentSetup tcur vcur vcurDerivRight vnextDerivLeft tnext vnext interp
                interpNext).tcur))) *
        ((segmentSetup tcur vcur vcurDerivRight vnextDerivLeft tnext vnext interp
          interpNext).tnext -
          (segmentSetup tcur vcur vcurDerivRight vnextDerivLeft tnext vnext interp
            interpNext).tcur) := by
  unfold integrate
  generalize segmentSetup tcur vcur vcurDerivRight vnextDerivLeft tnext vnext interp
    interpNext = st
  by_cases h : time1 = st.tcur
  · simp only [h, ne_eq, not_true_eq_false, if_false, sub_self, zero_div, cubicIntegrate_zero,
      sub_zero]
  · simp only [ne_eq, h, not_false_eq_true, if_true]

/-- The integral over `[time1, time2]` of a cubic in the normalized time. -/
theorem integral_cubicEval_normalized (c0 c1 c2 c3 a d time1 time2 : ℝ) (hd : d ≠ 0) :
    ∫ q in time1..time2, cubicEval c0 c1 c2 c3 ((q - a) / d) =
      (cubicIntegrate c0 c1 c2 c3 ((time2 - a) / d) -
        cubicIntegrate c0 c1 c2 c3 ((time1 - a) / d)) * d := by
  have hderiv : ∀ x ∈ Set.uIcc time1 time2,
      HasDerivAt (fun q => cubicIntegrate c0 c1 c2 c3 ((q - a) / d) * d)
        (cubicEval c0 c1 c2 c3 ((x - a) / d)) x := by
    intro x _
    have h1 : HasDerivAt (fun q : ℝ => (q - a) / d) (1 / d) x := by
      have := ((hasDerivAt_id x).sub_const a).div_const d
      simpa using this
    have h2 := (cubicIntegrate_hasDerivAt c0 c1 c2 c3 ((x - a) / d)).comp x h1
    have h3 := h2.mul_const d
    have e : cubicEval c0 c1 c2 c3 ((x - a) / d) * (1 / d) * d
        = cubicEval c0 c1 c2 c3 ((x - a) / d) := by
      field_simp
    rw [e] at h3
    exact h3
  have hcont : Continuous (fun q => cubicEval c0 c1 c2 c3 ((q - a) / d)) := by
    have := cubicEval_continuous c0 c1 c2 c3
    fun_prop
  rw [intervalIntegral.integral_eq_sub_of_hasDerivAt hderiv (hcont.intervalIntegrable _ _)]
  ring

/-- Claim C12. For `tcur < tnext`, `integrate` from `time1` to `time2` is the definite
integral over `[time1, time2]` of the query time function `interpolate` of the same segment; it
is `(tnext - tcur) * (F t2 - F t1)` with the antiderivative
`F t = c0 t + c1 t^2/2 + c2 t^3/3 + c3 t^4/4` of the segment's cubic and the normalized
times `ti = (timei - tcur) / (tnext - tcur)` (the times `tcur`, `tnext` being the ones the
prologue leaves, which are the arguments when no kind is `KEYFRAME_NONE`); and it is additive
over adjacent intervals inside `[tcur, tnext]`. -/
theorem integrate_eq_integral (tcur vcur vcurDerivRight vnextDerivLeft tnext vnext : ℝ)
    (kindCur kindNext : KeyframeType) (h : tcur < tnext) :
    (∀ time1 time2 : ℝ,
      integrate tcur vcur vcurDerivRight vnextDerivLeft tnext vnext time1 time2 kindCur kindNext
        = ∫ q in time1..time2,
            interpolate tcur vcur vcurDerivRight vnextDerivLeft tnext vnext q kindCur kindNext) ∧
    (∀ (st : Segment ℝ) (c0 c1 c2 c3 : ℝ),
      st = segmentSetup tcur vcur vcurDerivRight vnextDerivLeft tnext vnext kindCur kindNext →
      st.coeffs = (c0, c1, c2, c3) →
      (kindCur ≠ KEYFRAME_NONE → kindNext ≠ KEYFRAME_NONE → st.tcur = tcur ∧ st.tnext = tnext) ∧
      ∀ time1 time2 t1 t2 : ℝ,
        t1 = (time1 - st.tcur) / (st.tnext - st.tcur) →
        t2 = (time2 - st.tcur) / (st.tnext - st.tcur) →
        integrate tcur vcur vcurDerivRight vnextDerivLeft tnext vnext time1 time2 kindCur
            kindNext =
          (st.tnext - st.tcur) *
            ((c0 * t2 + c1 * t2 ^ 2 / 2 + c2 * t2 ^ 3 / 3 + c3 * t2 ^ 4 / 4) -
              (c0 * t1 + c1 * t1 ^ 2 / 2 + c2 * t1 ^ 3 / 3 + c3 * t1 ^ 4 / 4))) ∧
    (∀ a b c : ℝ, tcur ≤ a → a ≤ b → b ≤ c → c ≤ tnext →
      integrate tcur vcur vcurDerivRight vnextDerivLeft tnext vnext a b kindCur kindNext +
        integrate tcur vcur vcurDerivRight vnextDerivLeft tnext vnext b c kindCur kindNext =
      integrate tcur vcur vcurDerivRight vnextDerivLeft tnext vnext a c kindCur kindNext) := by
  have hd := segmentSetup_duration tcur vcur vcurDerivRight vnextDerivLeft tnext vnext
    kindCur kindNext h
  refine ⟨?_, ?_, ?_⟩
  · intro time1 time2
    rw [integrate_eq_sub]
    simp only [interpolate]
    rw [integral_cubicEval_normalized _ _ _ _ _ _ _ _ hd.ne.symm]
  · intro st c0 c1 c2 c3 hst hc
    refine ⟨fun hk1 hk2 => ?_, ?_⟩
    · rw [hst]
      exact segmentSetup_times tcur vcur vcurDerivRight vnextDerivLeft tnext vnext kindCur
        kindNext hk1 hk2
    · intro time1 time2 t1 t2 ht1 ht2
      rw [integrate_eq_sub, ← hst, hc, ← ht1, ← ht2, cubicIntegrate_eq, cubicIntegrate_eq]
      ring
  · intro a b c _ _ _ _
    rw [integrate_eq_sub, integrate_eq_sub, integrate_eq_sub]
    ring

/-- Claim C12 on the segment from `0` at time `0` to `10` at time `1` with zero derivatives
(coefficients `0, 0, 30, -20`): the integral over `[0, 1]` is `5`, and the integrals over
`[0, 1/2]` and `[1/2, 1]` add up to it. -/
theorem integrate_eq_integral_witness :
    (0 : ℝ) < 1 ∧
      integrate (0 : ℝ) 0 0 0 1 10 0 1 KEYFRAME_SMOOTH KEYFRAME_SMOOTH = 5 ∧
      integrate (0 : ℝ) 0 0 0 1 10 0 (1 / 2) KEYFRAME_SMOOTH KEYFRAME_SMOOTH +
        integrate (0 : ℝ) 0 0 0 1 10 (1 / 2) 1 KEYFRAME_SMOOTH KEYFRAME_SMOOTH =
        integrate (0 : ℝ) 0 0 0 1 10 0 1 KEYFRAME_SMOOTH KEYFRAME_SMOOTH := by
  have w := integrate_eq_integral 0 0 0 0 1 10 KEYFRAME_SMOOTH KEYFRAME_SMOOTH (by norm_num)
  refine ⟨by norm_num, ?_, w.2.2 0 (1 / 2) 1 (by norm_num) (by norm_num) (by norm_num)
    (by norm_num)⟩
  have t := segmentSetup_times (0 : ℝ) 0 0 0 1 10 KEYFRAME_SMOOTH KEYFRAME_SMOOTH
    (by decide) (by decide)
  have e := (w.2.1 _ 0 0 30 (-20) rfl scenario_coeffs).2 0 1 0 1
    (by rw [t.1, t.2]; norm_num) (by rw [t.1, t.2]; norm_num)
  rw [e, t.1, t.2]
  norm_num

theorem cubicDerive_eq (c0 c1 c2 c3 t : ℝ) :
    cubicDerive c0 c1 c2 c3 t = c1 + 2 * c2 * t + 3 * c3 * t ^ 2 := by
  unfold cubicDerive; ring

theorem cubicEval_hasDerivAt (c0 c1 c2 c3 x : ℝ) :
    HasDerivAt (cubicEval c0 c1 c2 c3) (cubicDerive c0 c1 c2 c3 x) x := by
  have h : cubicEval c0 c1 c2 c3 = fun t => c0 + c1 * t + c2 * t ^ 2 + c3 * t ^ 3 := by
    funext t; exact cubicEval_eq c0 c1 c2 c3 t
  rw [h, cubicDerive_eq]
  have e : c1 + 2 * c2 * x + 3 * c3 * x ^ 2 =
      0 + c1 * 1 + c2 * (2 * x ^ 1 * 1) + c3 * (3 * x ^ 2 * 1) := by ring
  rw [e]
  exact (((hasDerivAt_const x c0).add ((hasDerivAt_id x).const_mul c1)).add
    (((hasDerivAt_id x).pow 2).const_mul c2)).add (((hasDerivAt_id x).pow 3).const_mul c3)

/-- Derivative in the query time of a cubic in the normalized time. -/
theorem cubicEval_normalized_hasDerivAt (c0 c1 c2 c3 a d q : ℝ) :
    HasDerivAt (fun x => cubicEval c0 c1 c2 c3 ((x - a) / d))
      (cubicDerive c0 c1 c2 c3 ((q - a) / d) / d) q := by
  have h1 : HasDerivAt (fun x : ℝ => (x - a) / d) (1 / d) q := by
    have := ((hasDerivAt_id q).sub_const a).div_const d
    simpa using this
  have h2 := (cubicEval_hasDerivAt c0 c1 c2 c3 ((q - a) / d)).comp q h1
  have e : cubicDerive c0 c1 c2 c3 ((q - a) / d) * (1 / d)
      = cubicDerive c0 c1 c2 c3 ((q - a) / d) / d := by ring
  rw [e] at h2
  exact h2

/-- Claim C13. For `tcur < tnext`, `derive` at `q` is the derivative with respect to the query
time of the function `interpolate` of the same segment at `q`, for every pair of kinds; it is
`(c1 + 2 c2 t + 3 c3 t^2) / (tnext - tcur)` at `t = (q - tcur) / (tnext - tcur)`, with the
times `tcur`, `tnext` the prologue leaves (the arguments when no kind is `KEYFRAME_NONE`). -/
theorem derive_is_derivative (tcur vcur vcurDerivRight vnextDerivLeft tnext vnext q : ℝ)
    (kindCur kindNext : KeyframeType) (_h : tcur < tnext) :
    HasDerivAt
      (fun x => interpolate tcur vcur vcurDerivRight vnextDerivLeft tnext vnext x kindCur
        kindNext)
      (derive tcur vcur vcurDerivRight vnextDerivLeft tnext vnext q kindCur kindNext) q ∧
    (∀ (st : Segment ℝ) (c0 c1 c2 c3 t : ℝ),
      st = segmentSetup tcur vcur vcurDerivRight vnextDerivLeft tnext vnext kindCur kindNext →
      st.coeffs = (c0, c1, c2, c3) → t = (q - st.tcur) / (st.tnext - st.tcur) →
      (kindCur ≠ KEYFRAME_NONE → kindNext ≠ KEYFRAME_NONE → st.tcur = tcur ∧ st.tnext = tnext) ∧
      0 < st.tnext - st.tcur ∧
      derive tcur vcur vcurDerivRight vnextDerivLeft tnext vnext q kindCur kindNext =
        (c1 + 2 * c2 * t + 3 * c3 * t ^ 2) / (st.tnext - st.tcur)) := by
  constructor
  · simp only [interpolate, derive]
    exact cubicEval_normalized_hasDerivAt _ _ _ _ _ _ _
  · intro st c0 c1 c2 c3 t hst hc ht
    refine ⟨fun hk1 hk2 => ?_, ?_, ?_⟩
    · rw [hst]
      exact segmentSetup_times tcur vcur vcurDerivRight vnextDerivLeft tnext vnext kindCur
        kindNext hk1 hk2
    · rw [hst]
      exact segmentSetup_duration tcur vcur vcurDerivRight vnextDerivLeft tnext vnext
        kindCur kindNext _h
    · simp only [derive]
      rw [← hst, hc, ← ht, cubicDerive_eq]

/-- Claim C13 on the segment from `0` at time `0` to `10` at time `1` with zero derivatives:
the derivative of the value at time `1/2` is `derive` there. -/
theorem derive_is_derivative_witness :
    (0 : ℝ) < 1 ∧
      HasDerivAt (fun x => interpolate (0 : ℝ) 0 0 0 1 10 x KEYFRAME_SMOOTH KEYFRAME_SMOOTH)
        (derive (0 : ℝ) 0 0 0 1 10 (1 / 2) KEYFRAME_SMOOTH KEYFRAME_SMOOTH) (1 / 2) :=
  ⟨by norm_num,
    (derive_is_derivative 0 0 0 0 1 10 (1 / 2) KEYFRAME_SMOOTH KEYFRAME_SMOOTH
      (by norm_num)).1⟩

/-- Claim C14. For the same segment arguments, `derive_clamp` at `q` with the bounds `vmin`,
`vmax` is `derive` at `q` when `vmin < interpolate q < vmax` strictly, and `0` otherwise; in
particular it is `0` when the value equals `vmin` or `vmax`. -/
theorem derive_clamp_spec (tcur vcur vcurDerivRight vnextDerivLeft tnext vnext q vmin vmax : ℝ)
    (kindCur kindNext : KeyframeType) :
    derive_clamp tcur vcur vcurDerivRight vnextDerivLeft tnext vnext q vmin vmax kindCur kindNext
        = (if vmin < interpolate tcur vcur vcurDerivRight vnextDerivLeft tnext vnext q kindCur
              kindNext ∧
            interpolate tcur vcur vcurDerivRight vnextDerivLeft tnext vnext q kindCur kindNext
              < vmax
          then derive tcur vcur vcurDerivRight vnextDerivLeft tnext vnext q kindCur kindNext
          else 0) ∧
    (interpolate tcur vcur vcurDerivRight vnextDerivLeft tnext vnext q kindCur kindNext = vmin ∨
      interpolate tcur vcur vcurDerivRight vnextDerivLeft tnext vnext q kindCur kindNext = vmax →
      derive_clamp tcur vcur vcurDerivRight vnextDerivLeft tnext vnext q vmin vmax kindCur
        kindNext = 0) := by
  have e : derive_clamp tcur vcur vcurDerivRight vnextDerivLeft tnext vnext q vmin vmax kindCur
      kindNext
        = (if vmin < interpolate tcur vcur vcurDerivRight vnextDerivLeft tnext vnext q kindCur
              kindNext ∧
            interpolate tcur vcur vcurDerivRight vnextDerivLeft tnext vnext q kindCur kindNext
              < vmax
          then derive tcur vcur vcurDerivRight vnextDerivLeft tnext vnext q kindCur kindNext
          else 0) := by
    simp only [derive_clamp, interpolate, derive]
  refine ⟨e, fun hv => ?_⟩
  rw [e, if_neg]
  rintro ⟨h1, h2⟩
  rcases hv with hv | hv
  · exact absurd hv (ne_of_gt h1)
  · exact absurd hv (ne_of_lt h2)

theorem scenario_times :
    (segmentSetup (0 : ℝ) 0 0 0 1 10 KEYFRAME_SMOOTH KEYFRAME_SMOOTH).tcur = 0 ∧
      (segmentSetup (0 : ℝ) 0 0 0 1 10 KEYFRAME_SMOOTH KEYFRAME_SMOOTH).tnext = 1 :=
  segmentSetup_times 0 0 0 0 1 10 KEYFRAME_SMOOTH KEYFRAME_SMOOTH (by decide) (by decide)

theorem scenario_interpolate (q : ℝ) :
    interpolate (0 : ℝ) 0 0 0 1 10 q KEYFRAME_SMOOTH KEYFRAME_SMOOTH
      = 30 * q ^ 2 - 20 * q ^ 3 := by
  simp only [interpolate, scenario_coeffs, scenario_times.1, scenario_times.2, cubicEval_eq]
  ring

theorem scenario_derive (q : ℝ) :
    derive (0 : ℝ) 0 0 0 1 10 q KEYFRAME_SMOOTH KEYFRAME_SMOOTH = 60 * q - 60 * q ^ 2 := by
  simp only [derive, scenario_coeffs, scenario_times.1, scenario_times.2, cubicDerive_eq]
  ring

/-- Claim C14 on the segment from `0` at time `0` to `10` at time `1` with zero derivatives,
at time `1/2`, where the value is `5` and the derivative `15`: with the upper bound `5` the
clamped derivative is `0`, with the upper bound `6` it is `15`. -/
theorem derive_clamp_spec_witness :
    interpolate (0 : ℝ) 0 0 0 1 10 (1 / 2) KEYFRAME_SMOOTH KEYFRAME_SMOOTH = 5 ∧
      derive (0 : ℝ) 0 0 0 1 10 (1 / 2) KEYFRAME_SMOOTH KEYFRAME_SMOOTH = 15 ∧
      derive_clamp (0 : ℝ) 0 0 0 1 10 (1 / 2) 0 5 KEYFRAME_SMOOTH KEYFRAME_SMOOTH = 0 ∧
      derive_clamp (0 : ℝ) 0 0 0 1 10 (1 / 2) 0 6 KEYFRAME_SMOOTH KEYFRAME_SMOOTH = 15 := by
  have hv : interpolate (0 : ℝ) 0 0 0 1 10 (1 / 2) KEYFRAME_SMOOTH KEYFRAME_SMOOTH = 5 := by
    rw [scenario_interpolate]; norm_num
  have hd : derive (0 : ℝ) 0 0 0 1 10 (1 / 2) KEYFRAME_SMOOTH KEYFRAME_SMOOTH = 15 := by
    rw [scenario_derive]; norm_num
  refine ⟨hv, hd,
    (derive_clamp_spec 0 0 0 0 1 10 (1 / 2) 0 5 KEYFRAME_SMOOTH KEYFRAME_SMOOTH).2 (Or.inr hv),
    ?_⟩
  rw [(derive_clamp_spec 0 0 0 0 1 10 (1 / 2) 0 6 KEYFRAME_SMOOTH KEYFRAME_SMOOTH).1, hv, hd]
  norm_num

theorem segmentSetup_real_coeffs (tcur vcur vcurDerivRight vnextDerivLeft tnext vnext : ℝ)
    (interp interpNext : KeyframeType) (hk1 : interp ≠ KEYFRAME_NONE)
    (hk2 : interp ≠ KEYFRAME_CONSTANT) (hk3 : interpNext ≠ KEYFRAME_NONE) :
    (segmentSetup tcur vcur vcurDerivRight vnextDerivLeft tnext vnext interp interpNext).coeffs
      = hermiteToCubicCoeffs vcur (vcurDerivRight * (tnext - tcur))
          (vnextDerivLeft * (tnext - tcur)) vnext := by
  simp [segmentSetup, Segment.coeffs, hk1, hk2, hk3]

/-- Claim C15. The segment matches the supplied one-sided derivatives at its ends: for
`tcur < tnext`, a current kind that is neither `KEYFRAME_NONE` nor `KEYFRAME_CONSTANT` and a
next kind other than `KEYFRAME_NONE`, `derive` at `tcur` is `vcurDerivRight` and `derive` at
`tnext` is `vnextDerivLeft`; when both are `0` the value at the midpoint `(tcur + tnext) / 2`
is `(vcur + vnext) / 2`. -/
theorem derive_matches_end_derivatives
    (tcur vcur vcurDerivRight vnextDerivLeft tnext vnext : ℝ)
    (kindCur kindNext : KeyframeType) (h : tcur < tnext) (hk1 : kindCur ≠ KEYFRAME_NONE)
    (hk2 : kindCur ≠ KEYFRAME_CONSTANT) (hk3 : kindNext ≠ KEYFRAME_NONE) :
    derive tcur vcur vcurDerivRight vnextDerivLeft tnext vnext tcur kindCur kindNext
        = vcurDerivRight ∧
      derive tcur vcur vcurDerivRight vnextDerivLeft tnext vnext tnext kindCur kindNext
        = vnextDerivLeft ∧
      (vcurDerivRight = 0 → vnextDerivLeft = 0 →
        interpolate tcur vcur vcurDerivRight vnextDerivLeft tnext vnext ((tcur + tnext) / 2)
          kindCur kindNext = (vcur + vnext) / 2) := by
  have hne : tnext - tcur ≠ 0 := by linarith [sub_pos.mpr h]
  have ht := segmentSetup_times tcur vcur vcurDerivRight vnextDerivLeft tnext vnext kindCur
    kindNext hk1 hk3
  have hc := segmentSetup_real_coeffs tcur vcur vcurDerivRight vnextDerivLeft tnext vnext
    kindCur kindNext hk1 hk2 hk3
  refine ⟨?_, ?_, ?_⟩
  · simp only [derive, hc, ht.1, ht.2, hermiteToCubicCoeffs, cubicDerive_eq]
    field_simp
  · simp only [derive, hc, ht.1, ht.2, hermiteToCubicCoeffs, cubicDerive_eq, div_self hne]
    field_simp
    ring
  · intro h1 h2
    subst h1 h2
    have e : ((tcur + tnext) / 2 - tcur) / (tnext - tcur) = 1 / 2 := by
      field_simp; ring
    simp only [interpolate, hc, ht.1, ht.2, hermiteToCubicCoeffs, cubicEval_eq, e]
    ring

/-- Claim C15 on Scenario A, the segment from `0` at time `0` to `10` at time `1` with zero
derivatives: the value at time `1/2` is `5` and `derive` is `0` at both ends. -/
theorem derive_matches_end_derivatives_witness :
    (0 : ℝ) < 1 ∧
      interpolate (0 : ℝ) 0 0 0 1 10 (1 / 2) KEYFRAME_SMOOTH KEYFRAME_SMOOTH = 5 ∧
      derive (0 : ℝ) 0 0 0 1 10 0 KEYFRAME_SMOOTH KEYFRAME_SMOOTH = 0 ∧
      derive (0 : ℝ) 0 0 0 1 10 1 KEYFRAME_SMOOTH KEYFRAME_SMOOTH = 0 := by
  have w := derive_matches_end_derivatives 0 0 0 0 1 10 KEYFRAME_SMOOTH KEYFRAME_SMOOTH
    (by norm_num) (by decide) (by decide) (by decide)
  have m := w.2.2 rfl rfl
  norm_num at m
  exact ⟨by norm_num, m, w.1, w.2.1⟩

/-! ### `autoComputeDerivatives` -/

theorem autoComputeDerivatives_catmull_rom (kindPrev kindNext : KeyframeType)
    (tprev vprev tcur vcur tnext vnext vprevDerivRight vnextDerivLeft : ℝ)
    (hp : kindPrev ≠ KEYFRAME_NONE) (hn : kindNext ≠ KEYFRAME_NONE) :
    autoComputeDerivatives kindPrev KEYFRAME_CATMULL_ROM kindNext tprev vprev tcur vcur tnext
        vnext vprevDerivRight vnextDerivLeft =
      some { vcurDerivRight := (vnext - vprev) / (tnext - tprev) * (tnext - tcur) / (tnext - tcur)
             vcurDerivLeft := (vnext - vprev) / (tnext - tprev) * (tcur - tprev) / (tcur - tprev) } := by
  have hor : ¬ (kindPrev = KEYFRAME_NONE ∨ kindNext = KEYFRAME_NONE) := by
    rintro (h | h)
    · exact hp h
    · exact hn h
  simp only [autoComputeDerivatives, if_neg hp, if_neg hn, if_neg hor]

theorem autoComputeDerivatives_absent (kindPrev kindCur kindNext : KeyframeType)
    (tprev vprev tcur vcur tnext vnext vprevDerivRight vnextDerivLeft : ℝ)
    (h : kindPrev = KEYFRAME_NONE ∨ kindNext = KEYFRAME_NONE) :
    autoComputeDerivatives kindPrev kindCur kindNext tprev vprev tcur vcur tnext
        vnext vprevDerivRight vnextDerivLeft ≠ none := by
  simp only [autoComputeDerivatives, if_pos h]
  split_ifs <;> simp

theorem autoComputeDerivatives_present (kindPrev kindCur kindNext : KeyframeType)
    (tprev vprev tcur vcur tnext vnext vprevDerivRight vnextDerivLeft : ℝ)
    (hp : kindPrev ≠ KEYFRAME_NONE) (hn : kindNext ≠ KEYFRAME_NONE) :
    autoComputeDerivatives kindPrev kindCur kindNext tprev vprev tcur vcur tnext
        vnext vprevDerivRight vnextDerivLeft = none ↔
      kindCur = KEYFRAME_NONE ∨ kindCur = KEYFRAME_FREE ∨ kindCur = KEYFRAME_BROKEN := by
  have hor : ¬ (kindPrev = KEYFRAME_NONE ∨ kindNext = KEYFRAME_NONE) := by
    rintro (h | h)
    · exact hp h
    · exact hn h
  cases kindCur <;> simp only [autoComputeDerivatives, if_neg hp, if_neg hn, if_neg hor] <;>
    first
    | (simp; done)
    | (split <;> simp; done)
    | (split_ifs <;> simp)

/-- Claim C17 fails as stated: with no previous keyframe the current kind `KEYFRAME_FREE`
does not fail; the derivatives of the linear rule are returned. -/
theorem autoComputeDerivatives_free_counterexample :
    autoComputeDerivatives KEYFRAME_NONE KEYFRAME_FREE KEYFRAME_LINEAR (0 : ℝ) 0 1 1 2 3 0 0 =
      some { vcurDerivLeft := 0, vcurDerivRight := 2 } := by
  simp only [autoComputeDerivatives, if_pos (Or.inl rfl : KEYFRAME_NONE = KEYFRAME_NONE ∨
    KEYFRAME_LINEAR = KEYFRAME_NONE), if_neg (by decide : ¬ KEYFRAME_LINEAR = KEYFRAME_NONE),
    if_true, if_pos]
  norm_num
  exact ⟨by decide, by decide⟩

/-- Claim C17, amended. `autoComputeDerivatives` fails (returns no derivatives) exactly when
the current kind is `KEYFRAME_NONE`, `KEYFRAME_FREE` or `KEYFRAME_BROKEN` and both neighbours
are present (kinds other than `KEYFRAME_NONE`); it succeeds for every other current kind, and
for every current kind when a neighbour is absent, whatever the times and values are. -/
theorem autoComputeDerivatives_fails_iff (kindPrev kindCur kindNext : KeyframeType)
    (tprev vprev tcur vcur tnext vnext vprevDerivRight vnextDerivLeft : ℝ) :
    autoComputeDerivatives kindPrev kindCur kindNext tprev vprev tcur vcur tnext vnext
        vprevDerivRight vnextDerivLeft = none ↔
      (kindCur = KEYFRAME_NONE ∨ kindCur = KEYFRAME_FREE ∨ kindCur = KEYFRAME_BROKEN) ∧
        kindPrev ≠ KEYFRAME_NONE ∧ kindNext ≠ KEYFRAME_NONE := by
  by_cases h : kindPrev = KEYFRAME_NONE ∨ kindNext = KEYFRAME_NONE
  · constructor
    · intro e
      exact absurd e (autoComputeDerivatives_absent _ _ _ _ _ _ _ _ _ _ _ h)
    · rintro ⟨_, hp, hn⟩
      rcases h with h | h
      · exact absurd h hp
      · exact absurd h hn
  · have hp : kindPrev ≠ KEYFRAME_NONE := fun e => h (Or.inl e)
    have hn : kindNext ≠ KEYFRAME_NONE := fun e => h (Or.inr e)
    rw [autoComputeDerivatives_present _ _ _ _ _ _ _ _ _ _ _ hp hn]
    exact ⟨fun e => ⟨e, hp, hn⟩, fun e => e.1⟩

/-- Claim C17, amended, at two inputs: between two smooth keyframes the current kind
`KEYFRAME_BROKEN` fails, and after a missing previous keyframe it does not. -/
theorem autoComputeDerivatives_fails_iff_witness :
    autoComputeDerivatives KEYFRAME_SMOOTH KEYFRAME_BROKEN KEYFRAME_SMOOTH (0 : ℝ) 0 1 1 2 3 0 0
        = none ∧
      autoComputeDerivatives KEYFRAME_NONE KEYFRAME_BROKEN KEYFRAME_SMOOTH (0 : ℝ) 0 1 1 2 3 0 0
        ≠ none :=
  ⟨(autoComputeDerivatives_fails_iff _ _ _ _ _ _ _ _ _ _ _).mpr
      ⟨Or.inr (Or.inr rfl), by decide, by decide⟩,
    fun e => absurd ((autoComputeDerivatives_fails_iff _ _ _ _ _ _ _ _ _ _ _).mp e).2.1
      (by decide)⟩

/-- Claim C18. For the current kind `KEYFRAME_CATMULL_ROM` with both neighbours present
(kinds other than `KEYFRAME_NONE`) and `tprev < tcur < tnext`, `autoComputeDerivatives`
returns the left derivative and the right derivative `(vnext - vprev) / (tnext - tprev)`,
whatever `vcur` and the derivatives of the neighbours are. -/
theorem autoComputeDerivatives_catmull_rom_spec (kindPrev kindNext : KeyframeType)
    (tprev vprev tcur vcur tnext vnext vprevDerivRight vnextDerivLeft : ℝ)
    (hp : kindPrev ≠ KEYFRAME_NONE) (hn : kindNext ≠ KEYFRAME_NONE)
    (h1 : tprev < tcur) (h2 : tcur < tnext) :
    autoComputeDerivatives kindPrev KEYFRAME_CATMULL_ROM kindNext tprev vprev tcur vcur tnext
        vnext vprevDerivRight vnextDerivLeft =
      some { vcurDerivLeft := (vnext - vprev) / (tnext - tprev)
             vcurDerivRight := (vnext - vprev) / (tnext - tprev) } := by
  rw [autoComputeDerivatives_catmull_rom _ _ _ _ _ _ _ _ _ _ hp hn]
  have e1 : tnext - tcur ≠ 0 := by linarith [sub_pos.mpr h2]
  have e2 : tcur - tprev ≠ 0 := by linarith [sub_pos.mpr h1]
  rw [mul_div_assoc, mul_div_assoc, div_self e1, div_self e2, mul_one]

/-- Claim C18 on the keyframes `0` at time `0`, `5` at time `1` and `6` at time `3`: both
derivatives are `(6 - 0) / (3 - 0)`. -/
theorem autoComputeDerivatives_catmull_rom_spec_witness :
    (0 : ℝ) < 1 ∧ (1 : ℝ) < 3 ∧
      autoComputeDerivatives KEYFRAME_LINEAR KEYFRAME_CATMULL_ROM KEYFRAME_SMOOTH (0 : ℝ) 0 1 5 3
          6 7 8 =
        some { vcurDerivLeft := (6 - 0) / (3 - 0), vcurDerivRight := (6 - 0) / (3 - 0) } :=
  ⟨by norm_num, by norm_num,
    autoComputeDerivatives_catmull_rom_spec KEYFRAME_LINEAR KEYFRAME_SMOOTH 0 0 1 5 3 6 7 8
      (by decide) (by decide) (by norm_num) (by norm_num)⟩

theorem smoothClampPrev_bounds (vprev vcur P1 Q2 : ℝ) :
    min vprev vcur ≤ (smoothClampPrev vprev vcur vcur vcur P1 Q2).2 ∧
      (smoothClampPrev vprev vcur vcur vcur P1 Q2).2 ≤ max vprev vcur := by
  unfold smoothClampPrev
  by_cases h : Q2 < min vprev vcur ∨ Q2 > max vprev vcur
  · simp only [if_pos h]
    exact ⟨le_max_left _ _, max_le min_le_max (min_le_right _ _)⟩
  · simp only [if_neg h]
    push_neg at h
    exact h

theorem smoothClampNext_bounds (vprev vcur vnext P1 Q2 : ℝ)
    (hm : min vprev vcur ≤ Q2) (hM : Q2 ≤ max vprev vcur) :
    min vcur vnext ≤ (smoothClampNext vcur vnext vcur vcur P1 Q2).1 ∧
      (smoothClampNext vcur vnext vcur vcur P1 Q2).1 ≤ max vcur vnext ∧
      min vprev vcur ≤ (smoothClampNext vcur vnext vcur vcur P1 Q2).2 ∧
      (smoothClampNext vcur vnext vcur vcur P1 Q2).2 ≤ max vprev vcur := by
  unfold smoothClampNext
  by_cases h : P1 < min vcur vnext ∨ P1 > max vcur vnext
  · simp only [if_pos h]
    refine ⟨le_max_left _ _, max_le min_le_max (min_le_right _ _), ?_⟩
    have hv1 : min vprev vcur ≤ vcur := min_le_right _ _
    have hv2 : vcur ≤ max vprev vcur := le_max_right _ _
    have hv3 : min vcur vnext ≤ vcur := min_le_left _ _
    have hv4 : vcur ≤ max vcur vnext := le_max_left _ _
    have hmM : min vcur vnext ≤ max vcur vnext := min_le_max
    generalize min vprev vcur = m1 at *
    generalize max vprev vcur = M1 at *
    generalize min vcur vnext = m2 at *
    generalize max vcur vnext = M2 at *
    have hk : 0 ≤ (max m2 (min P1 M2) - vcur) / (P1 - vcur) ∧
        (max m2 (min P1 M2) - vcur) / (P1 - vcur) ≤ 1 := by
      rcases h with h | h
      · have e : max m2 (min P1 M2) = m2 := by
          rw [min_eq_left (by linarith), max_eq_left h.le]
        rw [e]
        have hneg : P1 - vcur < 0 := by linarith
        exact ⟨div_nonneg_of_nonpos (by linarith) hneg.le,
          by rw [div_le_one_of_neg hneg]; linarith⟩
      · have e : max m2 (min P1 M2) = M2 := by
          rw [min_eq_right h.le, max_eq_right hmM]
        rw [e]
        have hpos : 0 < P1 - vcur := by linarith
        exact ⟨div_nonneg (by linarith) hpos.le, by rw [div_le_one hpos]; linarith⟩
    rw [mul_div_assoc]
    generalize (max m2 (min P1 M2) - vcur) / (P1 - vcur) = k at hk
    obtain ⟨hk0, hk1⟩ := hk
    constructor
    · nlinarith [mul_nonneg hk0 (sub_nonneg.mpr hm), mul_nonneg (sub_nonneg.mpr hk1)
        (sub_nonneg.mpr hv1)]
    · nlinarith [mul_nonneg hk0 (sub_nonneg.mpr hM), mul_nonneg (sub_nonneg.mpr hk1)
        (sub_nonneg.mpr hv2)]
  · simp only [if_neg h]
    push_neg at h
    exact ⟨h.1, h.2, hm, hM⟩

theorem autoComputeDerivatives_smooth (kindPrev kindNext : KeyframeType)
    (tprev vprev tcur vcur tnext vnext vprevDerivRight vnextDerivLeft : ℝ)
    (hp : kindPrev ≠ KEYFRAME_NONE) (hn : kindNext ≠ KEYFRAME_NONE) :
    autoComputeDerivatives kindPrev KEYFRAME_SMOOTH kindNext tprev vprev tcur vcur tnext
        vnext vprevDerivRight vnextDerivLeft =
      if (vprev > vcur ∧ vcur < vnext) ∨ (vprev < vcur ∧ vcur > vnext) then
        some { vcurDerivRight := 0 / (tnext - tcur), vcurDerivLeft := 0 / (tcur - tprev) }
      else
        some
          { vcurDerivRight :=
              3 * ((smoothClampNext vcur vnext vcur vcur
                (smoothClampPrev vprev vcur vcur vcur
                  (vcur + (vnext - vprev) / (tnext - tprev) * (tnext - tcur) / 3)
                  (vcur - (vnext - vprev) / (tnext - tprev) * (tcur - tprev) / 3)).1
                (smoothClampPrev vprev vcur vcur vcur
                  (vcur + (vnext - vprev) / (tnext - tprev) * (tnext - tcur) / 3)
                  (vcur - (vnext - vprev) / (tnext - tprev) * (tcur - tprev) / 3)).2).1
                - vcur) / (tnext - tcur)
            vcurDerivLeft :=
              3 * (vcur - (smoothClampNext vcur vnext vcur vcur
                (smoothClampPrev vprev vcur vcur vcur
                  (vcur + (vnext - vprev) / (tnext - tprev) * (tnext - tcur) / 3)
                  (vcur - (vnext - vprev) / (tnext - tprev) * (tcur - tprev) / 3)).1
                (smoothClampPrev vprev vcur vcur vcur
                  (vcur + (vnext - vprev) / (tnext - tprev) * (tnext - tcur) / 3)
                  (vcur - (vnext - vprev) / (tnext - tprev) * (tcur - tprev) / 3)).2).2)
                / (tcur - tprev) } := by
  have hor : ¬ (kindPrev = KEYFRAME_NONE ∨ kindNext = KEYFRAME_NONE) := by
    rintro (h | h)
    · exact hp h
    · exact hn h
  simp only [autoComputeDerivatives, if_neg hp, if_neg hn, if_neg hor]

/-- Claim C19. Anti-overshoot: for the current kind `KEYFRAME_SMOOTH` with both neighbours
present and `tprev < tcur < tnext`, `autoComputeDerivatives` returns derivatives whose
one-third Bezier control points `P1 = vcur + right * (tnext - tcur) / 3` and
`Q2 = vcur - left * (tcur - tprev) / 3` satisfy `min vcur vnext ≤ P1 ≤ max vcur vnext` and
`min vprev vcur ≤ Q2 ≤ max vprev vcur`; both derivatives are `0` when `vcur` is a strict
local extremum of `(vprev, vcur, vnext)`. -/
theorem autoComputeDerivatives_smooth_no_overshoot (kindPrev kindNext : KeyframeType)
    (tprev vprev tcur vcur tnext vnext vprevDerivRight vnextDerivLeft : ℝ)
    (hp : kindPrev ≠ KEYFRAME_NONE) (hn : kindNext ≠ KEYFRAME_NONE)
    (h1 : tprev < tcur) (h2 : tcur < tnext) :
    ∃ d : Derivatives ℝ,
      autoComputeDerivatives kindPrev KEYFRAME_SMOOTH kindNext tprev vprev tcur vcur tnext
        vnext vprevDerivRight vnextDerivLeft = some d ∧
      min vcur vnext ≤ vcur + d.vcurDerivRight * (tnext - tcur) / 3 ∧
      vcur + d.vcurDerivRight * (tnext - tcur) / 3 ≤ max vcur vnext ∧
      min vprev vcur ≤ vcur - d.vcurDerivLeft * (tcur - tprev) / 3 ∧
      vcur - d.vcurDerivLeft * (tcur - tprev) / 3 ≤ max vprev vcur ∧
      ((vprev > vcur ∧ vcur < vnext) ∨ (vprev < vcur ∧ vcur > vnext) →
        d.vcurDerivLeft = 0 ∧ d.vcurDerivRight = 0) := by
  have e1 : tnext - tcur ≠ 0 := by linarith [sub_pos.mpr h2]
  have e2 : tcur - tprev ≠ 0 := by linarith [sub_pos.mpr h1]
  rw [autoComputeDerivatives_smooth _ _ _ _ _ _ _ _ _ _ hp hn]
  by_cases hx : (vprev > vcur ∧ vcur < vnext) ∨ (vprev < vcur ∧ vcur > vnext)
  · rw [if_pos hx]
    refine ⟨_, rfl, ?_⟩
    simp only [zero_div, zero_mul, add_zero, sub_zero]
    exact ⟨min_le_left _ _, le_max_left _ _, min_le_right _ _, le_max_right _ _,
      fun _ => ⟨trivial, trivial⟩⟩
  · rw [if_neg hx]
    refine ⟨_, rfl, ?_⟩
    simp only []
    have hb := smoothClampPrev_bounds vprev vcur
      (vcur + (vnext - vprev) / (tnext - tprev) * (tnext - tcur) / 3)
      (vcur - (vnext - vprev) / (tnext - tprev) * (tcur - tprev) / 3)
    have hc := smoothClampNext_bounds vprev vcur vnext
      (smoothClampPrev vprev vcur vcur vcur
        (vcur + (vnext - vprev) / (tnext - tprev) * (tnext - tcur) / 3)
        (vcur - (vnext - vprev) / (tnext - tprev) * (tcur - tprev) / 3)).1 _ hb.1 hb.2
    generalize smoothClampNext vcur vnext vcur vcur
      (smoothClampPrev vprev vcur vcur vcur
        (vcur + (vnext - vprev) / (tnext - tprev) * (tnext - tcur) / 3)
        (vcur - (vnext - vprev) / (tnext - tprev) * (tcur - tprev) / 3)).1
      (smoothClampPrev vprev vcur vcur vcur
        (vcur + (vnext - vprev) / (tnext - tprev) * (tnext - tcur) / 3)
        (vcur - (vnext - vprev) / (tnext - tprev) * (tcur - tprev) / 3)).2 = pq at hc ⊢
    have r1 : vcur + 3 * (pq.1 - vcur) / (tnext - tcur) * (tnext - tcur) / 3 = pq.1 := by
      field_simp
    have r2 : vcur - 3 * (vcur - pq.2) / (tcur - tprev) * (tcur - tprev) / 3 = pq.2 := by
      field_simp
    rw [r1, r2]
    exact ⟨hc.1, hc.2.1, hc.2.2.1, hc.2.2.2, fun h => absurd h hx⟩

/-- Claim C19 on the keyframes `0` at time `0`, `1` at time `1` and `10` at time `2`, where
the Catmull-Rom derivative `5` would put `Q2` below `vprev`. -/
theorem autoComputeDerivatives_smooth_no_overshoot_witness :
    (0 : ℝ) < 1 ∧ (1 : ℝ) < 2 ∧
      ∃ d : Derivatives ℝ,
        autoComputeDerivatives KEYFRAME_SMOOTH KEYFRAME_SMOOTH KEYFRAME_SMOOTH (0 : ℝ) 0 1 1 2
          10 0 0 = some d ∧
        min (1 : ℝ) 10 ≤ 1 + d.vcurDerivRight * (2 - 1) / 3 ∧
        1 + d.vcurDerivRight * (2 - 1) / 3 ≤ max (1 : ℝ) 10 ∧
        min (0 : ℝ) 1 ≤ 1 - d.vcurDerivLeft * (1 - 0) / 3 ∧
        1 - d.vcurDerivLeft * (1 - 0) / 3 ≤ max (0 : ℝ) 1 := by
  obtain ⟨d, hd, h⟩ := autoComputeDerivatives_smooth_no_overshoot KEYFRAME_SMOOTH
    KEYFRAME_SMOOTH 0 0 1 1 2 10 0 0 (by decide) (by decide) (by norm_num) (by norm_num)
  exact ⟨by norm_num, by norm_num, d, hd, h.1, h.2.1, h.2.2.1, h.2.2.2.1⟩

theorem cubicDerive_hasDerivAt (c0 c1 c2 c3 x : ℝ) :
    HasDerivAt (cubicDerive c0 c1 c2 c3) (cubicDerive2 c2 c3 x) x := by
  have h : cubicDerive c0 c1 c2 c3 = fun t => c1 + c2 * (2 * t) + c3 * (3 * t ^ 2) := by
    funext t; unfold cubicDerive; ring
  have e : cubicDerive2 c2 c3 x = 0 + c2 * (2 * 1) + c3 * (3 * (2 * x ^ 1 * 1)) := by
    unfold cubicDerive2; ring
  rw [h, e]
  exact ((hasDerivAt_const x c1).add (((hasDerivAt_id x).const_mul 2).const_mul c2)).add
    ((((hasDerivAt_id x).pow 2).const_mul 3).const_mul c3)

/-- The function `segmentDerive2` is the derivative in the query time of `derive`, for a
segment between two keyframes that are present, the first one not constant. -/
theorem derive_hasDerivAt (tcur vcur vcurDerivRight vnextDerivLeft tnext vnext q : ℝ)
    (interp interpNext : KeyframeType) (hk1 : interp ≠ KEYFRAME_NONE)
    (hk2 : interp ≠ KEYFRAME_CONSTANT) (hk3 : interpNext ≠ KEYFRAME_NONE) :
    HasDerivAt
      (fun x => derive tcur vcur vcurDerivRight vnextDerivLeft tnext vnext x interp interpNext)
      (segmentDerive2 tcur vcur vcurDerivRight vnextDerivLeft tnext vnext q) q := by
  have ht := segmentSetup_times tcur vcur vcurDerivRight vnextDerivLeft tnext vnext interp
    interpNext hk1 hk3
  have hc := segmentSetup_real_coeffs tcur vcur vcurDerivRight vnextDerivLeft tnext vnext
    interp interpNext hk1 hk2 hk3
  simp only [derive, segmentDerive2, hc, ht.1, ht.2]
  have h1 : HasDerivAt (fun x : ℝ => (x - tcur) / (tnext - tcur)) (1 / (tnext - tcur)) q := by
    have := ((hasDerivAt_id q).sub_const tcur).div_const (tnext - tcur)
    simpa using this
  have h2 := ((cubicDerive_hasDerivAt
    (hermiteToCubicCoeffs vcur (vcurDerivRight * (tnext - tcur))
      (vnextDerivLeft * (tnext - tcur)) vnext).1
    (hermiteToCubicCoeffs vcur (vcurDerivRight * (tnext - tcur))
      (vnextDerivLeft * (tnext - tcur)) vnext).2.1
    (hermiteToCubicCoeffs vcur (vcurDerivRight * (tnext - tcur))
      (vnextDerivLeft * (tnext - tcur)) vnext).2.2.1
    (hermiteToCubicCoeffs vcur (vcurDerivRight * (tnext - tcur))
      (vnextDerivLeft * (tnext - tcur)) vnext).2.2.2
    ((q - tcur) / (tnext - tcur))).comp q h1).div_const (tnext - tcur)
  convert h2 using 1
  rw [div_mul_eq_div_div, mul_one_div]

theorem autoComputeDerivatives_cubic (kindPrev kindNext : KeyframeType)
    (tprev vprev tcur vcur tnext vnext vprevDerivRight vnextDerivLeft : ℝ)
    (hp : kindPrev ≠ KEYFRAME_NONE) (hn : kindNext ≠ KEYFRAME_NONE) :
    ∃ N c : ℝ,
      autoComputeDerivatives kindPrev KEYFRAME_CUBIC kindNext tprev vprev tcur vcur tnext
        vnext vprevDerivRight vnextDerivLeft =
      some { vcurDerivRight := -(N / (tcur - tprev)) / c / (tnext - tcur)
             vcurDerivLeft := N / (-tnext + tcur) / c / (tcur - tprev) } ∧
      ((kindPrev = KEYFRAME_LINEAR ∧ kindNext = KEYFRAME_LINEAR ∧ c = 2 ∧
          N = vprev * tnext - vprev * tcur - vcur * tprev - vnext * tcur + vnext * tprev
            - vcur * tnext + 2 * vcur * tcur) ∨
        (kindPrev = KEYFRAME_LINEAR ∧ kindNext ≠ KEYFRAME_LINEAR ∧ c = 7 ∧
          N = -6 * vcur * tprev - 6 * vnext * tcur + 6 * vnext * tprev
            + 2 * (vnextDerivLeft * (tnext - tcur)) * tcur
            - 2 * (vnextDerivLeft * (tnext - tcur)) * tprev + 3 * vprev * tnext
            - 3 * vprev * tcur - 3 * vcur * tnext + 9 * vcur * tcur) ∨
        (kindPrev ≠ KEYFRAME_LINEAR ∧ kindNext = KEYFRAME_LINEAR ∧ c = 7 ∧
          N = -3 * vcur * tprev - 3 * vnext * tcur + 3 * vnext * tprev + 6 * vprev * tnext
            - 6 * vprev * tcur + 2 * (vprevDerivRight * (tcur - tprev)) * tnext
            - 2 * (vprevDerivRight * (tcur - tprev)) * tcur - 6 * vcur * tnext
            + 9 * vcur * tcur) ∨
        (kindPrev ≠ KEYFRAME_LINEAR ∧ kindNext ≠ KEYFRAME_LINEAR ∧ c = 4 ∧
          N = 6 * vcur * tcur - 3 * vcur * tprev - 3 * vnext * tcur + 3 * vnext * tprev
            + vnextDerivLeft * (tnext - tcur) * tcur - vnextDerivLeft * (tnext - tcur) * tprev
            + 3 * vprev * tnext - 3 * vprev * tcur + vprevDerivRight * (tcur - tprev) * tnext
            - vprevDerivRight * (tcur - tprev) * tcur - 3 * vcur * tnext)) := by
  have hor : ¬ (kindPrev = KEYFRAME_NONE ∨ kindNext = KEYFRAME_NONE) := by
    rintro (h | h)
    · exact hp h
    · exact hn h
  by_cases h1 : kindPrev = KEYFRAME_LINEAR <;> by_cases h2 : kindNext = KEYFRAME_LINEAR
  · refine ⟨_, 2, ?_, Or.inl ⟨h1, h2, rfl, rfl⟩⟩
    simp only [autoComputeDerivatives, if_neg hp, if_neg hn, if_neg hor, if_pos (And.intro h1 h2)]
  · refine ⟨_, 7, ?_, Or.inr (Or.inl ⟨h1, h2, rfl, rfl⟩)⟩
    simp only [autoComputeDerivatives, if_neg hp, if_neg hn, if_neg hor, if_pos h1,
      if_neg (fun h : kindPrev = KEYFRAME_LINEAR ∧ kindNext = KEYFRAME_LINEAR => h2 h.2)]
  · refine ⟨_, 7, ?_, Or.inr (Or.inr (Or.inl ⟨h1, h2, rfl, rfl⟩))⟩
    simp only [autoComputeDerivatives, if_neg hp, if_neg hn, if_neg hor, if_neg h1, if_pos h2,
      if_neg (fun h : kindPrev = KEYFRAME_LINEAR ∧ kindNext = KEYFRAME_LINEAR => h1 h.1)]
  · refine ⟨_, 4, ?_, Or.inr (Or.inr (Or.inr ⟨h1, h2, rfl, rfl⟩))⟩
    simp only [autoComputeDerivatives, if_neg hp, if_neg hn, if_neg hor, if_neg h1, if_neg h2,
      if_neg (fun h : kindPrev = KEYFRAME_LINEAR ∧ kindNext = KEYFRAME_LINEAR => h1 h.1)]

theorem segmentDerive2_start (tcur vcur dR dL tnext vnext : ℝ) (h : tcur < tnext) :
    segmentDerive2 tcur vcur dR dL tnext vnext tcur =
      (6 * (vnext - vcur) / (tnext - tcur) - 4 * dR - 2 * dL) / (tnext - tcur) := by
  have hne : tnext - tcur ≠ 0 := by linarith [sub_pos.mpr h]
  simp only [segmentDerive2, hermiteToCubicCoeffs, cubicDerive2, sub_self, zero_div, mul_zero,
    add_zero]
  field_simp
  ring

theorem segmentDerive2_end (tcur vcur dR dL tnext vnext : ℝ) (h : tcur < tnext) :
    segmentDerive2 tcur vcur dR dL tnext vnext tnext =
      (-6 * (vnext - vcur) / (tnext - tcur) + 2 * dR + 4 * dL) / (tnext - tcur) := by
  have hne : tnext - tcur ≠ 0 := by linarith [sub_pos.mpr h]
  simp only [segmentDerive2, hermiteToCubicCoeffs, cubicDerive2, div_self hne]
  field_simp
  ring

/-- What the four cubic formulas of `autoComputeDerivatives` solve for: at the joint the
second time-derivatives of the two segments, each multiplied by the length of its segment,
are equal. -/
theorem autoComputeDerivatives_cubic_scaled (kindPrev kindNext : KeyframeType)
    (tprev vprev tcur vcur tnext vnext vprevDerivRight vnextDerivLeft : ℝ)
    (hp : kindPrev ≠ KEYFRAME_NONE) (hn : kindNext ≠ KEYFRAME_NONE)
    (h1 : tprev < tcur) (h2 : tcur < tnext) :
    ∃ d : Derivatives ℝ,
      autoComputeDerivatives kindPrev KEYFRAME_CUBIC kindNext tprev vprev tcur vcur tnext
        vnext vprevDerivRight vnextDerivLeft = some d ∧
      ∀ dprev dnext : ℝ,
        (if kindPrev = KEYFRAME_LINEAR then
            segmentDerive2 tprev vprev dprev d.vcurDerivLeft tcur vcur tprev = 0
          else dprev = vprevDerivRight) →
        (if kindNext = KEYFRAME_LINEAR then
            segmentDerive2 tcur vcur d.vcurDerivRight dnext tnext vnext tnext = 0
          else dnext = vnextDerivLeft) →
        (tcur - tprev) * segmentDerive2 tprev vprev dprev d.vcurDerivLeft tcur vcur tcur =
          (tnext - tcur) * segmentDerive2 tcur vcur d.vcurDerivRight dnext tnext vnext tcur := by
  obtain ⟨N, c, hd, hcase⟩ := autoComputeDerivatives_cubic kindPrev kindNext tprev vprev tcur
    vcur tnext vnext vprevDerivRight vnextDerivLeft hp hn
  refine ⟨_, hd, ?_⟩
  intro dprev dnext hprev hnext
  simp only [] at hprev hnext ⊢
  rw [segmentDerive2_end _ _ _ _ _ _ h1, segmentDerive2_start _ _ _ _ _ _ h2]
  obtain ⟨A, rfl⟩ : ∃ A, tprev = tcur - A := ⟨tcur - tprev, by ring⟩
  obtain ⟨B, rfl⟩ : ∃ B, tnext = tcur + B := ⟨tnext - tcur, by ring⟩
  have hA : A ≠ 0 := by linarith
  have hB : B ≠ 0 := by linarith
  have e1 : tcur + B - tcur = B := by ring
  have e2 : -(tcur + B) + tcur = -B := by ring
  have e3 : tcur - (tcur - A) = A := by ring
  simp only [e1, e2, e3] at hprev hnext ⊢
  rcases hcase with ⟨k1, k2, rfl, hN⟩ | ⟨k1, k2, rfl, hN⟩ | ⟨k1, k2, rfl, hN⟩ | ⟨k1, k2, rfl, hN⟩
  · rw [if_pos k1, segmentDerive2_start _ _ _ _ _ _ h1] at hprev
    rw [if_pos k2, segmentDerive2_end _ _ _ _ _ _ h2] at hnext
    simp only [e1, e2, e3] at hprev hnext hN
    rw [hN] at hprev hnext ⊢
    field_simp at hprev hnext ⊢
    linear_combination (-A ^ 2 * B ^ 3) * hprev + (-A ^ 3 * B ^ 2) * hnext
  · rw [if_pos k1, segmentDerive2_start _ _ _ _ _ _ h1] at hprev
    rw [if_neg k2] at hnext
    subst hnext
    simp only [e1, e2, e3] at hprev hN
    rw [hN] at hprev ⊢
    field_simp at hprev ⊢
    linear_combination (-7 / 2 * A ^ 2 * B ^ 3) * hprev
  · rw [if_neg k1] at hprev
    rw [if_pos k2, segmentDerive2_end _ _ _ _ _ _ h2] at hnext
    subst hprev
    simp only [e1, e2, e3] at hnext hN
    rw [hN] at hnext ⊢
    field_simp at hnext ⊢
    linear_combination (-7 / 2 * A ^ 3 * B ^ 2) * hnext
  · rw [if_neg k1] at hprev
    rw [if_neg k2] at hnext
    subst hprev hnext
    simp only [e1, e2, e3] at hN
    rw [hN]
    field_simp
    ring

/-- Claim C20, amended. For the current kind `KEYFRAME_CUBIC` with both neighbours present,
`tprev < tcur < tnext` and equal spacing `tcur - tprev = tnext - tcur`, the second derivative
with respect to time at `tcur` is equal on both sides of the joint: the Hermite cubic over
`[tprev, tcur]` built from `(vprev, dprev, returned left derivative, vcur)` and the Hermite
cubic over `[tcur, tnext]` built from `(vcur, returned right derivative, dnext, vnext)` have
the same second time-derivative at `tcur`, where `dprev` is `vprevDerivRight` unless the
previous keyframe is `KEYFRAME_LINEAR`, in which case it is a derivative that gives the
previous segment a zero second derivative at `tprev`, and likewise `dnext` is
`vnextDerivLeft` unless the next keyframe is `KEYFRAME_LINEAR`, in which case it gives the
next segment a zero second derivative at `tnext`. -/
theorem autoComputeDerivatives_cubic_curvature (kindPrev kindNext : KeyframeType)
    (tprev vprev tcur vcur tnext vnext vprevDerivRight vnextDerivLeft : ℝ)
    (hp : kindPrev ≠ KEYFRAME_NONE) (hn : kindNext ≠ KEYFRAME_NONE)
    (h1 : tprev < tcur) (h2 : tcur < tnext) (hspan : tcur - tprev = tnext - tcur) :
    ∃ d : Derivatives ℝ,
      autoComputeDerivatives kindPrev KEYFRAME_CUBIC kindNext tprev vprev tcur vcur tnext
        vnext vprevDerivRight vnextDerivLeft = some d ∧
      ∀ dprev dnext : ℝ,
        (if kindPrev = KEYFRAME_LINEAR then
            segmentDerive2 tprev vprev dprev d.vcurDerivLeft tcur vcur tprev = 0
          else dprev = vprevDerivRight) →
        (if kindNext = KEYFRAME_LINEAR then
            segmentDerive2 tcur vcur d.vcurDerivRight dnext tnext vnext tnext = 0
          else dnext = vnextDerivLeft) →
        segmentDerive2 tprev vprev dprev d.vcurDerivLeft tcur vcur tcur =
          segmentDerive2 tcur vcur d.vcurDerivRight dnext tnext vnext tcur := by
  obtain ⟨d, hd, h⟩ := autoComputeDerivatives_cubic_scaled kindPrev kindNext tprev vprev tcur
    vcur tnext vnext vprevDerivRight vnextDerivLeft hp hn h1 h2
  refine ⟨d, hd, fun dprev dnext hprev hnext => ?_⟩
  have e := h dprev dnext hprev hnext
  rw [hspan] at e
  exact mul_left_cancel₀ (by linarith [sub_pos.mpr h2]) e

/-- Claim C20 on the keyframes `0` at time `0`, `1` at time `1` and `0` at time `2` between
smooth neighbours with zero derivatives: the two segments have the same second
time-derivative at time `1`. -/
theorem autoComputeDerivatives_cubic_curvature_witness :
    (0 : ℝ) < 1 ∧ (1 : ℝ) < 2 ∧ (1 : ℝ) - 0 = 2 - 1 ∧
      ∃ d : Derivatives ℝ,
        autoComputeDerivatives KEYFRAME_SMOOTH KEYFRAME_CUBIC KEYFRAME_SMOOTH (0 : ℝ) 0 1 1 2 0
          0 0 = some d ∧
        segmentDerive2 (0 : ℝ) 0 0 d.vcurDerivLeft 1 1 1 =
          segmentDerive2 (1 : ℝ) 1 d.vcurDerivRight 0 2 0 1 := by
  obtain ⟨d, hd, h⟩ := autoComputeDerivatives_cubic_curvature KEYFRAME_SMOOTH KEYFRAME_SMOOTH
    0 0 1 1 2 0 0 0 (by decide) (by decide) (by norm_num) (by norm_num) (by norm_num)
  exact ⟨by norm_num, by norm_num, by norm_num, d, hd,
    h 0 0 (by rw [if_neg (by decide)]) (by rw [if_neg (by decide)])⟩

/-- Claim C20 fails as stated, at two inputs. Between smooth neighbours, for the keyframes
`0` at time `0`, `1` at time `1` and `0` at time `3` with zero neighbour derivatives, both
returned derivatives are `3/8` and the second time-derivative at time `1` is `-9/2` on the
left and `-9/4` on the right. After a linear previous keyframe whose right derivative is `1`,
for the keyframes `0` at times `0`, `1` and `2`, both returned derivatives are `0` and the
second time-derivative at time `1` is `2` on the left and `0` on the right. -/
theorem autoComputeDerivatives_cubic_counterexample :
    (autoComputeDerivatives KEYFRAME_SMOOTH KEYFRAME_CUBIC KEYFRAME_SMOOTH (0 : ℝ) 0 1 1 3 0 0 0
        = some { vcurDerivLeft := 3 / 8, vcurDerivRight := 3 / 8 } ∧
      segmentDerive2 (0 : ℝ) 0 0 (3 / 8) 1 1 1 = -9 / 2 ∧
      segmentDerive2 (1 : ℝ) 1 (3 / 8) 0 3 0 1 = -9 / 4) ∧
    (autoComputeDerivatives KEYFRAME_LINEAR KEYFRAME_CUBIC KEYFRAME_SMOOTH (0 : ℝ) 0 1 0 2 0 1 0
        = some { vcurDerivLeft := 0, vcurDerivRight := 0 } ∧
      segmentDerive2 (0 : ℝ) 0 1 0 1 0 1 = 2 ∧
      segmentDerive2 (1 : ℝ) 0 0 0 2 0 1 = 0) := by
  refine ⟨⟨?_, ?_, ?_⟩, ?_, ?_, ?_⟩
  · simp only [autoComputeDerivatives, if_neg (by decide : ¬ KEYFRAME_SMOOTH = KEYFRAME_NONE),
      if_neg (by decide : ¬ KEYFRAME_SMOOTH = KEYFRAME_LINEAR),
      if_neg (by decide : ¬ (KEYFRAME_SMOOTH = KEYFRAME_NONE ∨ KEYFRAME_SMOOTH = KEYFRAME_NONE)),
      if_neg (by decide : ¬ (KEYFRAME_SMOOTH = KEYFRAME_LINEAR ∧
        KEYFRAME_SMOOTH = KEYFRAME_LINEAR))]
    norm_num
  · norm_num [segmentDerive2, hermiteToCubicCoeffs, cubicDerive2]
  · norm_num [segmentDerive2, hermiteToCubicCoeffs, cubicDerive2]
  · simp only [autoComputeDerivatives, if_neg (by decide : ¬ KEYFRAME_SMOOTH = KEYFRAME_NONE),
      if_neg (by decide : ¬ KEYFRAME_LINEAR = KEYFRAME_NONE),
      if_neg (by decide : ¬ KEYFRAME_SMOOTH = KEYFRAME_LINEAR),
      if_neg (by decide : ¬ (KEYFRAME_LINEAR = KEYFRAME_NONE ∨ KEYFRAME_SMOOTH = KEYFRAME_NONE)),
      if_neg (by decide : ¬ (KEYFRAME_LINEAR = KEYFRAME_LINEAR ∧
        KEYFRAME_SMOOTH = KEYFRAME_LINEAR)), if_true]
    norm_num
  · norm_num [segmentDerive2, hermiteToCubicCoeffs, cubicDerive2]
  · norm_num [segmentDerive2, hermiteToCubicCoeffs, cubicDerive2]

/-! ### Scenario C: the segment `30 t^2 - 20 t^3` clamped from above at `5` -/

theorem not_isZero_neg_twenty : ¬ isZero (-20 : ℝ) := by
  rw [not_isZero_iff_abs]; norm_num

theorem sqrt_quarter : Real.sqrt (1 / 4) = 1 / 2 := by
  rw [show (1 / 4 : ℝ) = (1 / 2) ^ 2 by norm_num, Real.sqrt_sq (by norm_num)]

/-- The solutions of `30 t^2 - 20 t^3 = 5` that `solveCubic` returns (trigonometric branch):
`1/2 + √3/2`, `1/2` and `1/2 - √3/2`, all of multiplicity one. -/
theorem scenario_max_roots (s : Nat → ℝ) (o : Nat → Int) :
    (solveCubic realLibm ((0 : ℝ) - 5) 0 30 (-20) s o).num = 3 ∧
      (solveCubic realLibm ((0 : ℝ) - 5) 0 30 (-20) s o).s 0 = 1 / 2 + Real.sqrt 3 / 2 ∧
      (solveCubic realLibm ((0 : ℝ) - 5) 0 30 (-20) s o).s 1 = 1 / 2 ∧
      (solveCubic realLibm ((0 : ℝ) - 5) 0 30 (-20) s o).s 2 = 1 / 2 - Real.sqrt 3 / 2 ∧
      (solveCubic realLibm ((0 : ℝ) - 5) 0 30 (-20) s o).o 0 = 1 ∧
      (solveCubic realLibm ((0 : ℝ) - 5) 0 30 (-20) s o).o 1 = 1 ∧
      (solveCubic realLibm ((0 : ℝ) - 5) 0 30 (-20) s o).o 2 = 1 := by
  have eA : cubicA (30 : ℝ) (-20) = -3 / 2 := by norm_num [cubicA]
  have eP : cubicP (0 : ℝ) 30 (-20) = -1 / 4 := by norm_num [cubicP, cubicA]
  have eQ : cubicQ ((0 : ℝ) - 5) 0 30 (-20) = 0 := by norm_num [cubicQ, cubicA]
  have eD : cubicD ((0 : ℝ) - 5) 0 30 (-20) = -1 / 64 := by
    rw [cubicD, eQ, eP]; norm_num
  have hD : ¬ isZero (cubicD ((0 : ℝ) - 5) 0 30 (-20)) := by
    rw [eD, not_isZero_iff_abs]; norm_num [abs_of_neg]
  rw [solveCubic_three realLibm _ _ _ _ s o not_isZero_neg_twenty hD (by rw [eD]; norm_num)]
  rw [eA, eP, eQ]
  have e1 : Real.sqrt (-(-1 / 4 : ℝ)) = 1 / 2 := by
    rw [show (-(-1 / 4 : ℝ)) = 1 / 4 by norm_num, sqrt_quarter]
  have e2 : (1 / 3 : ℝ) * (Real.pi / 2) = Real.pi / 6 := by ring
  have e3 : Real.pi / 6 + Real.pi / 3 = Real.pi / 2 := by ring
  have e4 : Real.pi / 6 - Real.pi / 3 = -(Real.pi / 6) := by ring
  simp only [realLibm, neg_zero, zero_div, Real.arccos_zero, e1, e2, e3, e4, Real.cos_neg,
    Real.cos_pi_div_six, Real.cos_pi_div_two, resubstitute]
  refine ⟨trivial, ?_, ?_, ?_, ?_, ?_, ?_⟩
  · norm_num [Function.update]
    ring
  · norm_num [Function.update]
  · norm_num [Function.update]
    ring
  · simp [Function.update]
  · simp [Function.update]
  · simp [Function.update]

theorem scenario_min_Q (vmin : ℝ) :
    cubicQ ((0 : ℝ) - vmin) 0 30 (-20) = -1 / 8 + vmin / 40 := by
  norm_num [cubicQ, cubicA]
  ring

theorem scenario_min_D (vmin : ℝ) :
    cubicD ((0 : ℝ) - vmin) 0 30 (-20) = (-1 / 8 + vmin / 40) ^ 2 - 1 / 64 := by
  have eP : cubicP (0 : ℝ) 30 (-20) = -1 / 4 := by norm_num [cubicP, cubicA]
  rw [cubicD, scenario_min_Q, eP]
  ring

/-- The solution of `30 t^2 - 20 t^3 = vmin`, for `vmin < 0`, when the discriminant is
outside the near-zero band: one solution, at a time not before `3/2`. -/
theorem scenario_min_roots_one (vmin : ℝ) (hv : vmin < 0) (s : Nat → ℝ) (o : Nat → Int)
    (hD : ¬ isZero (cubicD ((0 : ℝ) - vmin) 0 30 (-20))) :
    (solveCubic realLibm ((0 : ℝ) - vmin) 0 30 (-20) s o).num = 1 ∧
      3 / 2 ≤ (solveCubic realLibm ((0 : ℝ) - vmin) 0 30 (-20) s o).s 0 ∧
      (solveCubic realLibm ((0 : ℝ) - vmin) 0 30 (-20) s o).o 0 = 1 := by
  have eA : cubicA (30 : ℝ) (-20) = -3 / 2 := by norm_num [cubicA]
  have eP : cubicP (0 : ℝ) 30 (-20) = -1 / 4 := by norm_num [cubicP, cubicA]
  have hDpos : 0 < cubicD ((0 : ℝ) - vmin) 0 30 (-20) := by
    rw [scenario_min_D]; nlinarith
  have hq : ¬ cubicQ ((0 : ℝ) - vmin) 0 30 (-20) > 0 := by
    rw [scenario_min_Q]; linarith
  rw [solveCubic_one realLibm _ _ _ _ s o not_isZero_neg_twenty hD (not_lt.mpr hDpos.le)]
  rw [if_neg hq, eA, eP]
  have hw : 0 < Real.sqrt (cubicD ((0 : ℝ) - vmin) 0 30 (-20)) +
      |cubicQ ((0 : ℝ) - vmin) 0 30 (-20)| := by
    have h1 := Real.sqrt_nonneg (cubicD ((0 : ℝ) - vmin) 0 30 (-20))
    have h2 : 0 < |cubicQ ((0 : ℝ) - vmin) 0 30 (-20)| := by
      rw [scenario_min_Q]; apply abs_pos.mpr; linarith
    linarith
  have hu := realCbrt_pos hw
  simp only [realLibm, resubstitute]
  generalize realCbrt (Real.sqrt (cubicD ((0 : ℝ) - vmin) 0 30 (-20)) +
      |cubicQ ((0 : ℝ) - vmin) 0 30 (-20)|) = u at hu
  refine ⟨trivial, ?_, by simp [Function.update]⟩
  simp only [Function.update_same, Nat.lt_one_iff, if_true]
  have key : 1 ≤ u - -1 / 4 / u := by
    have : u - -1 / 4 / u - 1 = (2 * u - 1) ^ 2 / (4 * u) := by
      field_simp; ring
    have h2 : 0 ≤ (2 * u - 1) ^ 2 / (4 * u) := by positivity
    linarith
  linarith

/-- The solutions of `30 t^2 - 20 t^3 = vmin`, for `vmin < 0`, when the discriminant is
inside the near-zero band: a simple one at a time after `3/2` and a double one at a time
in `[-3/10, 0)`. -/
theorem scenario_min_roots_two (vmin : ℝ) (hv : vmin < 0) (s : Nat → ℝ) (o : Nat → Int)
    (hD : isZero (cubicD ((0 : ℝ) - vmin) 0 30 (-20))) :
    (solveCubic realLibm ((0 : ℝ) - vmin) 0 30 (-20) s o).num = 2 ∧
      3 / 2 ≤ (solveCubic realLibm ((0 : ℝ) - vmin) 0 30 (-20) s o).s 0 ∧
      (solveCubic realLibm ((0 : ℝ) - vmin) 0 30 (-20) s o).o 0 = 1 ∧
      -3 / 10 ≤ (solveCubic realLibm ((0 : ℝ) - vmin) 0 30 (-20) s o).s 1 ∧
      (solveCubic realLibm ((0 : ℝ) - vmin) 0 30 (-20) s o).s 1 < 0 ∧
      (solveCubic realLibm ((0 : ℝ) - vmin) 0 30 (-20) s o).o 1 = 2 := by
  have eA : cubicA (30 : ℝ) (-20) = -3 / 2 := by norm_num [cubicA]
  have hq : ¬ isZero (cubicQ ((0 : ℝ) - vmin) 0 30 (-20)) := by
    rw [scenario_min_Q, not_isZero_iff_abs, abs_of_neg (by linarith)]
    linarith
  have hDlt : (-1 / 8 + vmin / 40) ^ 2 - 1 / 64 < 1 / 1000000000 := by
    have := hD
    rw [scenario_min_D, isZero_iff_abs] at this
    have := (abs_lt.mp this).2
    norm_num at this ⊢
    linarith
  rw [solveCubic_double realLibm _ _ _ _ s o not_isZero_neg_twenty hD hq, eA, scenario_min_Q]
  have hu3 := realCbrt_pow_three (-(-1 / 8 + vmin / 40))
  simp only [realLibm, resubstitute]
  generalize realCbrt (-(-1 / 8 + vmin / 40)) = u at hu3
  have hu1 : 1 / 2 < u := by
    by_contra hcon
    push_neg at hcon
    by_cases hneg : u < 0
    · nlinarith [sq_nonneg u]
    · push_neg at hneg
      have : u ^ 3 ≤ (1 / 2) ^ 3 := pow_le_pow_left₀ hneg hcon 3
      nlinarith
  have hu2 : u ≤ 4 / 5 := by
    by_contra hcon
    push_neg at hcon
    have : (4 / 5 : ℝ) ^ 3 < u ^ 3 := pow_lt_pow_left₀ hcon (by norm_num) (by norm_num)
    nlinarith
  refine ⟨trivial, ?_, by simp [Function.update], ?_, ?_, by simp [Function.update]⟩
  · norm_num [Function.update]
    linarith
  · norm_num [Function.update]
    linarith
  · norm_num [Function.update]
    linarith

theorem sqrt_three_bounds : (8 / 5 : ℝ) < Real.sqrt 3 ∧ Real.sqrt 3 < 2 := by
  have h3 : Real.sqrt 3 ^ 2 = 3 := Real.sq_sqrt (by norm_num)
  have hpos := Real.sqrt_nonneg 3
  constructor
  · by_contra hcon
    push_neg at hcon
    nlinarith
  · by_contra hcon
    push_neg at hcon
    nlinarith

/-- The vector `sols` of Scenario C when the discriminant of `cubic = vmin` is outside the
near-zero band. -/
theorem scenario_sols_one (vmin : ℝ) (hv : vmin < 0)
    (hD : ¬ isZero (cubicD ((0 : ℝ) - vmin) 0 30 (-20))) :
    ∃ ta : ℝ, 3 / 2 ≤ ta ∧
      clampSols realLibm 0 0 30 (-20) vmin 5 =
        [⟨SOLMAX, 1 / 2 + Real.sqrt 3 / 2, 1,
            cubicDerive 0 0 30 (-20) (1 / 2 + Real.sqrt 3 / 2)⟩,
          ⟨SOLMAX, 1 / 2, 1, cubicDerive 0 0 30 (-20) (1 / 2)⟩,
          ⟨SOLMAX, 1 / 2 - Real.sqrt 3 / 2, 1,
            cubicDerive 0 0 30 (-20) (1 / 2 - Real.sqrt 3 / 2)⟩,
          ⟨SOLMIN, ta, 1, cubicDerive 0 0 30 (-20) ta⟩] := by
  obtain ⟨m0, m1, m2, m3, m4, m5, m6⟩ := scenario_max_roots (fun _ => 0) (fun _ => 0)
  obtain ⟨n0, n1, n2⟩ := scenario_min_roots_one vmin hv (fun _ => 0) (fun _ => 0) hD
  refine ⟨_, n1, ?_⟩
  simp only [clampSols, m0, n0, m1, m2, m3, m4, m5, m6, n2,
    show List.range 3 = [0, 1, 2] from rfl, show List.range 1 = [0] from rfl, List.map_cons,
    List.map_nil, List.cons_append, List.nil_append]

/-- The vector `sols` of Scenario C when the discriminant of `cubic = vmin` is inside the
near-zero band. -/
theorem scenario_sols_two (vmin : ℝ) (hv : vmin < 0)
    (hD : isZero (cubicD ((0 : ℝ) - vmin) 0 30 (-20))) :
    ∃ ta tb : ℝ, 3 / 2 ≤ ta ∧ -3 / 10 ≤ tb ∧ tb < 0 ∧
      clampSols realLibm 0 0 30 (-20) vmin 5 =
        [⟨SOLMAX, 1 / 2 + Real.sqrt 3 / 2, 1,
            cubicDerive 0 0 30 (-20) (1 / 2 + Real.sqrt 3 / 2)⟩,
          ⟨SOLMAX, 1 / 2, 1, cubicDerive 0 0 30 (-20) (1 / 2)⟩,
          ⟨SOLMAX, 1 / 2 - Real.sqrt 3 / 2, 1,
            cubicDerive 0 0 30 (-20) (1 / 2 - Real.sqrt 3 / 2)⟩,
          ⟨SOLMIN, ta, 1, cubicDerive 0 0 30 (-20) ta⟩,
          ⟨SOLMIN, tb, 2, cubicDerive 0 0 30 (-20) tb⟩] := by
  obtain ⟨m0, m1, m2, m3, m4, m5, m6⟩ := scenario_max_roots (fun _ => 0) (fun _ => 0)
  obtain ⟨n0, n1, n2, n3, n4, n5⟩ :=
    scenario_min_roots_two vmin hv (fun _ => 0) (fun _ => 0) hD
  refine ⟨_, _, n1, n3, n4, ?_⟩
  simp only [clampSols, m0, n0, m1, m2, m3, m4, m5, m6, n2, n5,
    show List.range 3 = [0, 1, 2] from rfl, show List.range 2 = [0, 1] from rfl, List.map_cons,
    List.map_nil, List.cons_append, List.nil_append]

theorem scenario_sort_one (ta d0 d1 d2 d3 : ℝ) (ha : 3 / 2 ≤ ta) :
    sortSols [(⟨SOLMAX, 1 / 2 + Real.sqrt 3 / 2, 1, d0⟩ : Sol ℝ), ⟨SOLMAX, 1 / 2, 1, d1⟩,
        ⟨SOLMAX, 1 / 2 - Real.sqrt 3 / 2, 1, d2⟩, ⟨SOLMIN, ta, 1, d3⟩] =
      [⟨SOLMAX, 1 / 2 - Real.sqrt 3 / 2, 1, d2⟩, ⟨SOLMAX, 1 / 2, 1, d1⟩,
        ⟨SOLMAX, 1 / 2 + Real.sqrt 3 / 2, 1, d0⟩, ⟨SOLMIN, ta, 1, d3⟩] := by
  obtain ⟨b1, b2⟩ := sqrt_three_bounds
  have i1 : ¬ (ta < 1 / 2 - Real.sqrt 3 / 2) := by linarith
  have i2 : (1 / 2 - Real.sqrt 3 / 2 : ℝ) < 1 / 2 := by linarith
  have i3 : ¬ (ta < 1 / 2) := by linarith
  have i4 : (1 / 2 - Real.sqrt 3 / 2 : ℝ) < 1 / 2 + Real.sqrt 3 / 2 := by linarith
  have i5 : (1 / 2 : ℝ) < 1 / 2 + Real.sqrt 3 / 2 := by linarith
  have i6 : ¬ (ta < 1 / 2 + Real.sqrt 3 / 2) := by linarith
  simp only [sortSols, List.insertionSort, List.orderedInsert, Sol_less_than_t, i1, i2, i3, i4,
    i5, i6, not_true_eq_false, not_false_eq_true, if_true, if_false]

theorem scenario_sort_two (ta tb d0 d1 d2 d3 d4 : ℝ) (ha : 3 / 2 ≤ ta) (hb : -3 / 10 ≤ tb)
    (hb' : tb < 0) :
    sortSols [(⟨SOLMAX, 1 / 2 + Real.sqrt 3 / 2, 1, d0⟩ : Sol ℝ), ⟨SOLMAX, 1 / 2, 1, d1⟩,
        ⟨SOLMAX, 1 / 2 - Real.sqrt 3 / 2, 1, d2⟩, ⟨SOLMIN, ta, 1, d3⟩, ⟨SOLMIN, tb, 2, d4⟩] =
      [⟨SOLMAX, 1 / 2 - Real.sqrt 3 / 2, 1, d2⟩, ⟨SOLMIN, tb, 2, d4⟩, ⟨SOLMAX, 1 / 2, 1, d1⟩,
        ⟨SOLMAX, 1 / 2 + Real.sqrt 3 / 2, 1, d0⟩, ⟨SOLMIN, ta, 1, d3⟩] := by
  obtain ⟨b1, b2⟩ := sqrt_three_bounds
  have i0 : tb < ta := by linarith
  have i1 : ¬ (tb < 1 / 2 - Real.sqrt 3 / 2) := by linarith
  have i2 : (1 / 2 - Real.sqrt 3 / 2 : ℝ) < 1 / 2 := by linarith
  have i3 : ¬ (ta < 1 / 2) := by linarith
  have i4 : (1 / 2 - Real.sqrt 3 / 2 : ℝ) < 1 / 2 + Real.sqrt 3 / 2 := by linarith
  have i5 : (1 / 2 : ℝ) < 1 / 2 + Real.sqrt 3 / 2 := by linarith
  have i6 : ¬ (ta < 1 / 2 + Real.sqrt 3 / 2) := by linarith
  have i7 : tb < 1 / 2 := by linarith
  have i8 : tb < 1 / 2 + Real.sqrt 3 / 2 := by linarith
  simp only [sortSols, List.insertionSort, List.orderedInsert, Sol_less_than_t, i0, i1, i2, i3,
    i4, i5, i6, i7, i8, not_true_eq_false, not_false_eq_true, if_true, if_false]

theorem scenario_real_coeffs (kindCur kindNext : KeyframeType) (hk1 : kindCur ≠ KEYFRAME_NONE)
    (hk2 : kindCur ≠ KEYFRAME_CONSTANT) (hk3 : kindNext ≠ KEYFRAME_NONE) :
    (segmentSetup (0 : ℝ) 0 0 0 1 10 kindCur kindNext).coeffs = (0, 0, 30, -20) := by
  rw [segmentSetup_real_coeffs _ _ _ _ _ _ _ _ hk1 hk2 hk3]
  norm_num [hermiteToCubicCoeffs]

theorem tmod_one_two : (1 : Int).tmod 2 ≠ 0 := by decide

theorem tmod_two_two : ¬ (2 : Int).tmod 2 ≠ 0 := by decide

/-- The value `integrate_clamp` returns in Scenario C. -/
theorem scenario_integrate_clamp (vmin : ℝ) (kindCur kindNext : KeyframeType) (hv : vmin < 0)
    (hk1 : kindCur ≠ KEYFRAME_NONE) (hk2 : kindCur ≠ KEYFRAME_CONSTANT)
    (hk3 : kindNext ≠ KEYFRAME_NONE) :
    integrate_clamp realLibm 0 0 0 0 1 10 0 1 vmin 5 kindCur kindNext = 55 / 16 := by
  have ht := segmentSetup_times (0 : ℝ) 0 0 0 1 10 kindCur kindNext hk1 hk3
  have hc := scenario_real_coeffs kindCur kindNext hk1 hk2 hk3
  obtain ⟨b1, b2⟩ := sqrt_three_bounds
  have j1 : (1 / 2 - Real.sqrt 3 / 2 : ℝ) ≤ 0 := by linarith
  have j2 : ¬ ((1 / 2 : ℝ) ≤ 0) := by norm_num
  have j3 : (1 / 2 : ℝ) < 1 := by norm_num
  have j4 : ¬ ((1 / 2 + Real.sqrt 3 / 2 : ℝ) < 1) := by linarith
  unfold integrate_clamp
  simp only [hc, ht.1, ht.2, sub_self, zero_div, sub_zero, div_one]
  by_cases hD : isZero (cubicD ((0 : ℝ) - vmin) 0 30 (-20))
  · obtain ⟨ta, tb, ha, hb, hb', hs⟩ := scenario_sols_two vmin hv hD
    rw [hs, scenario_sort_two _ _ _ _ _ _ _ ha hb hb']
    simp only [statusAtT1, integrateSpans, statusUpdate, spanIntegral, j1, j2, j3, j4, hb'.le,
      if_true, if_false, tmod_one_two, tmod_two_two, ne_eq, not_true_eq_false,
      not_false_eq_true, cubicIntegrate, if_neg (by decide : ¬ SOLMAX = SOLMIN)]
    norm_num
  · obtain ⟨ta, ha, hs⟩ := scenario_sols_one vmin hv hD
    rw [hs, scenario_sort_one _ _ _ _ _ ha]
    simp only [statusAtT1, integrateSpans, statusUpdate, spanIntegral, j1, j2, j3, j4,
      if_true, if_false, tmod_one_two, ne_eq, not_true_eq_false,
      not_false_eq_true, cubicIntegrate, if_neg (by decide : ¬ SOLMAX = SOLMIN)]
    norm_num

/-- Claim C16. Scenario C: for the segment from `0` at time `0` to `10` at time `1` with both
end derivatives `0` (a current kind that is neither `KEYFRAME_NONE` nor `KEYFRAME_CONSTANT`, a
next kind other than `KEYFRAME_NONE`), the upper bound `5` and any lower bound `vmin < 0`,
`integrate_clamp` over `[0, 1]` is strictly less than `integrate` over `[0, 1]`, which
is `5`, and equals the split at the time `1/2` where the segment has the value `5`: the
integral of the segment over `[0, 1/2]` plus `5 * (1/2)`, that is `3.4375`. -/
theorem integrate_clamp_scenario (vmin : ℝ) (kindCur kindNext : KeyframeType) (hv : vmin < 0)
    (hk1 : kindCur ≠ KEYFRAME_NONE) (hk2 : kindCur ≠ KEYFRAME_CONSTANT)
    (hk3 : kindNext ≠ KEYFRAME_NONE) :
    integrate_clamp realLibm 0 0 0 0 1 10 0 1 vmin 5 kindCur kindNext <
        integrate 0 0 0 0 1 10 0 1 kindCur kindNext ∧
      integrate (0 : ℝ) 0 0 0 1 10 0 1 kindCur kindNext = 5 ∧
      interpolate (0 : ℝ) 0 0 0 1 10 (1 / 2) kindCur kindNext = 5 ∧
      integrate_clamp realLibm 0 0 0 0 1 10 0 1 vmin 5 kindCur kindNext =
        (∫ q in (0 : ℝ)..1 / 2, interpolate 0 0 0 0 1 10 q kindCur kindNext) + 5 * (1 / 2) ∧
      integrate_clamp realLibm 0 0 0 0 1 10 0 1 vmin 5 kindCur kindNext = 3.4375 := by
  have ht := segmentSetup_times (0 : ℝ) 0 0 0 1 10 kindCur kindNext hk1 hk3
  have hc := scenario_real_coeffs kindCur kindNext hk1 hk2 hk3
  have hclamp := scenario_integrate_clamp vmin kindCur kindNext hv hk1 hk2 hk3
  have hint : ∀ b : ℝ, integrate (0 : ℝ) 0 0 0 1 10 0 b kindCur kindNext
      = 10 * b ^ 3 - 5 * b ^ 4 := by
    intro b
    rw [integrate_eq_sub, hc, ht.1, ht.2, cubicIntegrate_eq, cubicIntegrate_eq]
    ring
  have hval : interpolate (0 : ℝ) 0 0 0 1 10 (1 / 2) kindCur kindNext = 5 := by
    simp only [interpolate, hc, ht.1, ht.2, cubicEval_eq]
    norm_num
  have hhalf : ∫ q in (0 : ℝ)..1 / 2, interpolate 0 0 0 0 1 10 q kindCur kindNext
      = 15 / 16 := by
    simp only [interpolate, hc, ht.1, ht.2]
    rw [integral_cubicEval_normalized _ _ _ _ _ _ _ _ (by norm_num), cubicIntegrate_eq,
      cubicIntegrate_eq]
    norm_num
  refine ⟨?_, ?_, hval, ?_, ?_⟩
  · rw [hclamp, hint]; norm_num
  · rw [hint]; norm_num
  · rw [hclamp, hhalf]; norm_num
  · rw [hclamp]; norm_num

/-- Claim C16 with the lower bound `-1` between two smooth keyframes. -/
theorem integrate_clamp_scenario_witness :
    (-1 : ℝ) < 0 ∧
      integrate_clamp realLibm 0 0 0 0 1 10 0 1 (-1) 5 KEYFRAME_SMOOTH KEYFRAME_SMOOTH <
        integrate 0 0 0 0 1 10 0 1 KEYFRAME_SMOOTH KEYFRAME_SMOOTH ∧
      integrate_clamp realLibm 0 0 0 0 1 10 0 1 (-1) 5 KEYFRAME_SMOOTH KEYFRAME_SMOOTH
        = 3.4375 :=
  have w := integrate_clamp_scenario (-1) KEYFRAME_SMOOTH KEYFRAME_SMOOTH (by norm_num)
    (by decide) (by decide) (by decide)
  ⟨by norm_num, w.1, w.2.2.2.2⟩

/-! ### `autoComputeDerivatives`: the cubic, linear and flat rules, and the boundary -/

/-- Claim C21. For the current kind `KEYFRAME_CUBIC` with both neighbours present and
`tprev < tcur < tnext`, in each of the four cases (previous keyframe linear, next keyframe
linear, both, neither) the returned left derivative equals the returned right derivative. -/
theorem autoComputeDerivatives_cubic_continuous (kindPrev kindNext : KeyframeType)
    (tprev vprev tcur vcur tnext vnext vprevDerivRight vnextDerivLeft : ℝ)
    (hp : kindPrev ≠ KEYFRAME_NONE) (hn : kindNext ≠ KEYFRAME_NONE)
    (_h1 : tprev < tcur) (_h2 : tcur < tnext) :
    ∃ d : Derivatives ℝ,
      autoComputeDerivatives kindPrev KEYFRAME_CUBIC kindNext tprev vprev tcur vcur tnext
        vnext vprevDerivRight vnextDerivLeft = some d ∧
      d.vcurDerivLeft = d.vcurDerivRight := by
  obtain ⟨N, c, hd, _⟩ := autoComputeDerivatives_cubic kindPrev kindNext tprev vprev tcur
    vcur tnext vnext vprevDerivRight vnextDerivLeft hp hn
  refine ⟨_, hd, ?_⟩
  have e3 : -tnext + tcur = -(tnext - tcur) := by ring
  simp only [e3, div_neg, neg_div, div_div]
  rw [show (tnext - tcur) * c * (tcur - tprev) = (tcur - tprev) * c * (tnext - tcur) by ring]

/-- Claim C21 in the four cases, on the keyframes `0` at time `0`, `1` at time `1` and `0` at
time `3` with neighbour derivatives `1` and `2`. -/
theorem autoComputeDerivatives_cubic_continuous_witness :
    (0 : ℝ) < 1 ∧ (1 : ℝ) < 3 ∧
      (∃ d : Derivatives ℝ,
        autoComputeDerivatives KEYFRAME_LINEAR KEYFRAME_CUBIC KEYFRAME_LINEAR (0 : ℝ) 0 1 1 3 0
          1 2 = some d ∧ d.vcurDerivLeft = d.vcurDerivRight) ∧
      (∃ d : Derivatives ℝ,
        autoComputeDerivatives KEYFRAME_LINEAR KEYFRAME_CUBIC KEYFRAME_SMOOTH (0 : ℝ) 0 1 1 3 0
          1 2 = some d ∧ d.vcurDerivLeft = d.vcurDerivRight) ∧
      (∃ d : Derivatives ℝ,
        autoComputeDerivatives KEYFRAME_SMOOTH KEYFRAME_CUBIC KEYFRAME_LINEAR (0 : ℝ) 0 1 1 3 0
          1 2 = some d ∧ d.vcurDerivLeft = d.vcurDerivRight) ∧
      (∃ d : Derivatives ℝ,
        autoComputeDerivatives KEYFRAME_SMOOTH KEYFRAME_CUBIC KEYFRAME_SMOOTH (0 : ℝ) 0 1 1 3 0
          1 2 = some d ∧ d.vcurDerivLeft = d.vcurDerivRight) :=
  ⟨by norm_num, by norm_num,
    autoComputeDerivatives_cubic_continuous KEYFRAME_LINEAR KEYFRAME_LINEAR 0 0 1 1 3 0 1 2
      (by decide) (by decide) (by norm_num) (by norm_num),
    autoComputeDerivatives_cubic_continuous KEYFRAME_LINEAR KEYFRAME_SMOOTH 0 0 1 1 3 0 1 2
      (by decide) (by decide) (by norm_num) (by norm_num),
    autoComputeDerivatives_cubic_continuous KEYFRAME_SMOOTH KEYFRAME_LINEAR 0 0 1 1 3 0 1 2
      (by decide) (by decide) (by norm_num) (by norm_num),
    autoComputeDerivatives_cubic_continuous KEYFRAME_SMOOTH KEYFRAME_SMOOTH 0 0 1 1 3 0 1 2
      (by decide) (by decide) (by norm_num) (by norm_num)⟩

/-- The case `KEYFRAME_LINEAR` of `autoComputeDerivatives` between two keyframes. -/
theorem autoComputeDerivatives_linear (kindPrev kindNext : KeyframeType)
    (tprev vprev tcur vcur tnext vnext vprevDerivRight vnextDerivLeft : ℝ)
    (hp : kindPrev ≠ KEYFRAME_NONE) (hn : kindNext ≠ KEYFRAME_NONE) :
    autoComputeDerivatives kindPrev KEYFRAME_LINEAR kindNext tprev vprev tcur vcur tnext
        vnext vprevDerivRight vnextDerivLeft =
      some
        { vcurDerivRight :=
            (if kindNext = KEYFRAME_LINEAR then -vcur + vnext
              else -3 / 2 * vcur + 3 / 2 * vnext - vnextDerivLeft * (tnext - tcur) / 2) /
              (tnext - tcur)
          vcurDerivLeft :=
            (if kindPrev = KEYFRAME_LINEAR then -vprev + vcur
              else -3 / 2 * vprev - vprevDerivRight * (tcur - tprev) / 2 + 3 / 2 * vcur) /
              (tcur - tprev) } := by
  have hor : ¬ (kindPrev = KEYFRAME_NONE ∨ kindNext = KEYFRAME_NONE) := by
    rintro (h | h)
    · exact hp h
    · exact hn h
  simp only [autoComputeDerivatives, if_neg hp, if_neg hn, if_neg hor, Bool.false_eq_true,
    if_false]

/-- The derivatives `autoComputeDerivatives` returns when the next keyframe is absent and the
previous one is present: the linear rule on the left, and on the right its value when the
current kind is `KEYFRAME_CATMULL_ROM` or `KEYFRAME_CUBIC`, zero otherwise. -/
theorem autoComputeDerivatives_next_absent (kindPrev kindCur : KeyframeType)
    (tprev vprev tcur vcur tnext vnext vprevDerivRight vnextDerivLeft : ℝ)
    (hp : kindPrev ≠ KEYFRAME_NONE) :
    autoComputeDerivatives kindPrev kindCur KEYFRAME_NONE tprev vprev tcur vcur tnext
        vnext vprevDerivRight vnextDerivLeft =
      some
        { vcurDerivRight :=
            if kindCur = KEYFRAME_CATMULL_ROM ∨ kindCur = KEYFRAME_CUBIC then
              (if kindPrev = KEYFRAME_LINEAR then -vprev + vcur
                else -3 / 2 * vprev - vprevDerivRight * (tcur - tprev) / 2 + 3 / 2 * vcur) /
                (tcur - tprev)
            else 0
          vcurDerivLeft :=
            (if kindPrev = KEYFRAME_LINEAR then -vprev + vcur
              else -3 / 2 * vprev - vprevDerivRight * (tcur - tprev) / 2 + 3 / 2 * vcur) /
              (tcur - tprev) } := by
  have e : tcur + 1 - tcur = 1 := by ring
  by_cases hk : kindCur = KEYFRAME_CATMULL_ROM ∨ kindCur = KEYFRAME_CUBIC
  · simp only [autoComputeDerivatives, if_neg hp, or_true, if_true, if_pos hk, decide_eq_true_eq, e,
      div_one]
  · simp only [autoComputeDerivatives, if_neg hp, or_true, if_true, if_neg hk, decide_eq_true_eq,
      e, div_one, Bool.false_eq_true, if_false, zero_div]

/-- The derivatives `autoComputeDerivatives` returns when the previous keyframe is absent and
the next one is present: the linear rule on the right, and on the left its value when the
current kind is `KEYFRAME_CATMULL_ROM` or `KEYFRAME_CUBIC`, zero otherwise. -/
theorem autoComputeDerivatives_prev_absent (kindCur kindNext : KeyframeType)
    (tprev vprev tcur vcur tnext vnext vprevDerivRight vnextDerivLeft : ℝ)
    (hn : kindNext ≠ KEYFRAME_NONE) :
    autoComputeDerivatives KEYFRAME_NONE kindCur kindNext tprev vprev tcur vcur tnext
        vnext vprevDerivRight vnextDerivLeft =
      some
        { vcurDerivRight :=
            (if kindNext = KEYFRAME_LINEAR then -vcur + vnext
              else -3 / 2 * vcur + 3 / 2 * vnext - vnextDerivLeft * (tnext - tcur) / 2) /
              (tnext - tcur)
          vcurDerivLeft :=
            if kindCur = KEYFRAME_CATMULL_ROM ∨ kindCur = KEYFRAME_CUBIC then
              (if kindNext = KEYFRAME_LINEAR then -vcur + vnext
                else -3 / 2 * vcur + 3 / 2 * vnext - vnextDerivLeft * (tnext - tcur) / 2) /
                (tnext - tcur)
            else 0 } := by
  have e : tcur - (tcur - 1) = 1 := by ring
  by_cases hk : kindCur = KEYFRAME_CATMULL_ROM ∨ kindCur = KEYFRAME_CUBIC
  · simp only [autoComputeDerivatives, if_neg hn, true_or, if_true, if_pos hk, decide_eq_true_eq, e,
      div_one]
  · simp only [autoComputeDerivatives, if_neg hn, true_or, if_true, if_neg hk, decide_eq_true_eq,
      e, div_one, Bool.false_eq_true, if_false, zero_div]

/-- With no neighbour at all, `autoComputeDerivatives` returns zero derivatives. -/
theorem autoComputeDerivatives_both_absent (kindCur : KeyframeType)
    (tprev vprev tcur vcur tnext vnext vprevDerivRight vnextDerivLeft : ℝ) :
    autoComputeDerivatives KEYFRAME_NONE kindCur KEYFRAME_NONE tprev vprev tcur vcur tnext
        vnext vprevDerivRight vnextDerivLeft =
      some { vcurDerivLeft := 0, vcurDerivRight := 0 } := by
  by_cases hk : kindCur = KEYFRAME_CATMULL_ROM ∨ kindCur = KEYFRAME_CUBIC
  · simp only [autoComputeDerivatives, true_or, if_true, if_pos hk, decide_eq_true_eq, zero_div]
  · simp only [autoComputeDerivatives, true_or, if_true, if_neg hk, decide_eq_true_eq,
      Bool.false_eq_true, if_false, zero_div]

/-- The cases `KEYFRAME_HORIZONTAL` and `KEYFRAME_CONSTANT` of `autoComputeDerivatives`
between two keyframes. -/
theorem autoComputeDerivatives_flat (kindPrev kindCur kindNext : KeyframeType)
    (tprev vprev tcur vcur tnext vnext vprevDerivRight vnextDerivLeft : ℝ)
    (hk : kindCur = KEYFRAME_HORIZONTAL ∨ kindCur = KEYFRAME_CONSTANT)
    (hp : kindPrev ≠ KEYFRAME_NONE) (hn : kindNext ≠ KEYFRAME_NONE) :
    autoComputeDerivatives kindPrev kindCur kindNext tprev vprev tcur vcur tnext
        vnext vprevDerivRight vnextDerivLeft =
      some { vcurDerivLeft := 0, vcurDerivRight := 0 } := by
  have hor : ¬ (kindPrev = KEYFRAME_NONE ∨ kindNext = KEYFRAME_NONE) := by
    rintro (h | h)
    · exact hp h
    · exact hn h
  rcases hk with rfl | rfl <;>
    simp only [autoComputeDerivatives, if_neg hp, if_neg hn, if_neg hor, zero_div]

/-- Claim C22. For the current kind `KEYFRAME_LINEAR` with both neighbours present and
`tprev < tcur < tnext`, the returned right derivative is the chord slope
`(vnext - vcur) / (tnext - tcur)` when the next kind is `KEYFRAME_LINEAR`, and otherwise
`3 (vnext - vcur) / (2 (tnext - tcur)) - vnextDerivLeft / 2`, which is the one value for
which the following Hermite segment `(vcur, right, vnextDerivLeft, vnext)` has zero second
derivative at `tcur`; symmetrically the left derivative is `(vcur - vprev) / (tcur - tprev)`
when the previous kind is `KEYFRAME_LINEAR`, and otherwise
`3 (vcur - vprev) / (2 (tcur - tprev)) - vprevDerivRight / 2`, the one value for which the
preceding segment has zero second derivative at `tcur`. -/
theorem autoComputeDerivatives_linear_spec (kindPrev kindNext : KeyframeType)
    (tprev vprev tcur vcur tnext vnext vprevDerivRight vnextDerivLeft : ℝ)
    (hp : kindPrev ≠ KEYFRAME_NONE) (hn : kindNext ≠ KEYFRAME_NONE)
    (h1 : tprev < tcur) (h2 : tcur < tnext) :
    ∃ d : Derivatives ℝ,
      autoComputeDerivatives kindPrev KEYFRAME_LINEAR kindNext tprev vprev tcur vcur tnext
        vnext vprevDerivRight vnextDerivLeft = some d ∧
      (kindNext = KEYFRAME_LINEAR → d.vcurDerivRight = (vnext - vcur) / (tnext - tcur)) ∧
      (kindNext ≠ KEYFRAME_LINEAR →
        d.vcurDerivRight = 3 * (vnext - vcur) / (2 * (tnext - tcur)) - vnextDerivLeft / 2 ∧
        ∀ x : ℝ, segmentDerive2 tcur vcur x vnextDerivLeft tnext vnext tcur = 0 ↔
          x = d.vcurDerivRight) ∧
      (kindPrev = KEYFRAME_LINEAR → d.vcurDerivLeft = (vcur - vprev) / (tcur - tprev)) ∧
      (kindPrev ≠ KEYFRAME_LINEAR →
        d.vcurDerivLeft = 3 * (vcur - vprev) / (2 * (tcur - tprev)) - vprevDerivRight / 2 ∧
        ∀ x : ℝ, segmentDerive2 tprev vprev vprevDerivRight x tcur vcur tcur = 0 ↔
          x = d.vcurDerivLeft) := by
  have e1 : tnext - tcur ≠ 0 := by linarith [sub_pos.mpr h2]
  have e2 : tcur - tprev ≠ 0 := by linarith [sub_pos.mpr h1]
  refine ⟨_, autoComputeDerivatives_linear kindPrev kindNext tprev vprev tcur vcur tnext vnext
    vprevDerivRight vnextDerivLeft hp hn, ?_, ?_, ?_, ?_⟩
  · intro hk
    simp only [if_pos hk]
    ring
  · intro hk
    simp only [if_neg hk]
    have hr : (-3 / 2 * vcur + 3 / 2 * vnext - vnextDerivLeft * (tnext - tcur) / 2) /
        (tnext - tcur) = 3 * (vnext - vcur) / (2 * (tnext - tcur)) - vnextDerivLeft / 2 := by
      field_simp
      ring
    refine ⟨hr, fun x => ?_⟩
    rw [hr, segmentDerive2_start _ _ _ _ _ _ h2, div_eq_zero_iff]
    constructor
    · rintro (h | h)
      · have h' : 6 * (vnext - vcur) / (tnext - tcur) = 4 * x + 2 * vnextDerivLeft := by
          linarith
        have : 3 * (vnext - vcur) / (2 * (tnext - tcur)) =
            (6 * (vnext - vcur) / (tnext - tcur)) / 4 := by
          field_simp
          ring
        rw [this, h']
        ring
      · exact absurd h e1
    · intro hx
      left
      rw [hx]
      field_simp
      ring
  · intro hk
    simp only [if_pos hk]
    ring
  · intro hk
    simp only [if_neg hk]
    have hl : (-3 / 2 * vprev - vprevDerivRight * (tcur - tprev) / 2 + 3 / 2 * vcur) /
        (tcur - tprev) = 3 * (vcur - vprev) / (2 * (tcur - tprev)) - vprevDerivRight / 2 := by
      field_simp
      ring
    refine ⟨hl, fun x => ?_⟩
    rw [hl, segmentDerive2_end _ _ _ _ _ _ h1, div_eq_zero_iff]
    constructor
    · rintro (h | h)
      · have h' : 6 * (vcur - vprev) / (tcur - tprev) = 2 * vprevDerivRight + 4 * x := by
          have e : -6 * (vcur - vprev) / (tcur - tprev) =
              -(6 * (vcur - vprev) / (tcur - tprev)) := by ring
          rw [e] at h
          linarith
        have : 3 * (vcur - vprev) / (2 * (tcur - tprev)) =
            (6 * (vcur - vprev) / (tcur - tprev)) / 4 := by
          field_simp
          ring
        rw [this, h']
        ring
      · exact absurd h e2
    · intro hx
      left
      rw [hx]
      field_simp
      ring

/-- Claim C22 on the keyframes `0` at time `0`, `1` at time `1` and `4` at time `3`, with a
linear previous keyframe and a smooth next keyframe whose left derivative is `1`: the left
derivative is the chord slope `1` and the right derivative is `3 * 3 / (2 * 2) - 1 / 2`. -/
theorem autoComputeDerivatives_linear_spec_witness :
    (0 : ℝ) < 1 ∧ (1 : ℝ) < 3 ∧
      ∃ d : Derivatives ℝ,
        autoComputeDerivatives KEYFRAME_LINEAR KEYFRAME_LINEAR KEYFRAME_SMOOTH (0 : ℝ) 0 1 1 3 4
          2 1 = some d ∧
        d.vcurDerivLeft = (1 - 0) / (1 - 0) ∧
        d.vcurDerivRight = 3 * (4 - 1) / (2 * (3 - 1)) - 1 / 2 ∧
        segmentDerive2 (1 : ℝ) 1 d.vcurDerivRight 1 3 4 1 = 0 := by
  obtain ⟨d, hd, _, h2, h3, _⟩ := autoComputeDerivatives_linear_spec KEYFRAME_LINEAR
    KEYFRAME_SMOOTH 0 0 1 1 3 4 2 1 (by decide) (by decide) (by norm_num) (by norm_num)
  exact ⟨by norm_num, by norm_num, d, hd, h3 rfl, (h2 (by decide)).1,
    ((h2 (by decide)).2 _).mpr rfl⟩

/-- Claim C23 fails as stated: with no previous keyframe, the current kind
`KEYFRAME_HORIZONTAL` before a linear keyframe gets the chord slope on the right. -/
theorem autoComputeDerivatives_horizontal_counterexample :
    autoComputeDerivatives KEYFRAME_NONE KEYFRAME_HORIZONTAL KEYFRAME_LINEAR (0 : ℝ) 0 1 1 2 3
        0 0 = some { vcurDerivLeft := 0, vcurDerivRight := 2 } := by
  rw [autoComputeDerivatives_prev_absent _ _ _ _ _ _ _ _ _ _ (by decide)]
  simp only [if_true, if_neg (by decide : ¬ (KEYFRAME_HORIZONTAL = KEYFRAME_CATMULL_ROM ∨
    KEYFRAME_HORIZONTAL = KEYFRAME_CUBIC))]
  norm_num

/-- Claim C23, amended. Whenever the current kind is `KEYFRAME_HORIZONTAL` or
`KEYFRAME_CONSTANT` and both neighbours are present, or both are absent,
`autoComputeDerivatives` returns `0` for both the left and the right derivative, for every
combination of neighbour kinds, times and values; when one neighbour is absent the
derivative on that side is `0` and the one on the other side is that of the linear rule. -/
theorem autoComputeDerivatives_flat_spec (kindPrev kindCur kindNext : KeyframeType)
    (tprev vprev tcur vcur tnext vnext vprevDerivRight vnextDerivLeft : ℝ)
    (hk : kindCur = KEYFRAME_HORIZONTAL ∨ kindCur = KEYFRAME_CONSTANT) :
    ((kindPrev ≠ KEYFRAME_NONE ∧ kindNext ≠ KEYFRAME_NONE) ∨
        (kindPrev = KEYFRAME_NONE ∧ kindNext = KEYFRAME_NONE) →
      autoComputeDerivatives kindPrev kindCur kindNext tprev vprev tcur vcur tnext vnext
        vprevDerivRight vnextDerivLeft = some { vcurDerivLeft := 0, vcurDerivRight := 0 }) ∧
    (kindPrev = KEYFRAME_NONE → kindNext ≠ KEYFRAME_NONE →
      ∃ d dl : Derivatives ℝ,
        autoComputeDerivatives kindPrev kindCur kindNext tprev vprev tcur vcur tnext vnext
          vprevDerivRight vnextDerivLeft = some d ∧
        autoComputeDerivatives kindPrev KEYFRAME_LINEAR kindNext tprev vprev tcur vcur tnext
          vnext vprevDerivRight vnextDerivLeft = some dl ∧
        d.vcurDerivLeft = 0 ∧ d.vcurDerivRight = dl.vcurDerivRight) ∧
    (kindPrev ≠ KEYFRAME_NONE → kindNext = KEYFRAME_NONE →
      ∃ d dl : Derivatives ℝ,
        autoComputeDerivatives kindPrev kindCur kindNext tprev vprev tcur vcur tnext vnext
          vprevDerivRight vnextDerivLeft = some d ∧
        autoComputeDerivatives kindPrev KEYFRAME_LINEAR kindNext tprev vprev tcur vcur tnext
          vnext vprevDerivRight vnextDerivLeft = some dl ∧
        d.vcurDerivRight = 0 ∧ d.vcurDerivLeft = dl.vcurDerivLeft) := by
  have hcr : ¬ (kindCur = KEYFRAME_CATMULL_ROM ∨ kindCur = KEYFRAME_CUBIC) := by
    rcases hk with rfl | rfl <;> decide
  refine ⟨?_, ?_, ?_⟩
  · rintro (⟨hp, hn⟩ | ⟨rfl, rfl⟩)
    · exact autoComputeDerivatives_flat _ _ _ _ _ _ _ _ _ _ _ hk hp hn
    · exact autoComputeDerivatives_both_absent _ _ _ _ _ _ _ _ _
  · rintro rfl hn
    refine ⟨_, _, autoComputeDerivatives_prev_absent _ _ _ _ _ _ _ _ _ _ hn,
      autoComputeDerivatives_prev_absent _ _ _ _ _ _ _ _ _ _ hn, ?_, rfl⟩
    simp only [if_neg hcr]
  · rintro hp rfl
    refine ⟨_, _, autoComputeDerivatives_next_absent _ _ _ _ _ _ _ _ _ _ hp,
      autoComputeDerivatives_next_absent _ _ _ _ _ _ _ _ _ _ hp, ?_, rfl⟩
    simp only [if_neg hcr]

/-- Claim C23, amended, between two smooth keyframes and with no neighbour at all. -/
theorem autoComputeDerivatives_flat_spec_witness :
    autoComputeDerivatives KEYFRAME_SMOOTH KEYFRAME_HORIZONTAL KEYFRAME_SMOOTH (0 : ℝ) 0 1 1 2 3
        4 5 = some { vcurDerivLeft := 0, vcurDerivRight := 0 } ∧
      autoComputeDerivatives KEYFRAME_NONE KEYFRAME_CONSTANT KEYFRAME_NONE (0 : ℝ) 0 1 1 2 3
        4 5 = some { vcurDerivLeft := 0, vcurDerivRight := 0 } :=
  ⟨(autoComputeDerivatives_flat_spec KEYFRAME_SMOOTH KEYFRAME_HORIZONTAL KEYFRAME_SMOOTH 0 0 1 1
      2 3 4 5 (Or.inl rfl)).1 (Or.inl ⟨by decide, by decide⟩),
    (autoComputeDerivatives_flat_spec KEYFRAME_NONE KEYFRAME_CONSTANT KEYFRAME_NONE 0 0 1 1
      2 3 4 5 (Or.inr rfl)).1 (Or.inr ⟨rfl, rfl⟩)⟩

/-- Claim C24. Boundary propagation: when exactly one neighbour is absent and the requested
current kind is `KEYFRAME_CATMULL_ROM` or `KEYFRAME_CUBIC`, `autoComputeDerivatives` returns
a left derivative equal to the right derivative, both equal to the slope that the linear rule
computes on the side that has a neighbour (the chord slope next to a linear keyframe, and
otherwise the slope with zero second derivative); when both neighbours are absent both
derivatives are `0`, whatever the current kind is. -/
theorem autoComputeDerivatives_boundary (kindPrev kindCur kindNext : KeyframeType)
    (tprev vprev tcur vcur tnext vnext vprevDerivRight vnextDerivLeft : ℝ)
    (hk : kindCur = KEYFRAME_CATMULL_ROM ∨ kindCur = KEYFRAME_CUBIC) :
    (kindPrev ≠ KEYFRAME_NONE → kindNext = KEYFRAME_NONE →
      ∃ d dl : Derivatives ℝ,
        autoComputeDerivatives kindPrev kindCur kindNext tprev vprev tcur vcur tnext vnext
          vprevDerivRight vnextDerivLeft = some d ∧
        autoComputeDerivatives kindPrev KEYFRAME_LINEAR kindNext tprev vprev tcur vcur tnext
          vnext vprevDerivRight vnextDerivLeft = some dl ∧
        d.vcurDerivLeft = d.vcurDerivRight ∧ d.vcurDerivRight = dl.vcurDerivLeft ∧
        (tprev < tcur →
          dl.vcurDerivLeft =
            if kindPrev = KEYFRAME_LINEAR then (vcur - vprev) / (tcur - tprev)
            else 3 * (vcur - vprev) / (2 * (tcur - tprev)) - vprevDerivRight / 2)) ∧
    (kindPrev = KEYFRAME_NONE → kindNext ≠ KEYFRAME_NONE →
      ∃ d dl : Derivatives ℝ,
        autoComputeDerivatives kindPrev kindCur kindNext tprev vprev tcur vcur tnext vnext
          vprevDerivRight vnextDerivLeft = some d ∧
        autoComputeDerivatives kindPrev KEYFRAME_LINEAR kindNext tprev vprev tcur vcur tnext
          vnext vprevDerivRight vnextDerivLeft = some dl ∧
        d.vcurDerivLeft = d.vcurDerivRight ∧ d.vcurDerivLeft = dl.vcurDerivRight ∧
        (tcur < tnext →
          dl.vcurDerivRight =
            if kindNext = KEYFRAME_LINEAR then (vnext - vcur) / (tnext - tcur)
            else 3 * (vnext - vcur) / (2 * (tnext - tcur)) - vnextDerivLeft / 2)) ∧
    (∀ k : KeyframeType,
      autoComputeDerivatives KEYFRAME_NONE k KEYFRAME_NONE tprev vprev tcur vcur tnext vnext
        vprevDerivRight vnextDerivLeft = some { vcurDerivLeft := 0, vcurDerivRight := 0 }) := by
  refine ⟨?_, ?_, fun k => autoComputeDerivatives_both_absent _ _ _ _ _ _ _ _ _⟩
  · rintro hp rfl
    refine ⟨_, _, autoComputeDerivatives_next_absent _ _ _ _ _ _ _ _ _ _ hp,
      autoComputeDerivatives_next_absent _ _ _ _ _ _ _ _ _ _ hp, ?_, ?_, ?_⟩
    · simp only [if_pos hk]
    · simp only [if_pos hk]
    · intro h1
      have e2 : tcur - tprev ≠ 0 := by linarith [sub_pos.mpr h1]
      by_cases hl : kindPrev = KEYFRAME_LINEAR
      · simp only [if_pos hl]
        ring
      · simp only [if_neg hl]
        field_simp
        ring
  · rintro rfl hn
    refine ⟨_, _, autoComputeDerivatives_prev_absent _ _ _ _ _ _ _ _ _ _ hn,
      autoComputeDerivatives_prev_absent _ _ _ _ _ _ _ _ _ _ hn, ?_, ?_, ?_⟩
    · simp only [if_pos hk]
    · simp only [if_pos hk]
    · intro h2
      have e1 : tnext - tcur ≠ 0 := by linarith [sub_pos.mpr h2]
      by_cases hl : kindNext = KEYFRAME_LINEAR
      · simp only [if_pos hl]
        ring
      · simp only [if_neg hl]
        field_simp
        ring

/-- Claim C24 at the last keyframe `3` at time `2` after a linear keyframe `1` at time `0`,
and at a first keyframe `1` at time `0` before a smooth keyframe `3` at time `2` whose left
derivative is `1`. -/
theorem autoComputeDerivatives_boundary_witness :
    autoComputeDerivatives KEYFRAME_LINEAR KEYFRAME_CUBIC KEYFRAME_NONE (0 : ℝ) 1 2 3 5 7 0 0 =
        some { vcurDerivLeft := 1, vcurDerivRight := 1 } ∧
      autoComputeDerivatives KEYFRAME_NONE KEYFRAME_CATMULL_ROM KEYFRAME_SMOOTH (-3 : ℝ) 0 0 1 2 3
        0 1 = some { vcurDerivLeft := 1, vcurDerivRight := 1 } := by
  obtain ⟨d, dl, hd, _, h1, h2, h3⟩ :=
    (autoComputeDerivatives_boundary KEYFRAME_LINEAR KEYFRAME_CUBIC KEYFRAME_NONE 0 1 2 3 5 7 0 0
      (Or.inr rfl)).1 (by decide) rfl
  obtain ⟨d', dl', hd', _, h1', h2', h3'⟩ :=
    (autoComputeDerivatives_boundary KEYFRAME_NONE KEYFRAME_CATMULL_ROM KEYFRAME_SMOOTH (-3) 0 0 1
      2 3 0 1 (Or.inl rfl)).2.1 rfl (by decide)
  have e := h3 (by norm_num)
  have e' := h3' (by norm_num)
  rw [if_pos rfl] at e
  rw [if_neg (by decide)] at e'
  have r : d.vcurDerivRight = 1 := by rw [h2, e]; norm_num
  have r' : d'.vcurDerivLeft = 1 := by rw [h2', e']; norm_num
  have l : d.vcurDerivLeft = 1 := by rw [h1, r]
  have l' : d'.vcurDerivRight = 1 := by rw [← h1', r']
  refine ⟨?_, ?_⟩
  · rw [hd]
    cases d
    simp only [Option.some.injEq, Derivatives.mk.injEq] at *
    exact ⟨l, r⟩
  · rw [hd']
    cases d'
    simp only [Option.some.injEq, Derivatives.mk.injEq] at *
    exact ⟨r', l'⟩

/-! ### The smooth rule scales both tangents by one factor -/

theorem smoothClampPrev_scale (vprev vcur P1 Q2 : ℝ) :
    ∃ k : ℝ, 0 ≤ k ∧ k ≤ 1 ∧
      (smoothClampPrev vprev vcur vcur vcur P1 Q2).1 - vcur = k * (P1 - vcur) ∧
      vcur - (smoothClampPrev vprev vcur vcur vcur P1 Q2).2 = k * (vcur - Q2) := by
  unfold smoothClampPrev
  by_cases h : Q2 < min vprev vcur ∨ Q2 > max vprev vcur
  · simp only [if_pos h]
    have hv1 : min vprev vcur ≤ vcur := min_le_right _ _
    have hv2 : vcur ≤ max vprev vcur := le_max_right _ _
    have hmM : min vprev vcur ≤ max vprev vcur := min_le_max
    generalize min vprev vcur = m at *
    generalize max vprev vcur = M at *
    have hne : vcur - Q2 ≠ 0 := by
      rcases h with h | h
      · linarith
      · intro e; linarith
    have hk : 0 ≤ (vcur - max m (min Q2 M)) / (vcur - Q2) ∧
        (vcur - max m (min Q2 M)) / (vcur - Q2) ≤ 1 := by
      rcases h with h | h
      · have e : max m (min Q2 M) = m := by
          rw [min_eq_left (by linarith), max_eq_left h.le]
        rw [e]
        have hpos : 0 < vcur - Q2 := by linarith
        exact ⟨div_nonneg (by linarith) hpos.le, by rw [div_le_one hpos]; linarith⟩
      · have e : max m (min Q2 M) = M := by
          rw [min_eq_right h.le, max_eq_right hmM]
        rw [e]
        have hneg : vcur - Q2 < 0 := by linarith
        exact ⟨div_nonneg_of_nonpos (by linarith) hneg.le,
          by rw [div_le_one_of_neg hneg]; linarith⟩
    refine ⟨(vcur - max m (min Q2 M)) / (vcur - Q2), hk.1, hk.2, ?_, ?_⟩
    · field_simp
      ring
    · field_simp
  · simp only [if_neg h]
    exact ⟨1, zero_le_one, le_refl _, by ring, by ring⟩

theorem smoothClampNext_scale (vcur vnext P1 Q2 : ℝ) :
    ∃ k : ℝ, 0 ≤ k ∧ k ≤ 1 ∧
      (smoothClampNext vcur vnext vcur vcur P1 Q2).1 - vcur = k * (P1 - vcur) ∧
      vcur - (smoothClampNext vcur vnext vcur vcur P1 Q2).2 = k * (vcur - Q2) := by
  unfold smoothClampNext
  by_cases h : P1 < min vcur vnext ∨ P1 > max vcur vnext
  · simp only [if_pos h]
    have hv1 : min vcur vnext ≤ vcur := min_le_left _ _
    have hv2 : vcur ≤ max vcur vnext := le_max_left _ _
    have hmM : min vcur vnext ≤ max vcur vnext := min_le_max
    generalize min vcur vnext = m at *
    generalize max vcur vnext = M at *
    have hne : P1 - vcur ≠ 0 := by
      rcases h with h | h
      · intro e; linarith
      · intro e; linarith
    have hk : 0 ≤ (max m (min P1 M) - vcur) / (P1 - vcur) ∧
        (max m (min P1 M) - vcur) / (P1 - vcur) ≤ 1 := by
      rcases h with h | h
      · have e : max m (min P1 M) = m := by
          rw [min_eq_left (by linarith), max_eq_left h.le]
        rw [e]
        have hneg : P1 - vcur < 0 := by linarith
        exact ⟨div_nonneg_of_nonpos (by linarith) hneg.le,
          by rw [div_le_one_of_neg hneg]; linarith⟩
      · have e : max m (min P1 M) = M := by
          rw [min_eq_right h.le, max_eq_right hmM]
        rw [e]
        have hpos : 0 < P1 - vcur := by linarith
        exact ⟨div_nonneg (by linarith) hpos.le, by rw [div_le_one hpos]; linarith⟩
    refine ⟨(max m (min P1 M) - vcur) / (P1 - vcur), hk.1, hk.2, ?_, ?_⟩
    · field_simp
    · field_simp
      ring
  · simp only [if_neg h]
    exact ⟨1, zero_le_one, le_refl _, by ring, by ring⟩

/-- Claim C30. For the current kind `KEYFRAME_SMOOTH` with both neighbours present and
`tprev < tcur < tnext`, the returned left and right derivatives are equal to each other and
equal to `k * (vnext - vprev) / (tnext - tprev)` for one factor `0 ≤ k ≤ 1`: the
anti-overshoot clamping scales both sides by the same factor. -/
theorem autoComputeDerivatives_smooth_scaled (kindPrev kindNext : KeyframeType)
    (tprev vprev tcur vcur tnext vnext vprevDerivRight vnextDerivLeft : ℝ)
    (hp : kindPrev ≠ KEYFRAME_NONE) (hn : kindNext ≠ KEYFRAME_NONE)
    (h1 : tprev < tcur) (h2 : tcur < tnext) :
    ∃ (d : Derivatives ℝ) (k : ℝ),
      autoComputeDerivatives kindPrev KEYFRAME_SMOOTH kindNext tprev vprev tcur vcur tnext
        vnext vprevDerivRight vnextDerivLeft = some d ∧
      0 ≤ k ∧ k ≤ 1 ∧
      d.vcurDerivLeft = k * ((vnext - vprev) / (tnext - tprev)) ∧
      d.vcurDerivRight = k * ((vnext - vprev) / (tnext - tprev)) ∧
      d.vcurDerivLeft = d.vcurDerivRight := by
  have e1 : tnext - tcur ≠ 0 := by linarith [sub_pos.mpr h2]
  have e2 : tcur - tprev ≠ 0 := by linarith [sub_pos.mpr h1]
  have e3 : tnext - tprev ≠ 0 := by linarith
  rw [autoComputeDerivatives_smooth _ _ _ _ _ _ _ _ _ _ hp hn]
  by_cases hx : (vprev > vcur ∧ vcur < vnext) ∨ (vprev < vcur ∧ vcur > vnext)
  · rw [if_pos hx]
    refine ⟨_, 0, rfl, le_refl _, zero_le_one, ?_, ?_, ?_⟩ <;> simp
  · rw [if_neg hx]
    obtain ⟨ka, ka0, ka1, a1, a2⟩ := smoothClampPrev_scale vprev vcur
      (vcur + (vnext - vprev) / (tnext - tprev) * (tnext - tcur) / 3)
      (vcur - (vnext - vprev) / (tnext - tprev) * (tcur - tprev) / 3)
    obtain ⟨kb, kb0, kb1, b1, b2⟩ := smoothClampNext_scale vcur vnext
      (smoothClampPrev vprev vcur vcur vcur
        (vcur + (vnext - vprev) / (tnext - tprev) * (tnext - tcur) / 3)
        (vcur - (vnext - vprev) / (tnext - tprev) * (tcur - tprev) / 3)).1
      (smoothClampPrev vprev vcur vcur vcur
        (vcur + (vnext - vprev) / (tnext - tprev) * (tnext - tcur) / 3)
        (vcur - (vnext - vprev) / (tnext - tprev) * (tcur - tprev) / 3)).2
    have hl : 3 * (vcur - (smoothClampNext vcur vnext vcur vcur
        (smoothClampPrev vprev vcur vcur vcur
          (vcur + (vnext - vprev) / (tnext - tprev) * (tnext - tcur) / 3)
          (vcur - (vnext - vprev) / (tnext - tprev) * (tcur - tprev) / 3)).1
        (smoothClampPrev vprev vcur vcur vcur
          (vcur + (vnext - vprev) / (tnext - tprev) * (tnext - tcur) / 3)
          (vcur - (vnext - vprev) / (tnext - tprev) * (tcur - tprev) / 3)).2).2) /
          (tcur - tprev) = kb * ka * ((vnext - vprev) / (tnext - tprev)) := by
      rw [b2, a2]
      field_simp
      ring
    have hr : 3 * ((smoothClampNext vcur vnext vcur vcur
        (smoothClampPrev vprev vcur vcur vcur
          (vcur + (vnext - vprev) / (tnext - tprev) * (tnext - tcur) / 3)
          (vcur - (vnext - vprev) / (tnext - tprev) * (tcur - tprev) / 3)).1
        (smoothClampPrev vprev vcur vcur vcur
          (vcur + (vnext - vprev) / (tnext - tprev) * (tnext - tcur) / 3)
          (vcur - (vnext - vprev) / (tnext - tprev) * (tcur - tprev) / 3)).2).1 - vcur) /
          (tnext - tcur) = kb * ka * ((vnext - vprev) / (tnext - tprev)) := by
      rw [b1, a1]
      field_simp
      ring
    exact ⟨_, kb * ka, rfl, mul_nonneg kb0 ka0, mul_le_one₀ kb1 ka0 ka1, hl, hr,
      hl.trans hr.symm⟩

/-- Claim C30 on the keyframes `0` at time `0`, `1` at time `1` and `10` at time `2`, where
the Catmull-Rom slope is `5`. -/
theorem autoComputeDerivatives_smooth_scaled_witness :
    (0 : ℝ) < 1 ∧ (1 : ℝ) < 2 ∧
      ∃ (d : Derivatives ℝ) (k : ℝ),
        autoComputeDerivatives KEYFRAME_SMOOTH KEYFRAME_SMOOTH KEYFRAME_SMOOTH (0 : ℝ) 0 1 1 2
          10 0 0 = some d ∧
        0 ≤ k ∧ k ≤ 1 ∧ d.vcurDerivLeft = k * ((10 - 0) / (2 - 0)) ∧
        d.vcurDerivRight = k * ((10 - 0) / (2 - 0)) ∧ d.vcurDerivLeft = d.vcurDerivRight :=
  ⟨by norm_num, by norm_num,
    autoComputeDerivatives_smooth_scaled KEYFRAME_SMOOTH KEYFRAME_SMOOTH 0 0 1 1 2 10 0 0
      (by decide) (by decide) (by norm_num) (by norm_num)⟩

/-! ### The transitions of `statusUpdate` -/

theorem tmod_two_ne_zero_iff (n : Int) : n.tmod 2 ≠ 0 ↔ Odd n := by
  rw [Ne, ← Int.dvd_iff_tmod_eq_zero, ← even_iff_two_dvd, Int.not_even_iff_odd]

/-- Claim C27. The mode transition function `statusUpdate` of the crossing scan: a root of
even multiplicity leaves the mode unchanged in every mode; a `SOLMAX` root of odd
multiplicity maps `CLAMPMAX` to `CUBIC` and `CUBIC` to `CLAMPMAX`; a `SOLMIN` root of odd
multiplicity maps `CLAMPMIN` to `CUBIC` and `CUBIC` to `CLAMPMIN`; hence applying the same
odd root twice from a mode it is legal in (not a `SOLMIN` root in `CLAMPMAX`, not a `SOLMAX`
root in `CLAMPMIN`) returns the original mode. -/
theorem statusUpdate_transitions (sol : Sol ℝ) :
    (Even sol.order → ∀ st : eFuncType, statusUpdate st sol = st) ∧
    (Odd sol.order → sol.type = SOLMAX →
      statusUpdate CLAMPMAX sol = CUBIC ∧ statusUpdate CUBIC sol = CLAMPMAX) ∧
    (Odd sol.order → sol.type = SOLMIN →
      statusUpdate CLAMPMIN sol = CUBIC ∧ statusUpdate CUBIC sol = CLAMPMIN) ∧
    (Odd sol.order → ∀ st : eFuncType,
      (st = CLAMPMAX → sol.type = SOLMAX) → (st = CLAMPMIN → sol.type = SOLMIN) →
      statusUpdate (statusUpdate st sol) sol = st) := by
  refine ⟨fun he st => ?_, fun ho ht => ?_, fun ho ht => ?_, fun ho st h1 h2 => ?_⟩
  · have h : ¬ sol.order.tmod 2 ≠ 0 := by
      rw [tmod_two_ne_zero_iff]
      exact Int.not_odd_iff_even.mpr he
    cases st <;> simp only [statusUpdate, if_neg h, ite_self]
  · have h := (tmod_two_ne_zero_iff sol.order).mpr ho
    have hne : ¬ sol.type = SOLMIN := by rw [ht]; decide
    simp only [statusUpdate, if_pos h, if_neg hne, and_self]
  · have h := (tmod_two_ne_zero_iff sol.order).mpr ho
    simp only [statusUpdate, if_pos h, if_pos ht, and_self]
  · have h := (tmod_two_ne_zero_iff sol.order).mpr ho
    cases st
    · have ht := h2 rfl
      simp only [statusUpdate, if_pos h, if_pos ht]
    · have ht := h1 rfl
      have hne : ¬ sol.type = SOLMIN := by rw [ht]; decide
      simp only [statusUpdate, if_pos h, if_neg hne]
    · by_cases ht : sol.type = SOLMIN
      · simp only [statusUpdate, if_pos h, if_pos ht]
      · simp only [statusUpdate, if_pos h, if_neg ht]

/-- Claim C27 on a simple `SOLMAX` root and on a double `SOLMIN` root. -/
theorem statusUpdate_transitions_witness :
    statusUpdate CLAMPMAX (⟨SOLMAX, 1 / 2, 1, -1⟩ : Sol ℝ) = CUBIC ∧
      statusUpdate CUBIC (⟨SOLMAX, 1 / 2, 1, -1⟩ : Sol ℝ) = CLAMPMAX ∧
      statusUpdate (statusUpdate CLAMPMAX (⟨SOLMAX, 1 / 2, 1, -1⟩ : Sol ℝ))
        (⟨SOLMAX, 1 / 2, 1, -1⟩ : Sol ℝ) = CLAMPMAX ∧
      statusUpdate CLAMPMIN (⟨SOLMIN, 0, 2, 0⟩ : Sol ℝ) = CLAMPMIN :=
  have w := statusUpdate_transitions (⟨SOLMAX, 1 / 2, 1, -1⟩ : Sol ℝ)
  have w2 := statusUpdate_transitions (⟨SOLMIN, 0, 2, 0⟩ : Sol ℝ)
  ⟨(w.2.1 (by decide) rfl).1, (w.2.1 (by decide) rfl).2,
    w.2.2.2 (by decide) CLAMPMAX (fun _ => rfl) (fun h => absurd h (by decide)),
    w2.1 (by decide) CLAMPMIN⟩

/-! ### The branch of `solveCubic` with one real solution -/

/-- Claim C29. Over the real numbers, for `|c3| ≥ 1e-9` and a discriminant
`D = q^2 + p^3 ≥ 1e-9`, `solveCubic` returns one root `r`, and it is an exact root:
`c0 + c1 r + c2 r^2 + c3 r^3 = 0`. The cube root `u = cbrt (sqrt D + |q|)` is not zero, the
value `y`, which is `-u + p / u` for `q > 0` and `u - p / u` otherwise, solves the depressed
cubic `y^3 + 3 p y + 2 q = 0`, and `r = y - A / 3`. -/
theorem solveCubic_one_root_exact (c0 c1 c2 c3 : ℝ) (s : Nat → ℝ) (o : Nat → Int)
    (hc3 : 1e-9 ≤ |c3|) (hD : 1e-9 ≤ cubicD c0 c1 c2 c3) :
    (solveCubic realLibm c0 c1 c2 c3 s o).num = 1 ∧
      c0 + c1 * (solveCubic realLibm c0 c1 c2 c3 s o).s 0
          + c2 * (solveCubic realLibm c0 c1 c2 c3 s o).s 0 ^ 2
          + c3 * (solveCubic realLibm c0 c1 c2 c3 s o).s 0 ^ 3 = 0 ∧
      ∀ u y : ℝ,
        u = realCbrt (Real.sqrt (cubicD c0 c1 c2 c3) + |cubicQ c0 c1 c2 c3|) →
        y = (if cubicQ c0 c1 c2 c3 > 0 then -u + cubicP c1 c2 c3 / u
          else u - cubicP c1 c2 c3 / u) →
        u ≠ 0 ∧ y ^ 3 + 3 * cubicP c1 c2 c3 * y + 2 * cubicQ c0 c1 c2 c3 = 0 ∧
          (solveCubic realLibm c0 c1 c2 c3 s o).s 0 = y - cubicA c2 c3 / 3 := by
  have h3 : ¬ isZero c3 := by rw [not_isZero_iff_abs]; exact hc3
  have h0 := ne_zero_of_not_isZero h3
  have hDpos : 0 < cubicD c0 c1 c2 c3 := lt_of_lt_of_le (by norm_num) hD
  have hDn : ¬ isZero (cubicD c0 c1 c2 c3) := by
    rw [not_isZero_iff_abs, abs_of_pos hDpos]; exact hD
  have hD' : 0 < cubicQ c0 c1 c2 c3 * cubicQ c0 c1 c2 c3 +
      cubicP c1 c2 c3 * cubicP c1 c2 c3 * cubicP c1 c2 c3 := hDpos
  have hw : 0 < Real.sqrt (cubicD c0 c1 c2 c3) + |cubicQ c0 c1 c2 c3| := by
    have := Real.sqrt_pos.mpr hDpos
    have := abs_nonneg (cubicQ c0 c1 c2 c3)
    linarith
  have hu := realCbrt_pos hw
  have key := (depressed_one_root (cubicP c1 c2 c3) (cubicQ c0 c1 c2 c3) hD').1
  simp only at key
  have hy : ∀ y : ℝ,
      y = (if cubicQ c0 c1 c2 c3 > 0 then
          -realCbrt (Real.sqrt (cubicD c0 c1 c2 c3) + |cubicQ c0 c1 c2 c3|) +
            cubicP c1 c2 c3 /
              realCbrt (Real.sqrt (cubicD c0 c1 c2 c3) + |cubicQ c0 c1 c2 c3|)
        else realCbrt (Real.sqrt (cubicD c0 c1 c2 c3) + |cubicQ c0 c1 c2 c3|) -
            cubicP c1 c2 c3 /
              realCbrt (Real.sqrt (cubicD c0 c1 c2 c3) + |cubicQ c0 c1 c2 c3|)) →
      y ^ 3 + 3 * cubicP c1 c2 c3 * y + 2 * cubicQ c0 c1 c2 c3 = 0 := by
    intro y e
    have k := key y
    rw [show cubicD c0 c1 c2 c3 = cubicQ c0 c1 c2 c3 * cubicQ c0 c1 c2 c3 +
      cubicP c1 c2 c3 * cubicP c1 c2 c3 * cubicP c1 c2 c3 from rfl] at e
    rw [← e, sub_self, zero_mul] at k
    exact k
  have hs : (solveCubic realLibm c0 c1 c2 c3 s o).s 0 =
      (if cubicQ c0 c1 c2 c3 > 0 then
          -realCbrt (Real.sqrt (cubicD c0 c1 c2 c3) + |cubicQ c0 c1 c2 c3|) +
            cubicP c1 c2 c3 /
              realCbrt (Real.sqrt (cubicD c0 c1 c2 c3) + |cubicQ c0 c1 c2 c3|)
        else realCbrt (Real.sqrt (cubicD c0 c1 c2 c3) + |cubicQ c0 c1 c2 c3|) -
            cubicP c1 c2 c3 /
              realCbrt (Real.sqrt (cubicD c0 c1 c2 c3) + |cubicQ c0 c1 c2 c3|))
        - cubicA c2 c3 / 3 := by
    rw [solveCubic_one realLibm _ _ _ _ s o h3 hDn (not_lt.mpr hDpos.le)]
    simp only [realLibm, resubstitute, Function.update_same, Nat.lt_one_iff, if_true]
    ring
  refine ⟨?_, ?_, ?_⟩
  · rw [solveCubic_one realLibm _ _ _ _ s o h3 hDn (not_lt.mpr hDpos.le)]
  · rw [cubic_depressed c0 c1 c2 c3 _ h0, hs]
    have e := hy _ rfl
    have r : ∀ z : ℝ, z - cubicA c2 c3 / 3 + 1 / 3 * cubicA c2 c3 = z := fun z => by ring
    rw [r, e, mul_zero]
  · intro u y hu' hy'
    subst hu'
    exact ⟨hu.ne', hy y hy', by rw [hs, hy']⟩

/-- Claim C29 on `x^3 - 8`, where `p = 0`, `q = -4` and `D = 16`: the returned root is an
exact root. -/
theorem solveCubic_one_root_exact_witness :
    (1e-9 : ℝ) ≤ |1| ∧ (1e-9 : ℝ) ≤ cubicD (-8) 0 0 1 ∧
      (solveCubic realLibm (-8) 0 0 1 (fun _ => 0) (fun _ => 0)).num = 1 ∧
      (-8 : ℝ) + 0 * (solveCubic realLibm (-8) 0 0 1 (fun _ => 0) (fun _ => 0)).s 0
          + 0 * (solveCubic realLibm (-8) 0 0 1 (fun _ => 0) (fun _ => 0)).s 0 ^ 2
          + 1 * (solveCubic realLibm (-8) 0 0 1 (fun _ => 0) (fun _ => 0)).s 0 ^ 3 = 0 := by
  have h1 : (1e-9 : ℝ) ≤ |1| := by norm_num
  have h2 : (1e-9 : ℝ) ≤ cubicD (-8) 0 0 1 := by
    norm_num [cubicD, cubicQ, cubicP, cubicA]
  have w := solveCubic_one_root_exact (-8) 0 0 1 (fun _ => 0) (fun _ => 0) h1 h2
  exact ⟨h1, h2, w.1, w.2.1⟩

/-! ### The assertion on the resolvent cubic of `solveQuartic` -/

theorem solveQuartic_assert_eq (L : Libm ℝ) (c0 c1 c2 c3 c4 : ℝ) (s : Nat → ℝ) (o : Nat → Int) :
    solveQuartic_assert L c0 c1 c2 c3 c4 s o =
      if isZero c4 then True
      else if isZero (quarticR c0 c1 c2 c3 c4) then True
      else (quarticResolvent L c0 c1 c2 c3 c4 s o).num = 1 := by
  simp only [solveQuartic_assert, quarticResolvent, quarticR, quarticP, quarticQ, quarticA]

/-- Claim C26, the code at the failing input `x^4 - 3`. The leading coefficient `1` is not
near zero and the depressed constant term is `r = -3`; the resolvent call is
`solveCubic(0, 3, 0, -1)`, whose discriminant is `-1`, so it returns three roots and the
assertion `num == 1` fails. -/
theorem solveQuartic_assert_fails :
    (1e-9 : ℝ) ≤ |1| ∧ quarticR (-3 : ℝ) 0 0 0 1 = -3 ∧ ¬ isZero (quarticR (-3 : ℝ) 0 0 0 1) ∧
      quarticResolvent realLibm (-3) 0 0 0 1 (fun _ => 0) (fun _ => 0) =
        solveCubic realLibm 0 3 0 (-1) (fun _ => 0) (fun _ => 0) ∧
      cubicD (0 : ℝ) 3 0 (-1) = -1 ∧
      (quarticResolvent realLibm (-3) 0 0 0 1 (fun _ => 0) (fun _ => 0)).num = 3 ∧
      ¬ solveQuartic_assert realLibm (-3) 0 0 0 1 (fun _ => 0) (fun _ => 0) := by
  have hR : quarticR (-3 : ℝ) 0 0 0 1 = -3 := by norm_num [quarticR, quarticA]
  have hP : quarticP (0 : ℝ) 0 1 = 0 := by norm_num [quarticP, quarticA]
  have hQ : quarticQ (0 : ℝ) 0 0 1 = 0 := by norm_num [quarticQ, quarticA]
  have hRn : ¬ isZero (quarticR (-3 : ℝ) 0 0 0 1) := by
    rw [hR, not_isZero_iff_abs]; norm_num
  have h3 : ¬ isZero (-1 : ℝ) := by rw [not_isZero_iff_abs]; norm_num
  have hq : cubicQ (0 : ℝ) 3 0 (-1) = 0 := by norm_num [cubicQ, cubicA]
  have hp : cubicP (3 : ℝ) 0 (-1) = -1 := by norm_num [cubicP, cubicA]
  have hD : cubicD (0 : ℝ) 3 0 (-1) = -1 := by rw [cubicD, hq, hp]; norm_num
  have hDn : ¬ isZero (cubicD (0 : ℝ) 3 0 (-1)) := by
    rw [hD, not_isZero_iff_abs]; norm_num
  have e : quarticResolvent realLibm (-3) 0 0 0 1 (fun _ => 0) (fun _ => 0) =
      solveCubic realLibm 0 3 0 (-1) (fun _ => 0) (fun _ => 0) := by
    unfold quarticResolvent
    rw [hR, hP, hQ]
    norm_num
  have hnum : (quarticResolvent realLibm (-3) 0 0 0 1 (fun _ => 0) (fun _ => 0)).num = 3 := by
    rw [e, solveCubic_three realLibm _ _ _ _ _ _ h3 hDn (by rw [hD]; norm_num)]
  refine ⟨by norm_num, hR, hRn, e, hD, hnum, ?_⟩
  rw [solveQuartic_assert_eq, if_neg not_isZero_one, if_neg hRn, hnum]
  decide

/-! ### The segment functions at an open boundary -/

/-- The segment after the last keyframe (`interpNext` is `KEYFRAME_NONE`): a line through
`vcur` at `tcur` whose slope is `vcurDerivRight * (tnext - tcur)`, with `tnext` the argument
of the call. -/
theorem interpolate_next_absent (tcur vcur vcurDerivRight vnextDerivLeft tnext vnext q : ℝ)
    (interp : KeyframeType) (hk1 : interp ≠ KEYFRAME_NONE) (hk2 : interp ≠ KEYFRAME_CONSTANT) :
    interpolate tcur vcur vcurDerivRight vnextDerivLeft tnext vnext q interp KEYFRAME_NONE =
        vcur + vcurDerivRight * (tnext - tcur) * (q - tcur) ∧
      derive tcur vcur vcurDerivRight vnextDerivLeft tnext vnext q interp KEYFRAME_NONE =
        vcurDerivRight * (tnext - tcur) := by
  constructor
  · simp only [interpolate, segmentSetup, Segment.coeffs, hermiteToCubicCoeffs, cubicEval,
      if_neg hk1, if_neg hk2, if_true]
    have e : tcur + 1 - tcur = (1 : ℝ) := by ring
    rw [e]
    ring
  · simp only [derive, segmentSetup, Segment.coeffs, hermiteToCubicCoeffs, cubicDerive,
      if_neg hk1, if_neg hk2, if_true]
    have e : tcur + 1 - tcur = (1 : ℝ) := by ring
    rw [e]
    ring

/-- The segment before the first keyframe (`interp` is `KEYFRAME_NONE`): a line through
`vnext` at `tnext` whose slope is `vnextDerivLeft * (tnext - tcur)`, with `tcur` the argument
of the call. -/
theorem interpolate_prev_absent (tcur vcur vcurDerivRight vnextDerivLeft tnext vnext q : ℝ)
    (interpNext : KeyframeType) (hk : interpNext ≠ KEYFRAME_NONE) :
    interpolate tcur vcur vcurDerivRight vnextDerivLeft tnext vnext q KEYFRAME_NONE interpNext =
        vnext + vnextDerivLeft * (tnext - tcur) * (q - tnext) ∧
      derive tcur vcur vcurDerivRight vnextDerivLeft tnext vnext q KEYFRAME_NONE interpNext =
        vnextDerivLeft * (tnext - tcur) := by
  constructor
  · simp only [interpolate, segmentSetup, Segment.coeffs, hermiteToCubicCoeffs, cubicEval,
      if_neg hk, if_true]
    have e : tnext - (tnext - 1) = (1 : ℝ) := by ring
    rw [e]
    ring
  · simp only [derive, segmentSetup, Segment.coeffs, hermiteToCubicCoeffs, cubicDerive,
      if_neg hk, if_true]
    have e : tnext - (tnext - 1) = (1 : ℝ) := by ring
    rw [e]
    ring

/-- Claim C25, the code at two failing inputs, where the `tnext - tcur` of the call is `2`.
After the last keyframe `0` at time `0` with right derivative `1`, the value at time `1`
is `2` and the derivative is `2`, where the line with the one-sided derivative gives `1` and
`1`. Before the first keyframe `0` at time `2` with left derivative `1`, the value at time
`1` is `-2` and the derivative is `2`, where the line gives `-1` and `1`. -/
theorem interpolate_open_boundary_fails :
    (interpolate (0 : ℝ) 0 1 0 2 0 1 KEYFRAME_LINEAR KEYFRAME_NONE = 2 ∧
      derive (0 : ℝ) 0 1 0 2 0 1 KEYFRAME_LINEAR KEYFRAME_NONE = 2 ∧
      (0 : ℝ) + 1 * (1 - 0) = 1) ∧
    (interpolate (0 : ℝ) 0 0 1 2 0 1 KEYFRAME_NONE KEYFRAME_LINEAR = -2 ∧
      derive (0 : ℝ) 0 0 1 2 0 1 KEYFRAME_NONE KEYFRAME_LINEAR = 2 ∧
      (0 : ℝ) + 1 * (1 - 2) = -1) := by
  have a := interpolate_next_absent (0 : ℝ) 0 1 0 2 0 1 KEYFRAME_LINEAR (by decide) (by decide)
  have b := interpolate_prev_absent (0 : ℝ) 0 0 1 2 0 1 KEYFRAME_LINEAR (by decide)
  refine ⟨⟨?_, ?_, by norm_num⟩, ?_, ?_, by norm_num⟩
  · rw [a.1]; norm_num
  · rw [a.2]; norm_num
  · rw [b.1]; norm_num
  · rw [b.2]; norm_num

/-! ### The assertions of the crossing scan on the segment `30 t^2 - 20 t^3` -/

theorem sqrt_three_lt : Real.sqrt 3 < 7 / 4 := by
  have h3 : Real.sqrt 3 ^ 2 = 3 := Real.sq_sqrt (by norm_num)
  have hpos := Real.sqrt_nonneg 3
  by_contra hcon
  push_neg at hcon
  nlinarith

/-- The solutions of `30 t^2 - 20 t^3 = 1e-7` that `solveCubic` returns: the discriminant is
inside the near-zero band, so there is a simple solution a little before `3/2` and one double
solution a little after `0`, where the cubic has two simple solutions near `±5.8e-5`. -/
theorem scenario_low_roots (s : Nat → ℝ) (o : Nat → Int) :
    isZero (cubicD ((0 : ℝ) - 1 / 10000000) 0 30 (-20)) ∧
      (solveCubic realLibm ((0 : ℝ) - 1 / 10000000) 0 30 (-20) s o).num = 2 ∧
      37 / 25 ≤ (solveCubic realLibm ((0 : ℝ) - 1 / 10000000) 0 30 (-20) s o).s 0 ∧
      (solveCubic realLibm ((0 : ℝ) - 1 / 10000000) 0 30 (-20) s o).o 0 = 1 ∧
      1 / 1000000000 < (solveCubic realLibm ((0 : ℝ) - 1 / 10000000) 0 30 (-20) s o).s 1 ∧
      (solveCubic realLibm ((0 : ℝ) - 1 / 10000000) 0 30 (-20) s o).s 1 < 1 / 100 ∧
      (solveCubic realLibm ((0 : ℝ) - 1 / 10000000) 0 30 (-20) s o).o 1 = 2 := by
  have eA : cubicA (30 : ℝ) (-20) = -3 / 2 := by norm_num [cubicA]
  have eQ : cubicQ ((0 : ℝ) - 1 / 10000000) 0 30 (-20) = -1 / 8 + 1 / 400000000 := by
    rw [scenario_min_Q]; norm_num
  have hq : ¬ isZero (cubicQ ((0 : ℝ) - 1 / 10000000) 0 30 (-20)) := by
    rw [eQ, not_isZero_iff_abs, abs_of_neg (by norm_num)]
    norm_num
  have hD : isZero (cubicD ((0 : ℝ) - 1 / 10000000) 0 30 (-20)) := by
    rw [scenario_min_D, isZero_iff_abs, abs_of_neg (by norm_num)]
    norm_num
  refine ⟨hD, ?_⟩
  rw [solveCubic_double realLibm _ _ _ _ s o not_isZero_neg_twenty hD hq, eA, eQ]
  have hu3 := realCbrt_pow_three (-(-1 / 8 + 1 / 400000000))
  simp only [realLibm, resubstitute]
  generalize realCbrt (-(-1 / 8 + 1 / 400000000)) = u at hu3
  have hu1 : 49 / 100 < u := by
    by_contra hcon
    push_neg at hcon
    by_cases hneg : u < 0
    · nlinarith [sq_nonneg u]
    · push_neg at hneg
      have : u ^ 3 ≤ (49 / 100) ^ 3 := pow_le_pow_left₀ hneg hcon 3
      norm_num at this hu3
      linarith
  have hu2 : u < 1 / 2 - 1 / 1000000000 := by
    by_contra hcon
    push_neg at hcon
    have : (1 / 2 - 1 / 1000000000 : ℝ) ^ 3 ≤ u ^ 3 :=
      pow_le_pow_left₀ (by norm_num) hcon 3
    norm_num at this hu3
    linarith
  refine ⟨trivial, ?_, by simp [Function.update], ?_, ?_, by simp [Function.update]⟩
  · norm_num [Function.update]
    linarith
  · norm_num [Function.update]
    linarith
  · norm_num [Function.update]
    linarith

theorem scenario_low_sort (ta tb d0 d1 d2 d3 d4 : ℝ) (ha : 37 / 25 ≤ ta) (hb : 0 < tb)
    (hb' : tb < 1 / 100) :
    sortSols [(⟨SOLMAX, 1 / 2 + Real.sqrt 3 / 2, 1, d0⟩ : Sol ℝ), ⟨SOLMAX, 1 / 2, 1, d1⟩,
        ⟨SOLMAX, 1 / 2 - Real.sqrt 3 / 2, 1, d2⟩, ⟨SOLMIN, ta, 1, d3⟩, ⟨SOLMIN, tb, 2, d4⟩] =
      [⟨SOLMAX, 1 / 2 - Real.sqrt 3 / 2, 1, d2⟩, ⟨SOLMIN, tb, 2, d4⟩, ⟨SOLMAX, 1 / 2, 1, d1⟩,
        ⟨SOLMAX, 1 / 2 + Real.sqrt 3 / 2, 1, d0⟩, ⟨SOLMIN, ta, 1, d3⟩] := by
  obtain ⟨b1, _⟩ := sqrt_three_bounds
  have b2 := sqrt_three_lt
  have i0 : tb < ta := by linarith
  have i1 : ¬ (tb < 1 / 2 - Real.sqrt 3 / 2) := by linarith
  have i2 : (1 / 2 - Real.sqrt 3 / 2 : ℝ) < 1 / 2 := by linarith
  have i3 : ¬ (ta < 1 / 2) := by linarith
  have i4 : (1 / 2 - Real.sqrt 3 / 2 : ℝ) < 1 / 2 + Real.sqrt 3 / 2 := by linarith
  have i5 : (1 / 2 : ℝ) < 1 / 2 + Real.sqrt 3 / 2 := by linarith
  have i6 : ¬ (ta < 1 / 2 + Real.sqrt 3 / 2) := by linarith
  have i7 : tb < 1 / 2 := by linarith
  have i8 : tb < 1 / 2 + Real.sqrt 3 / 2 := by linarith
  simp only [sortSols, List.insertionSort, List.orderedInsert, Sol_less_than_t, i0, i1, i2, i3,
    i4, i5, i6, i7, i8, not_true_eq_false, not_false_eq_true, if_true, if_false]

/-- Claim C28, the code at a failing input: the segment from `0` at time `0` to `10` at time
`1` with zero derivatives, between two smooth keyframes, clamped to `[1e-7, 5]` and
integrated over `[0, 1]`. The assertion at the head of `integrate_clamp` holds. The first
solution is the `SOLMAX` solution `1/2 - √3/2`, which is passed before time `0` and leaves
the status `CUBIC`; the next one is the double `SOLMIN` solution `tb`, with
`1e-9 < tb < 1/100`, where the derivative `60 tb - 60 tb^2` is larger than `1e-9`, so the
assertion `sol.deriv <= EQN_EPS` of `statusUpdate` fails. -/
theorem integrate_clamp_assert_fails :
    (0 : ℝ) < 1 ∧ (1 / 10000000 : ℝ) < 5 ∧
      integrate_assert (0 : ℝ) 1 0 1 KEYFRAME_SMOOTH KEYFRAME_SMOOTH ∧
      (∃ ta tb : ℝ, 1 / 1000000000 < tb ∧ tb < 1 / 100 ∧
        sortSols (clampSols realLibm 0 0 30 (-20) (1 / 10000000) 5) =
          [⟨SOLMAX, 1 / 2 - Real.sqrt 3 / 2, 1,
              cubicDerive 0 0 30 (-20) (1 / 2 - Real.sqrt 3 / 2)⟩,
            ⟨SOLMIN, tb, 2, cubicDerive 0 0 30 (-20) tb⟩,
            ⟨SOLMAX, 1 / 2, 1, cubicDerive 0 0 30 (-20) (1 / 2)⟩,
            ⟨SOLMAX, 1 / 2 + Real.sqrt 3 / 2, 1,
              cubicDerive 0 0 30 (-20) (1 / 2 + Real.sqrt 3 / 2)⟩,
            ⟨SOLMIN, ta, 1, cubicDerive 0 0 30 (-20) ta⟩] ∧
        EQN_EPS < cubicDerive 0 0 30 (-20) tb ∧
        ¬ statusUpdate_assert CUBIC (⟨SOLMIN, tb, 2, cubicDerive 0 0 30 (-20) tb⟩ : Sol ℝ)) ∧
      ¬ integrate_clamp_assert realLibm 0 0 0 0 1 10 0 1 (1 / 10000000) 5 KEYFRAME_SMOOTH
        KEYFRAME_SMOOTH := by
  obtain ⟨m0, m1, m2, m3, m4, m5, m6⟩ := scenario_max_roots (fun _ => 0) (fun _ => 0)
  obtain ⟨_, n0, n1, n2, n3, n4, n5⟩ := scenario_low_roots (fun _ => 0) (fun _ => 0)
  have hs : clampSols realLibm 0 0 30 (-20) (1 / 10000000) 5 =
      [⟨SOLMAX, 1 / 2 + Real.sqrt 3 / 2, 1,
          cubicDerive 0 0 30 (-20) (1 / 2 + Real.sqrt 3 / 2)⟩,
        ⟨SOLMAX, 1 / 2, 1, cubicDerive 0 0 30 (-20) (1 / 2)⟩,
        ⟨SOLMAX, 1 / 2 - Real.sqrt 3 / 2, 1,
          cubicDerive 0 0 30 (-20) (1 / 2 - Real.sqrt 3 / 2)⟩,
        ⟨SOLMIN, (solveCubic realLibm ((0 : ℝ) - 1 / 10000000) 0 30 (-20) (fun _ => 0)
            (fun _ => 0)).s 0, 1,
          cubicDerive 0 0 30 (-20) ((solveCubic realLibm ((0 : ℝ) - 1 / 10000000) 0 30 (-20)
            (fun _ => 0) (fun _ => 0)).s 0)⟩,
        ⟨SOLMIN, (solveCubic realLibm ((0 : ℝ) - 1 / 10000000) 0 30 (-20) (fun _ => 0)
            (fun _ => 0)).s 1, 2,
          cubicDerive 0 0 30 (-20) ((solveCubic realLibm ((0 : ℝ) - 1 / 10000000) 0 30 (-20)
            (fun _ => 0) (fun _ => 0)).s 1)⟩] := by
    simp only [clampSols, m0, n0, m1, m2, m3, m4, m5, m6, n2, n5,
      show List.range 3 = [0, 1, 2] from rfl, show List.range 2 = [0, 1] from rfl,
      List.map_cons, List.map_nil, List.cons_append, List.nil_append]
  generalize (solveCubic realLibm ((0 : ℝ) - 1 / 10000000) 0 30 (-20) (fun _ => 0)
    (fun _ => 0)).s 0 = ta at hs n1
  generalize (solveCubic realLibm ((0 : ℝ) - 1 / 10000000) 0 30 (-20) (fun _ => 0)
    (fun _ => 0)).s 1 = tb at hs n3 n4
  have hb0 : (0 : ℝ) < tb := lt_trans (by norm_num) n3
  have hsort := scenario_low_sort ta tb (cubicDerive 0 0 30 (-20) (1 / 2 + Real.sqrt 3 / 2))
    (cubicDerive 0 0 30 (-20) (1 / 2)) (cubicDerive 0 0 30 (-20) (1 / 2 - Real.sqrt 3 / 2))
    (cubicDerive 0 0 30 (-20) ta) (cubicDerive 0 0 30 (-20) tb) n1 hb0 n4
  rw [← hs] at hsort
  have hderiv : (EQN_EPS : ℝ) < cubicDerive 0 0 30 (-20) tb := by
    rw [cubicDerive_eq]
    unfold EQN_EPS
    nlinarith
  have hassert : ¬ statusUpdate_assert CUBIC
      (⟨SOLMIN, tb, 2, cubicDerive 0 0 30 (-20) tb⟩ : Sol ℝ) := by
    simp only [statusUpdate_assert, if_true]
    exact not_le.mpr hderiv
  refine ⟨by norm_num, by norm_num, ?_, ⟨ta, tb, n3, n4, hsort, hderiv, hassert⟩, ?_⟩
  · unfold integrate_assert
    exact ⟨Or.inr (le_refl _), by norm_num, Or.inl (le_refl _)⟩
  · obtain ⟨b1, _⟩ := sqrt_three_bounds
    have j1 : (1 / 2 - Real.sqrt 3 / 2 : ℝ) ≤ 0 := by linarith
    have j2 : ¬ (tb ≤ 0) := not_le.mpr hb0
    have j3 : tb < 1 := by linarith
    simp only [integrate_clamp_assert, scenario_coeffs, scenario_times.1, scenario_times.2,
      sub_self, zero_div, sub_zero, div_one, hsort, if_true, statusAtT1, j1, j2, if_false,
      statusUpdate, tmod_one_two, ne_eq, not_true_eq_false, not_false_eq_true,
      integrateSpans_assert, j3]
    intro h
    exact hassert h.2.2.1

end Natron
